import Mathlib

/-!
# Minesweeper (`script.js`): a shallow embedding of the game engine

The class `Minesweeper` of `script.js` is embedded as a record of its fields and
one Lean function per method.  What is kept of the DOM is what the methods write
to: the class list, text and `dataset.num` of every cell's element and the emoji
of the reset button (it is the only place where a win and a loss differ).  The
modal dialog, the timer display and the event wiring are left out.

* A method that would raise a `TypeError` (reading a field of `undefined`, as
  `this.grid[r][c].isFlagged` does outside the grid) returns `Err.typeError`.
* `this.config` is a plain object: `this.config[difficulty]` is the entry of that
  name, or else the value that the object inherits from `Object.prototype` under
  that name (`constructor`, `toString`, ...), or else `undefined`.  An inherited
  value has no field `rows`, `cols` or `mines`, so that `startNewGame` assigns
  `undefined` to `this.rows`, `this.cols` and `this.mines` and leaves the grid
  empty.  The record keeps numbers in these fields; `undefined` is recorded as `0`
  there, which the loop heads `r < this.rows` and `c < this.cols` of `renderBoard`
  do not tell from `undefined`, and no other code reads the three fields while the
  grid is empty (every click stops at `this.grid[r][c]`).
* `Math.random` is an input: `placeMines` takes the list of pairs
  `(Math.floor(Math.random() * rows), Math.floor(Math.random() * cols))` that its
  loop draws, in order; when the list ends before the loop does, the result is
  `Err.outOfPicks`.
* The recursion of `revealCell` is bounded by a depth counter; `Err.outOfFuel`
  is returned when the counter is used up.
-/

namespace Bomb

/-- Ways in which a run of a method does not produce a state. -/
inductive Err where
  | typeError
  | outOfPicks
  | outOfFuel
  deriving DecidableEq, Repr

deriving instance DecidableEq for Except

/-- The text of a cell element: empty, the flag emoji, the bomb emoji or a number. -/
inductive Text where
  | empty
  | flag
  | bomb
  | num (n : Nat)
  deriving DecidableEq, Repr

/-- The part of a cell's DOM element that the game writes to: membership of the
classes `revealed`, `flagged`, `mine`, `hit-mine`, the text and `dataset.num`. -/
structure Element where
  revealed : Bool
  flagged : Bool
  mine : Bool
  hitMine : Bool
  textContent : Text
  num : Option Nat
  deriving DecidableEq, Repr

/-- One entry of a row of `this.grid` (`renderBoard`, lines 96-102). -/
structure Cell where
  element : Element
  isMine : Bool
  isRevealed : Bool
  isFlagged : Bool
  neighborMines : Nat
  deriving DecidableEq, Repr

/-- One entry of `this.config`. -/
structure Settings where
  rows : Nat
  cols : Nat
  mines : Nat
  deriving DecidableEq, Repr

/-- The emoji of the reset button: sunglasses (set by `startNewGame`), party
(set by `triggerGameOver(true)`), dizzy (set by `triggerGameOver(false)`). -/
inductive Emoji where
  | cool
  | party
  | dizzy
  deriving DecidableEq, Repr

abbrev Grid := List (List Cell)

/-- The fields of a `Minesweeper` object. `timerInterval` and `gameOverTimeout`
record whether the handle is set (non-null). -/
structure Minesweeper where
  config : List (String × Settings)
  rows : Nat
  cols : Nat
  mines : Nat
  grid : Grid
  gameOver : Bool
  firstClick : Bool
  flags : Int
  timer : Nat
  timerInterval : Bool
  gameOverTimeout : Bool
  emoji : Emoji
  deriving DecidableEq, Repr

/-- The table `this.config` that the constructor installs (lines 13-17). -/
def defaultConfig : List (String × Settings) :=
  [("easy", ⟨9, 9, 10⟩), ("medium", ⟨16, 16, 40⟩), ("hard", ⟨16, 30, 99⟩)]

/-- Value of `this.grid[r][c]`: `none` stands for `undefined` (or for the
`TypeError` of indexing `undefined`, when row `r` does not exist). -/
def getCell (grid : Grid) (r c : Int) : Option Cell :=
  if 0 ≤ r ∧ 0 ≤ c then (grid[r.toNat]?).bind (fun row => row[c.toNat]?) else none

/-- Reading a field of `this.grid[r][c]`: a `TypeError` outside the grid. -/
def cellAt (grid : Grid) (r c : Int) : Except Err Cell :=
  match getCell grid r c with
  | some cell => .ok cell
  | none => .error .typeError

/-- Assignment to fields of the object `this.grid[r][c]`. -/
def modifyCell (grid : Grid) (r c : Int) (f : Cell → Cell) : Grid :=
  if 0 ≤ r ∧ 0 ≤ c then List.modify (fun row => List.modify f c.toNat row) r.toNat grid
  else grid

/-- The loops `for r < rows, for c < cols` shared by `calculateNumbers`,
`revealAllMines` and `checkWin`. -/
def forCells {σ : Type} (rows cols : Nat) (body : σ → Nat → Nat → Except Err σ) (init : σ) :
    Except Err σ :=
  (List.range rows).foldlM
    (fun acc r => (List.range cols).foldlM (fun acc2 c => body acc2 r c) acc) init

/-- The cell object pushed by `renderBoard` (lines 96-102). -/
def freshCell : Cell :=
  { element := ⟨false, false, false, false, .empty, none⟩
    isMine := false, isRevealed := false, isFlagged := false, neighborMines := 0 }

/-- The method `renderBoard` (lines 80-106): pushes `rows` rows of `cols` fresh cells
onto `this.grid`. -/
def renderBoard (s : Minesweeper) : Minesweeper :=
  let newRow : List Cell := (List.range s.cols).foldl (fun row _ => row ++ [freshCell]) []
  let grid := (List.range s.rows).foldl (fun grid _ => grid ++ [newRow]) s.grid
  { s with grid := grid }

/-- The method `stopTimer` (lines 258-263). -/
def stopTimer (s : Minesweeper) : Minesweeper :=
  { s with timerInterval := false }

/-- The method `startTimer` (lines 251-256). -/
def startTimer (s : Minesweeper) : Minesweeper :=
  { s with timerInterval := true }

/-- The names of the properties that a plain object inherits from `Object.prototype`
(ECMAScript, sections "Properties of the Object Prototype Object" and, for the names
with underscores, Annex B). -/
def objectPrototypeNames : List String :=
  ["constructor", "hasOwnProperty", "isPrototypeOf", "propertyIsEnumerable",
   "toLocaleString", "toString", "valueOf", "__proto__", "__defineGetter__",
   "__defineSetter__", "__lookupGetter__", "__lookupSetter__"]

/-- Value of `this.config[difficulty]` (line 57): an entry of the table, a function or
object inherited from `Object.prototype` (it has no field `rows`, `cols` or `mines`), or
`undefined`. -/
inductive ConfigValue where
  | entry (settings : Settings)
  | inherited
  | undefined
  deriving DecidableEq, Repr

/-- The property read `this.config[difficulty]` (line 57): the own property of that
name if there is one, else the property inherited from `Object.prototype`. -/
def readConfig (config : List (String × Settings)) (difficulty : String) : ConfigValue :=
  match config.lookup difficulty with
  | some settings => .entry settings
  | none => if difficulty ∈ objectPrototypeNames then .inherited else .undefined

/-- Lines 62-77 of `startNewGame`, with the values written to `this.rows`, `this.cols`
and `this.mines` by lines 58-60. -/
def resetGame (s : Minesweeper) (rows cols mines : Nat) : Minesweeper :=
  let s1 := { s with rows := rows, cols := cols, mines := mines,
                     grid := [], gameOver := false, firstClick := true, flags := 0 }
  let s2 := stopTimer s1
  let s3 := { s2 with gameOverTimeout := false, timer := 0, emoji := .cool }
  renderBoard s3

/-- The method `startNewGame` (lines 56-78). When `settings` is `undefined`, reading
`settings.rows` (line 58) is a `TypeError`. When `settings` is a value inherited from
`Object.prototype`, `settings.rows`, `settings.cols` and `settings.mines` are
`undefined` and nothing is raised: the three fields of the game, `undefined` in the
code, are recorded as `0`, and `renderBoard` leaves the grid empty. -/
def startNewGame (s : Minesweeper) (difficulty : String) : Except Err Minesweeper :=
  match readConfig s.config difficulty with
  | .undefined => .error .typeError
  | .entry settings => .ok (resetGame s settings.rows settings.cols settings.mines)
  | .inherited => .ok (resetGame s 0 0 0)

/-- The loop of `placeMines` (lines 149-160), on the picks that are left. -/
def placeMinesLoop (mines : Nat) (safeR safeC : Int) :
    List (Nat × Nat) → Nat → Grid → Except Err Grid
  | [], minesPlaced, grid => if minesPlaced < mines then .error .outOfPicks else .ok grid
  | (r, c) :: picks, minesPlaced, grid =>
    if minesPlaced < mines then
      if |(r : Int) - safeR| ≤ 1 ∧ |(c : Int) - safeC| ≤ 1 then
        placeMinesLoop mines safeR safeC picks minesPlaced grid
      else
        match cellAt grid r c with
        | .error e => .error e
        | .ok cell =>
          if !cell.isMine then
            placeMinesLoop mines safeR safeC picks (minesPlaced + 1)
              (modifyCell grid r c (fun x => { x with isMine := true }))
          else
            placeMinesLoop mines safeR safeC picks minesPlaced grid
    else .ok grid

/-- The method `placeMines` (lines 147-161). -/
def placeMines (mines : Nat) (grid : Grid) (safeR safeC : Int) (picks : List (Nat × Nat)) :
    Except Err Grid :=
  placeMinesLoop mines safeR safeC picks 0 grid

/-- The offsets `(i, j)` in the order of the loops `for i = -1..1, for j = -1..1`. -/
def offsets : List (Int × Int) :=
  [(-1, -1), (-1, 0), (-1, 1), (0, -1), (0, 0), (0, 1), (1, -1), (1, 0), (1, 1)]

/-- The inner loops of `calculateNumbers` (lines 168-177): `count` for the cell `(r, c)`. -/
def countAround (rows cols : Nat) (grid : Grid) (r c : Int) : Except Err Nat :=
  offsets.foldlM (fun count ij =>
    let nr := r + ij.1
    let nc := c + ij.2
    if nr ≥ 0 ∧ nr < rows ∧ nc ≥ 0 ∧ nc < cols then
      match cellAt grid nr nc with
      | .error e => .error e
      | .ok cell => .ok (if cell.isMine then count + 1 else count)
    else .ok count) 0

/-- The method `calculateNumbers` (lines 163-181). -/
def calculateNumbers (rows cols : Nat) (grid : Grid) : Except Err Grid :=
  forCells rows cols (fun grid r c =>
    match cellAt grid r c with
    | .error e => .error e
    | .ok cell =>
      if cell.isMine then .ok grid
      else
        match countAround rows cols grid r c with
        | .error e => .error e
        | .ok count => .ok (modifyCell grid r c (fun x => { x with neighborMines := count })))
    grid

/-- What `revealCell` writes to the cell it reveals (lines 189-194). -/
def revealWrite (x : Cell) : Cell :=
  if x.neighborMines > 0 then
    { x with isRevealed := true
             element := { x.element with revealed := true, textContent := .num x.neighborMines,
                                         num := some x.neighborMines } }
  else
    { x with isRevealed := true, element := { x.element with revealed := true } }

/-- The method `revealCell` (lines 183-203); the first argument bounds the depth of
the recursion. -/
def revealCell (rows cols : Nat) : Nat → Grid → Int → Int → Except Err Grid
  | 0, _, _, _ => .error .outOfFuel
  | fuel + 1, grid, r, c =>
    if r < 0 ∨ r ≥ rows ∨ c < 0 ∨ c ≥ cols then .ok grid
    else
      match cellAt grid r c with
      | .error e => .error e
      | .ok cell =>
        if cell.isRevealed || cell.isFlagged then .ok grid
        else
          let grid1 := modifyCell grid r c revealWrite
          if cell.neighborMines > 0 then .ok grid1
          else offsets.foldlM (fun g ij => revealCell rows cols fuel g (r + ij.1) (c + ij.2)) grid1

/-- What `revealAllMines` writes to the element of the mined cell `(r, c)` (lines 228-232). -/
def mineWrite (hitR hitC r c : Int) (x : Cell) : Cell :=
  { x with element := { x.element with
      mine := true, textContent := .bomb,
      hitMine := if r = hitR ∧ c = hitC then true else x.element.hitMine } }

/-- The method `revealAllMines` (lines 223-236). -/
def revealAllMines (rows cols : Nat) (grid : Grid) (hitR hitC : Int) : Except Err Grid :=
  forCells rows cols (fun grid r c =>
    match cellAt grid r c with
    | .error e => .error e
    | .ok cell =>
      if cell.isMine then .ok (modifyCell grid r c (mineWrite hitR hitC r c))
      else .ok grid)
    grid

/-- The method `triggerGameOver` (lines 205-221); `hitR` and `hitC` default to `-1` in
the source and are passed explicitly here. -/
def triggerGameOver (s : Minesweeper) (win : Bool) (hitR hitC : Int) : Except Err Minesweeper :=
  let s1 := stopTimer { s with gameOver := true }
  if win then .ok { s1 with emoji := .party }
  else
    match revealAllMines s1.rows s1.cols s1.grid hitR hitC with
    | .error e => .error e
    | .ok g => .ok { s1 with emoji := .dizzy, grid := g, gameOverTimeout := true }

/-- The counting loops of `checkWin` (lines 239-244). -/
def revealedCount (rows cols : Nat) (grid : Grid) : Except Err Nat :=
  forCells rows cols (fun count r c =>
    match cellAt grid r c with
    | .error e => .error e
    | .ok cell => .ok (if cell.isRevealed then count + 1 else count)) 0

/-- The method `checkWin` (lines 238-249). -/
def checkWin (s : Minesweeper) : Except Err Minesweeper :=
  match revealedCount s.rows s.cols s.grid with
  | .error e => .error e
  | .ok n =>
    if (n : Int) = (s.rows : Int) * s.cols - s.mines then triggerGameOver s true (-1) (-1)
    else .ok s

/-- The block that `handleLeftClick` runs on the first click (lines 111-116). -/
def firstClickBlock (s : Minesweeper) (r c : Int) (picks : List (Nat × Nat)) :
    Except Err Minesweeper :=
  if s.firstClick then
    match placeMines s.mines s.grid r c picks with
    | .error e => .error e
    | .ok g1 =>
      match calculateNumbers s.rows s.cols g1 with
      | .error e => .error e
      | .ok g2 => .ok { startTimer { s with grid := g2 } with firstClick := false }
  else .ok s

/-- The end of `handleLeftClick` (lines 118-124): lose on a mine, else reveal and check
for a win. The recursion of `revealCell` is given the depth `rows * cols + 1`. -/
def revealOrLose (s : Minesweeper) (r c : Int) : Except Err Minesweeper :=
  match cellAt s.grid r c with
  | .error e => .error e
  | .ok cell =>
    if cell.isMine then triggerGameOver s false r c
    else
      match revealCell s.rows s.cols (s.rows * s.cols + 1) s.grid r c with
      | .error e => .error e
      | .ok g => checkWin { s with grid := g }

/-- The method `handleLeftClick` (lines 108-125). -/
def handleLeftClick (s : Minesweeper) (r c : Int) (picks : List (Nat × Nat)) :
    Except Err Minesweeper :=
  if s.gameOver then .ok s
  else
    match cellAt s.grid r c with
    | .error e => .error e
    | .ok cell0 =>
      if cell0.isFlagged || cell0.isRevealed then .ok s
      else
        match firstClickBlock s r c picks with
        | .error e => .error e
        | .ok s1 => revealOrLose s1 r c

/-- What `handleRightClick` writes to the cell it toggles (lines 132-142). -/
def flagWrite (x : Cell) : Cell :=
  if !x.isFlagged then
    { x with isFlagged := true
             element := { x.element with flagged := true, textContent := .flag } }
  else
    { x with isFlagged := false
             element := { x.element with flagged := false, textContent := .empty } }

/-- The method `handleRightClick` (lines 127-145). -/
def handleRightClick (s : Minesweeper) (r c : Int) : Except Err Minesweeper :=
  if s.gameOver then .ok s
  else
    match cellAt s.grid r c with
    | .error e => .error e
    | .ok cell =>
      if cell.isRevealed then .ok s
      else
        let grid1 := modifyCell s.grid r c flagWrite
        .ok { s with grid := grid1
                     flags := if !cell.isFlagged then s.flags + 1 else s.flags - 1 }

/-- The object that the constructor leaves before it calls `init` (lines 13-29). -/
def constructed : Minesweeper :=
  { config := defaultConfig, rows := 0, cols := 0, mines := 0, grid := [], gameOver := false,
    firstClick := true, flags := 0, timer := 0, timerInterval := false,
    gameOverTimeout := false, emoji := .cool }

/-! ## Notions used to state the properties -/

/-- Number of cells of the grid that satisfy `p`. -/
def countCells (p : Cell → Bool) (grid : Grid) : Nat :=
  (grid.map (List.countP p)).sum

/-- The grid has `rows` rows of `cols` cells each. -/
def Rect (rows cols : Nat) (grid : Grid) : Prop :=
  grid.length = rows ∧ ∀ row ∈ grid, row.length = cols

instance (rows cols : Nat) (grid : Grid) : Decidable (Rect rows cols grid) := by
  unfold Rect; infer_instance

/-- Whether `(r, c)` is a cell of the grid that holds a mine. -/
def minedAt (grid : Grid) (r c : Int) : Bool :=
  match getCell grid r c with
  | some cell => cell.isMine
  | none => false

/-- The offsets of the eight Moore neighbours. -/
def neighborOffsets : List (Int × Int) :=
  [(-1, -1), (-1, 0), (-1, 1), (0, -1), (0, 1), (1, -1), (1, 0), (1, 1)]

/-- Number of mined cells among the in-bounds Moore neighbours of `(r, c)`. -/
def mooreCount (grid : Grid) (r c : Int) : Nat :=
  neighborOffsets.countP (fun ij => minedAt grid (r + ij.1) (c + ij.2))

/-- The game has been won: over, with the party emoji of `triggerGameOver(true)`. -/
def Won (s : Minesweeper) : Prop := s.gameOver = true ∧ s.emoji = .party

/-- The game has been lost: over, with the dizzy emoji of `triggerGameOver(false)`. -/
def Lost (s : Minesweeper) : Prop := s.gameOver = true ∧ s.emoji = .dizzy

/-- No reveal has happened yet. -/
def NotStarted (s : Minesweeper) : Prop := s.gameOver = false ∧ s.firstClick = true

/-- The first reveal has happened and the game is not over. -/
def InProgress (s : Minesweeper) : Prop := s.gameOver = false ∧ s.firstClick = false

/-- States reached from `startNewGame` by left and right clicks that return. -/
inductive Reachable : Minesweeper → Prop
  | start (s0 : Minesweeper) (difficulty : String) (s : Minesweeper) :
      startNewGame s0 difficulty = .ok s → Reachable s
  | left (s : Minesweeper) (r c : Int) (picks : List (Nat × Nat)) (s' : Minesweeper) :
      Reachable s → handleLeftClick s r c picks = .ok s' → Reachable s'
  | right (s : Minesweeper) (r c : Int) (s' : Minesweeper) :
      Reachable s → handleRightClick s r c = .ok s' → Reachable s'

/-- Whether `(r, c)` is a revealed cell of the grid. -/
def revealedAt (grid : Grid) (r c : Int) : Bool :=
  match getCell grid r c with
  | some cell => cell.isRevealed
  | none => false

/-- Whether `(r, c)` is a flagged cell of the grid. -/
def flaggedAt (grid : Grid) (r c : Int) : Bool :=
  match getCell grid r c with
  | some cell => cell.isFlagged
  | none => false

/-- The positions on which `revealCell` returns at once: outside the grid, revealed or
flagged. -/
def blockedAt (grid : Grid) (r c : Int) : Bool :=
  match getCell grid r c with
  | some cell => cell.isRevealed || cell.isFlagged
  | none => true

/-- The only change from `g` to `g'` is that some unrevealed, unflagged cells have been
written by `revealCell`. -/
def RevealExt (g g' : Grid) : Prop :=
  ∀ r c, getCell g' r c = getCell g r c ∨
    ∃ x, getCell g r c = some x ∧ x.isRevealed = false ∧ x.isFlagged = false ∧
      getCell g' r c = some (revealWrite x)

/-- The cell `(r, c)` is revealed in `g'` and was not in `g`. -/
def NewlyRevealed (g g' : Grid) (r c : Int) : Prop :=
  revealedAt g' r c = true ∧ revealedAt g r c = false

/-- Every position around `(r, c)` is outside the grid, revealed or flagged. -/
def ClosedAt (g : Grid) (r c : Int) : Prop :=
  ∀ ij ∈ offsets, blockedAt g (r + ij.1) (c + ij.2) = true

/-- `Spread g r c r' c'`: the cascade started on `(r, c)` reaches `(r', c')`, along a
chain of adjacent cells that are all unrevealed and unflagged in `g` and of which all
but the last have `neighborMines = 0`. -/
inductive Spread (g : Grid) : Int → Int → Int → Int → Prop
  | here (r c : Int) (x : Cell) :
      getCell g r c = some x → x.isRevealed = false → x.isFlagged = false → Spread g r c r c
  | step (r c : Int) (x : Cell) (ij : Int × Int) (r' c' : Int) :
      getCell g r c = some x → x.isRevealed = false → x.isFlagged = false →
      x.neighborMines = 0 → ij ∈ offsets → Spread g (r + ij.1) (c + ij.2) r' c' →
      Spread g r c r' c'

/-- What a call `revealCell(r, c)` that returns `g'` on `g` has done. -/
def RevealPost (rows cols : Nat) (g : Grid) (r c : Int) (g' : Grid) : Prop :=
  Rect rows cols g' ∧ RevealExt g g' ∧
  countCells (fun x => !x.isRevealed) g' ≤ countCells (fun x => !x.isRevealed) g ∧
  blockedAt g' r c = true ∧
  (∀ r' c', NewlyRevealed g g' r' c' → Spread g r c r' c') ∧
  (∀ r' c' x, NewlyRevealed g g' r' c' → getCell g r' c' = some x → x.neighborMines = 0 →
    ClosedAt g' r' c')

/-- What the loop of `revealCell(r, c)` over the offsets `l` has done. -/
def RevealLoopPost (rows cols : Nat) (g : Grid) (r c : Int) (l : List (Int × Int))
    (g' : Grid) : Prop :=
  Rect rows cols g' ∧ RevealExt g g' ∧
  countCells (fun x => !x.isRevealed) g' ≤ countCells (fun x => !x.isRevealed) g ∧
  (∀ ij ∈ l, blockedAt g' (r + ij.1) (c + ij.2) = true) ∧
  (∀ r' c', NewlyRevealed g g' r' c' → ∃ ij ∈ l, Spread g (r + ij.1) (c + ij.2) r' c') ∧
  (∀ r' c' x, NewlyRevealed g g' r' c' → getCell g r' c' = some x → x.neighborMines = 0 →
    ClosedAt g' r' c')

/-- The grids `g` and `g'` have the same cells (positions) and the field `proj` has the
same value in both at every cell. -/
def FieldsEq {β : Type} (proj : Cell → β) (g g' : Grid) : Prop :=
  ∀ r c, (getCell g' r c).map proj = (getCell g r c).map proj

/-- Every cell that is not a mine carries the number of mines around it. -/
def NumbersOk (g : Grid) : Prop :=
  ∀ r c cell, getCell g r c = some cell → cell.isMine = false →
    cell.neighborMines = mooreCount g r c

/-- The invariant of the game states. -/
structure Inv (s : Minesweeper) : Prop where
  rect : Rect s.rows s.cols s.grid
  fresh : s.firstClick = true →
    s.gameOver = false ∧ countCells (fun x => x.isMine) s.grid = 0 ∧
      countCells (fun x => x.isRevealed) s.grid = 0
  placed : s.firstClick = false →
    countCells (fun x => x.isMine) s.grid = s.mines ∧ NumbersOk s.grid
  exclusive : ∀ r c cell, getCell s.grid r c = some cell →
    ¬ (cell.isRevealed = true ∧ cell.isFlagged = true)
  flagCount : s.flags = countCells (fun x => x.isFlagged) s.grid

/-- Whether `(r, c)` is a zero-count cell: a cell that is no mine and has no mine among
its neighbours according to its `neighborMines`. -/
def zeroAt (g : Grid) (r c : Int) : Bool :=
  match getCell g r c with
  | some x => !x.isMine && x.neighborMines == 0
  | none => false

/-- The 8-connected component of zero-count cells that contains `(r0, c0)`. -/
inductive InComponent (g : Grid) (r0 c0 : Int) : Int → Int → Prop
  | base : zeroAt g r0 c0 = true → InComponent g r0 c0 r0 c0
  | step (r c : Int) (ij : Int × Int) :
      InComponent g r0 c0 r c → ij ∈ neighborOffsets → zeroAt g (r + ij.1) (c + ij.2) = true →
      InComponent g r0 c0 (r + ij.1) (c + ij.2)

/-- The closure of `(r0, c0)`: the cells of its component of zero-count cells together
with every in-bounds neighbour of a cell of the component. -/
def InClosure (g : Grid) (r0 c0 r c : Int) : Prop :=
  InComponent g r0 c0 r c ∨
    ∃ r1 c1 ij, InComponent g r0 c0 r1 c1 ∧ ij ∈ neighborOffsets ∧
      r = r1 + ij.1 ∧ c = c1 + ij.2 ∧ (getCell g r c).isSome = true

/-- Number of positions `(r, c)` with `r < rows` and `c < cols` at which `f` holds. -/
def posCount (rows cols : Nat) (f : Int → Int → Bool) : Nat :=
  ((List.range rows).map (fun (r : Nat) =>
    (List.range cols).countP (fun (c : Nat) => f r c))).sum

/-- Number of cells of a `rows` by `cols` board that lie outside the safe zone of the
clicked cell `(safeR, safeC)`: the cells on which `placeMines` may put a mine. -/
def outsideSafeZone (rows cols : Nat) (safeR safeC : Int) : Nat :=
  posCount rows cols (fun r c => !decide (|r - safeR| ≤ 1 ∧ |c - safeC| ≤ 1))

/-- The method `revealCell` (lines 183-203) with a log: the same steps, and every
assignment `cell.isRevealed = true` (line 189) also appends the position of the cell to
the log. -/
def revealCellLog (rows cols : Nat) :
    Nat → Grid × List (Int × Int) → Int → Int → Except Err (Grid × List (Int × Int))
  | 0, _, _, _ => .error .outOfFuel
  | fuel + 1, (grid, log), r, c =>
    if r < 0 ∨ r ≥ rows ∨ c < 0 ∨ c ≥ cols then .ok (grid, log)
    else
      match cellAt grid r c with
      | .error e => .error e
      | .ok cell =>
        if cell.isRevealed || cell.isFlagged then .ok (grid, log)
        else
          let grid1 := modifyCell grid r c revealWrite
          let log1 := log ++ [(r, c)]
          if cell.neighborMines > 0 then .ok (grid1, log1)
          else offsets.foldlM
            (fun st ij => revealCellLog rows cols fuel st (r + ij.1) (c + ij.2)) (grid1, log1)

/-- States reached from `startNewGame` by left clicks only: no flag has been set. -/
inductive RevealReachable : Minesweeper → Prop
  | start (s0 : Minesweeper) (difficulty : String) (s : Minesweeper) :
      startNewGame s0 difficulty = .ok s → RevealReachable s
  | left (s : Minesweeper) (r c : Int) (picks : List (Nat × Nat)) (s' : Minesweeper) :
      RevealReachable s → handleLeftClick s r c picks = .ok s' → RevealReachable s'

/-- What the log `w` of a run of `revealCellLog` from `g` to `g'` says: it names no
position twice, it names exactly the cells that are revealed in `g'` and were not in
`g`, and each entry made one unrevealed cell fewer. -/
def LogPost (g g' : Grid) (w : List (Int × Int)) : Prop :=
  w.Nodup ∧ (∀ p, p ∈ w ↔ NewlyRevealed g g' p.1 p.2) ∧
    w.length + countCells (fun x => !x.isRevealed) g' = countCells (fun x => !x.isRevealed) g

/-- Around every revealed cell with `neighborMines = 0`, every position is outside the
grid, revealed or flagged. -/
def ZeroCellsClosed (g : Grid) : Prop :=
  ∀ r c x, getCell g r c = some x → x.isRevealed = true → x.neighborMines = 0 → ClosedAt g r c

/-! ## Concrete games used as examples -/

/-- The game that the constructor starts: `init` calls `startNewGame('easy')`. -/
def easyGame : Minesweeper :=
  match startNewGame constructed "easy" with
  | .ok s => s
  | .error _ => constructed

/-- A sequence of random picks for a first click on `(4, 4)` of the 9x9 board: two picks
fall in the safe zone and one cell is picked twice. -/
def easyPicks : List (Nat × Nat) :=
  [(0, 0), (4, 4), (3, 5), (0, 0), (0, 1), (0, 2), (0, 3), (0, 4), (0, 5), (0, 6), (0, 7),
   (0, 8), (8, 8), (7, 7)]

/-- The 9x9 grid after `placeMines(4, 4)` on `easyPicks`. -/
def easyMined : Grid :=
  match placeMines 10 easyGame.grid 4 4 easyPicks with
  | .ok g => g
  | .error _ => []

/-- A 3x3 grid with mines in two opposite corners and stale neighbour counts. -/
def cornerMines : Grid :=
  [[{ freshCell with isMine := true }, freshCell, freshCell],
   [freshCell, { freshCell with neighborMines := 7 }, freshCell],
   [freshCell, freshCell, { freshCell with isMine := true }]]

/-- Picks for a first click on `(0, 0)` of the 9x9 board: five mines wall in the corner,
five lie on the bottom row; one pick falls in the safe zone. -/
def cornerPicks : List (Nat × Nat) :=
  [(0, 2), (1, 2), (2, 2), (2, 1), (2, 0), (1, 1), (8, 8), (8, 7), (8, 6), (8, 5), (8, 4)]

/-- The easy game after the first click on `(0, 0)` with `cornerPicks`: the four cells
of the corner are revealed and the game is in progress. -/
def cornerOpened : Minesweeper :=
  match handleLeftClick easyGame 0 0 cornerPicks with
  | .ok s => s
  | .error _ => easyGame

/-- `cornerOpened` after a right click that flags the zero-count cell `(4, 4)`. -/
def cornerFlagged : Minesweeper :=
  match handleRightClick cornerOpened 4 4 with
  | .ok s => s
  | .error _ => cornerOpened

/-- `cornerFlagged` after a left click on the zero-count cell `(4, 5)`. -/
def cornerFlooded : Minesweeper :=
  match handleLeftClick cornerFlagged 4 5 [] with
  | .ok s => s
  | .error _ => cornerFlagged

/-- `cornerOpened` after a left click on the mine `(0, 2)`. -/
def cornerLost : Minesweeper :=
  match handleLeftClick cornerOpened 0 2 [] with
  | .ok s => s
  | .error _ => cornerOpened

/-- The easy game after a right click that flags `(4, 4)` before the first reveal. -/
def easyFlagged : Minesweeper :=
  match handleRightClick easyGame 4 4 with
  | .ok s => s
  | .error _ => easyGame

/-- `cornerOpened` after a right click that flags the unrevealed cell `(4, 4)` and a
second right click that clears the flag. -/
def cornerUnflagged : Minesweeper :=
  match handleRightClick cornerFlagged 4 4 with
  | .ok s => s
  | .error _ => cornerFlagged

/-- A game object whose table holds three boards that the presets do not offer: a 2x2
board without mines, a 3x3 board with one mine and a board without rows. -/
def customBoards : Minesweeper :=
  { constructed with
    config := [("tiny", ⟨2, 2, 0⟩), ("stall", ⟨3, 3, 1⟩), ("flat", ⟨0, 5, 0⟩)] }

/-- The new game on the 2x2 board without mines. -/
def tinyGame : Minesweeper :=
  match startNewGame customBoards "tiny" with
  | .ok s => s
  | .error _ => customBoards

/-- The new game on the 3x3 board with one mine. -/
def stallGame : Minesweeper :=
  match startNewGame customBoards "stall" with
  | .ok s => s
  | .error _ => customBoards

/-- The easy game after the first click on `(4, 4)` with `easyPicks`: nine mines fill
the top row, one lies in the opposite corner, and the cascade reveals every other cell. -/
def easyWon : Minesweeper :=
  match handleLeftClick easyGame 4 4 easyPicks with
  | .ok s => s
  | .error _ => easyGame

/-- `cornerOpened` after a left click on the zero-count cell `(4, 5)`. -/
def cornerCascade : Minesweeper :=
  match handleLeftClick cornerOpened 4 5 [] with
  | .ok s => s
  | .error _ => cornerOpened

/-! ## The grid: reading and writing cells -/

theorem getCell_modifyCell (g : Grid) (r c r' c' : Int) (f : Cell → Cell) :
    getCell (modifyCell g r c f) r' c' =
      if r' = r ∧ c' = c then (getCell g r c).map f else getCell g r' c' := by
  unfold getCell modifyCell
  by_cases h : 0 ≤ r ∧ 0 ≤ c
  · by_cases h' : 0 ≤ r' ∧ 0 ≤ c'
    · simp only [h, h', and_self, if_true, List.getElem?_modify]
      by_cases hr : r.toNat = r'.toNat
      · have hr' : r' = r := by omega
        subst hr'
        by_cases hc : c.toNat = c'.toNat
        · have hc' : c' = c := by omega
          subst hc'
          cases hg : g[r'.toNat]? with
          | none => simp
          | some row => cases hrow : row[c'.toNat]? <;> simp [List.getElem?_modify, hrow]
        · have hc' : ¬ c' = c := by omega
          cases hg : g[r'.toNat]? with
          | none => simp [hc']
          | some row => simp [List.getElem?_modify, hc, hc']
      · have hr' : ¬ r' = r := by omega
        cases hg : g[r'.toNat]? <;> simp [hr, hr']
    · have : ¬ (r' = r ∧ c' = c) := by omega
      simp [h, h', this]
  · simp only [h, if_false]
    by_cases h2 : r' = r ∧ c' = c
    · obtain ⟨rfl, rfl⟩ := h2
      simp [h]
    · simp [h2]

theorem rect_modifyCell {rows cols : Nat} {g : Grid} (h : Rect rows cols g) (r c : Int)
    (f : Cell → Cell) : Rect rows cols (modifyCell g r c f) := by
  unfold modifyCell
  split_ifs
  · refine ⟨by simp [h.1], ?_⟩
    intro row hrow
    rw [List.mem_iff_getElem?] at hrow
    obtain ⟨i, hi⟩ := hrow
    rw [List.getElem?_modify] at hi
    cases hg : g[i]? with
    | none => simp [hg] at hi
    | some row0 =>
      have h0 : row0.length = cols := h.2 row0 (List.mem_iff_getElem?.2 ⟨i, hg⟩)
      simp [hg] at hi
      rw [← hi]
      split_ifs <;> simp [h0]
  · exact h

theorem getCell_isSome_iff {rows cols : Nat} {g : Grid} (h : Rect rows cols g) (r c : Int) :
    (∃ cell, getCell g r c = some cell) ↔ (0 ≤ r ∧ r < rows ∧ 0 ≤ c ∧ c < cols) := by
  unfold getCell
  constructor
  · rintro ⟨cell, hc⟩
    split_ifs at hc with h0
    cases hg : g[r.toNat]? with
    | none => simp [hg] at hc
    | some row =>
      simp [hg] at hc
      have h1 := (List.getElem?_eq_some_iff.1 hg).1
      have h2 := (List.getElem?_eq_some_iff.1 hc).1
      have h3 : row.length = cols := h.2 row (List.mem_iff_getElem?.2 ⟨_, hg⟩)
      have := h.1
      omega
  · rintro ⟨h1, h2, h3, h4⟩
    have hr : r.toNat < g.length := by have := h.1; omega
    have hrow : (g[r.toNat]).length = cols := h.2 _ (List.getElem_mem _)
    have hc : c.toNat < (g[r.toNat]).length := by omega
    refine ⟨(g[r.toNat])[c.toNat], ?_⟩
    simp [h1, h3, List.getElem?_eq_getElem hr, List.getElem?_eq_getElem hc]

theorem countP_modify (p : Cell → Bool) (f : Cell → Cell) :
    ∀ (row : List Cell) (c : Nat) (cell : Cell), row[c]? = some cell →
      List.countP p (List.modify f c row) + (if p cell then 1 else 0)
        = List.countP p row + (if p (f cell) then 1 else 0)
  | [], c, cell, h => by simp at h
  | x :: row, 0, cell, h => by
    simp at h; subst h
    simp [List.modify, List.countP_cons]; omega
  | x :: row, c + 1, cell, h => by
    simp at h
    have := countP_modify p f row c cell h
    simp [List.modify, List.countP_cons] at this ⊢; omega

theorem countCells_modify (p : Cell → Bool) (f : Cell → Cell) (c : Nat) (cell : Cell) :
    ∀ (g : Grid) (r : Nat) (row : List Cell), g[r]? = some row → row[c]? = some cell →
      countCells p (List.modify (fun row => List.modify f c row) r g) + (if p cell then 1 else 0)
        = countCells p g + (if p (f cell) then 1 else 0)
  | [], r, row, h, _ => by simp at h
  | x :: g, 0, row, h, hc => by
    simp at h; subst h
    have := countP_modify p f x c cell hc
    simp [List.modify, countCells] at this ⊢; omega
  | x :: g, r + 1, row, h, hc => by
    simp at h
    have := countCells_modify p f c cell g r row h hc
    simp [List.modify, countCells] at this ⊢; omega

theorem countCells_modifyCell (p : Cell → Bool) (f : Cell → Cell) {g : Grid} {r c : Int}
    {cell : Cell} (h : getCell g r c = some cell) :
    countCells p (modifyCell g r c f) + (if p cell then 1 else 0)
      = countCells p g + (if p (f cell) then 1 else 0) := by
  unfold getCell at h
  unfold modifyCell
  split_ifs at h with h0
  simp only [h0, and_self, if_true]
  cases hg : g[r.toNat]? with
  | none => simp [hg] at h
  | some row =>
    simp [hg] at h
    exact countCells_modify p f c.toNat cell g r.toNat row hg h

theorem countCells_eq_zero_iff (p : Cell → Bool) (g : Grid) :
    countCells p g = 0 ↔ ∀ r c cell, getCell g r c = some cell → p cell = false := by
  unfold countCells
  rw [List.sum_eq_zero_iff]
  constructor
  · intro h r c cell hc
    unfold getCell at hc
    split_ifs at hc with h0
    cases hg : g[r.toNat]? with
    | none => simp [hg] at hc
    | some row =>
      simp [hg] at hc
      have h1 : List.countP p row = 0 :=
        h _ (List.mem_map.2 ⟨row, List.mem_iff_getElem?.2 ⟨_, hg⟩, rfl⟩)
      rw [List.countP_eq_zero] at h1
      have := h1 cell (List.mem_iff_getElem?.2 ⟨_, hc⟩)
      simpa using this
  · intro h n hn
    obtain ⟨row, hrow, rfl⟩ := List.mem_map.1 hn
    rw [List.countP_eq_zero]
    intro x hx
    obtain ⟨i, hi⟩ := List.mem_iff_getElem?.1 hrow
    obtain ⟨j, hj⟩ := List.mem_iff_getElem?.1 hx
    have := h (i : Int) (j : Int) x (by unfold getCell; simp [hi, hj])
    simp [this]

/-! ## `placeMines` -/

/-- What a run of the loop of `placeMines` that finishes does to the grid. -/
theorem placeMinesLoop_ok (mines : Nat) (safeR safeC : Int) :
    ∀ (picks : List (Nat × Nat)) (k : Nat) (g g' : Grid), k ≤ mines →
      placeMinesLoop mines safeR safeC picks k g = .ok g' →
      countCells (fun x => x.isMine) g' + k = countCells (fun x => x.isMine) g + mines ∧
      (∀ rows cols, Rect rows cols g → Rect rows cols g') ∧
      ∀ r c, ∃ b : Bool, (b = true → ¬ (|r - safeR| ≤ 1 ∧ |c - safeC| ≤ 1)) ∧
        getCell g' r c = (getCell g r c).map (fun x => if b then { x with isMine := true } else x)
  | [], k, g, g', hk, h => by
    unfold placeMinesLoop at h
    split_ifs at h with h1
    cases h
    refine ⟨by omega, fun _ _ hr => hr, fun r c => ⟨false, by simp, by simp⟩⟩
  | (pr, pc) :: picks, k, g, g', hk, h => by
    unfold placeMinesLoop at h
    split_ifs at h with h1 h2
    · exact placeMinesLoop_ok mines safeR safeC picks k g g' hk h
    · cases hc : cellAt g pr pc with
      | error e => simp [hc] at h
      | ok cell =>
        have hget : getCell g pr pc = some cell := by
          unfold cellAt at hc
          cases hg : getCell g pr pc <;> simp [hg] at hc
          rw [hc]
        simp only [hc] at h
        split_ifs at h with h3
        · obtain ⟨i1, i2, i3⟩ := placeMinesLoop_ok mines safeR safeC picks (k + 1) _ g'
            (by omega) h
          have hcnt := countCells_modifyCell (fun x => x.isMine)
            (fun x => { x with isMine := true }) hget
          simp at h3
          simp [h3] at hcnt
          refine ⟨by omega, fun rows cols hr => i2 rows cols (rect_modifyCell hr _ _ _), ?_⟩
          intro r c
          obtain ⟨b, hb1, hb2⟩ := i3 r c
          rw [getCell_modifyCell] at hb2
          by_cases hrc : r = pr ∧ c = pc
          · refine ⟨true, ?_, ?_⟩
            · intro _; rw [hrc.1, hrc.2]; exact h2
            · rw [hb2, if_pos hrc, ← hrc.1, ← hrc.2]
              cases getCell g r c <;> cases b <;> simp
          · refine ⟨b, hb1, ?_⟩
            rw [hb2, if_neg hrc]
        · exact placeMinesLoop_ok mines safeR safeC picks k g g' hk h
    · cases h
      refine ⟨by omega, fun _ _ hr => hr, fun r c => ⟨false, by simp, by simp⟩⟩

/-! ## The loops over the grid and `calculateNumbers` -/

theorem foldlM_range_inv {σ : Type} (body : σ → Nat → Except Err σ) (P : Nat → σ → Prop) :
    ∀ (n : Nat) (init : σ), P 0 init →
      (∀ i a, i < n → P i a → ∃ a', body a i = .ok a' ∧ P (i + 1) a') →
      ∃ a, (List.range n).foldlM body init = .ok a ∧ P n a
  | 0, init, h0, _ => ⟨init, rfl, h0⟩
  | n + 1, init, h0, hstep => by
    obtain ⟨a, ha, hP⟩ := foldlM_range_inv body P n init h0
      (fun i a hi => hstep i a (Nat.lt_succ_of_lt hi))
    obtain ⟨a', ha', hP'⟩ := hstep n a (Nat.lt_succ_self n) hP
    refine ⟨a', ?_, hP'⟩
    rw [List.range_succ, List.foldlM_append, ha]
    show List.foldlM body a [n] = _
    rw [List.foldlM_cons, ha']
    rfl

theorem forCells_inv {σ : Type} (rows cols : Nat) (body : σ → Nat → Nat → Except Err σ)
    (Q : Nat → Nat → σ → Prop) (init : σ) (h0 : Q 0 0 init)
    (hstep : ∀ r c a, r < rows → c < cols → Q r c a → ∃ a', body a r c = .ok a' ∧ Q r (c + 1) a')
    (hrow : ∀ r a, r < rows → Q r cols a → Q (r + 1) 0 a) :
    ∃ a, forCells rows cols body init = .ok a ∧ Q rows 0 a := by
  unfold forCells
  apply foldlM_range_inv _ (fun r a => Q r 0 a) rows init h0
  intro r a hr hQ
  obtain ⟨a', ha', hQ'⟩ := foldlM_range_inv (fun acc2 c => body acc2 r c) (fun c a => Q r c a)
    cols a hQ (fun c a hc => hstep r c a hr hc)
  exact ⟨a', ha', hrow r a' hr hQ'⟩

theorem cellAt_of_getCell {g : Grid} {r c : Int} {cell : Cell} (h : getCell g r c = some cell) :
    cellAt g r c = .ok cell := by
  unfold cellAt; rw [h]

theorem getCell_of_cellAt {g : Grid} {r c : Int} {cell : Cell} (h : cellAt g r c = .ok cell) :
    getCell g r c = some cell := by
  unfold cellAt at h
  cases hg : getCell g r c <;> simp [hg] at h
  rw [h]

theorem countAround_aux {rows cols : Nat} {g : Grid} (hrect : Rect rows cols g) (r c : Int) :
    ∀ (l : List (Int × Int)) (k : Nat),
      l.foldlM (fun count ij =>
        let nr := r + ij.1
        let nc := c + ij.2
        if nr ≥ 0 ∧ nr < rows ∧ nc ≥ 0 ∧ nc < cols then
          match cellAt g nr nc with
          | .error e => .error e
          | .ok cell => .ok (if cell.isMine then count + 1 else count)
        else (.ok count : Except Err Nat)) k
      = .ok (k + l.countP (fun ij => minedAt g (r + ij.1) (c + ij.2)))
  | [], k => rfl
  | ij :: l, k => by
    rw [List.foldlM_cons]
    by_cases hin : r + ij.1 ≥ 0 ∧ r + ij.1 < rows ∧ c + ij.2 ≥ 0 ∧ c + ij.2 < cols
    · obtain ⟨cell, hcell⟩ := (getCell_isSome_iff hrect _ _).2 hin
      simp only [hin, and_self, if_true, cellAt_of_getCell hcell]
      show List.foldlM _ _ l = _
      rw [countAround_aux hrect r c l]
      simp only [List.countP_cons, minedAt, hcell]
      cases cell.isMine with
      | false => simp
      | true => simp; omega
    · have hnone : getCell g (r + ij.1) (c + ij.2) = none := by
        cases hg : getCell g (r + ij.1) (c + ij.2) with
        | none => rfl
        | some cell => exact absurd ((getCell_isSome_iff hrect _ _).1 ⟨cell, hg⟩) hin
      simp only [hin, if_false]
      show List.foldlM _ _ l = _
      rw [countAround_aux hrect r c l]
      simp [List.countP_cons, minedAt, hnone]

theorem countAround_eq {rows cols : Nat} {g : Grid} (hrect : Rect rows cols g) (r c : Int) :
    countAround rows cols g r c
      = .ok (offsets.countP (fun ij => minedAt g (r + ij.1) (c + ij.2))) := by
  unfold countAround
  rw [countAround_aux hrect r c offsets 0]
  simp

theorem offsets_count (g : Grid) (r c : Int) :
    offsets.countP (fun ij => minedAt g (r + ij.1) (c + ij.2))
      = mooreCount g r c + (if minedAt g r c then 1 else 0) := by
  simp only [offsets, mooreCount, neighborOffsets, List.countP_cons, List.countP_nil, add_zero,
    zero_add]
  omega

theorem mooreCount_le (g : Grid) (r c : Int) : mooreCount g r c ≤ 8 := by
  unfold mooreCount
  exact le_trans (List.countP_le_length _) (by simp [neighborOffsets])

theorem mooreCount_congr {g g' : Grid} (h : ∀ r c, minedAt g' r c = minedAt g r c) (r c : Int) :
    mooreCount g' r c = mooreCount g r c := by
  unfold mooreCount
  congr 1
  funext ij
  exact h _ _

theorem calculateNumbers_ok {rows cols : Nat} {g : Grid} (hrect : Rect rows cols g) :
    ∃ g', calculateNumbers rows cols g = .ok g' ∧ Rect rows cols g' ∧
      ∀ r c, getCell g' r c = (getCell g r c).map (fun x =>
        if x.isMine then x else { x with neighborMines := mooreCount g r c }) := by
  have key := forCells_inv rows cols (fun grid r c =>
      match cellAt grid r c with
      | .error e => .error e
      | .ok cell =>
        if cell.isMine then .ok grid
        else
          match countAround rows cols grid r c with
          | .error e => .error e
          | .ok count => .ok (modifyCell grid r c (fun x => { x with neighborMines := count })))
    (fun r c g1 => Rect rows cols g1 ∧ ∀ r' c' : Int, getCell g1 r' c' =
      (getCell g r' c').map (fun x =>
        if (r' < r ∨ (r' = r ∧ c' < c)) ∧ x.isMine = false
        then { x with neighborMines := mooreCount g r' c' } else x))
    g ?_ ?_ ?_
  · obtain ⟨g', h1, h2, h3⟩ := key
    refine ⟨g', h1, h2, ?_⟩
    intro r c
    rw [h3]
    cases hg : getCell g r c with
    | none => rfl
    | some x =>
      have hb := (getCell_isSome_iff hrect r c).1 ⟨x, hg⟩
      have : (r < (rows : Int) ∨ (r = rows ∧ c < 0)) := Or.inl hb.2.1
      cases hx : x.isMine <;> simp [this, hx]
  · refine ⟨hrect, ?_⟩
    intro r' c'
    cases hg : getCell g r' c' with
    | none => rfl
    | some x =>
      have hb := (getCell_isSome_iff hrect r' c').1 ⟨x, hg⟩
      have : ¬ (r' < 0 ∨ (r' = 0 ∧ c' < 0)) := by omega
      simp [this]
  · intro r c g1 hr hc ⟨hrect1, hpt⟩
    obtain ⟨x0, hx0⟩ := (getCell_isSome_iff hrect (r : Int) (c : Int)).2 (by omega)
    have hx1 : getCell g1 r c = some x0 := by
      rw [hpt, hx0]; simp
    have hmined : ∀ r' c', minedAt g1 r' c' = minedAt g r' c' := by
      intro r' c'
      unfold minedAt
      rw [hpt]
      cases getCell g r' c' with
      | none => rfl
      | some x => simp only [Option.map_some']; split_ifs <;> rfl
    simp only [cellAt_of_getCell hx1]
    cases hmine : x0.isMine with
    | true =>
      refine ⟨g1, by simp, hrect1, ?_⟩
      intro r' c'
      rw [hpt]
      cases hg : getCell g r' c' with
      | none => rfl
      | some x =>
        simp only [Option.map_some', Option.some.injEq]
        by_cases hrc : r' = r ∧ c' = c
        · obtain ⟨rfl, rfl⟩ := hrc
          rw [hx0] at hg
          cases hg
          simp [hmine]
        · have : ((r' < (r : Int) ∨ r' = r ∧ c' < ((c + 1 : Nat) : Int)) ↔
              (r' < (r : Int) ∨ r' = r ∧ c' < (c : Int))) := by
            push_cast; omega
          simp only [this]
    | false =>
      refine ⟨modifyCell g1 r c (fun x => { x with neighborMines := mooreCount g r c }), ?_,
        rect_modifyCell hrect1 _ _ _, ?_⟩
      · rw [countAround_eq hrect1, offsets_count, mooreCount_congr hmined]
        have : minedAt g1 r c = false := by unfold minedAt; rw [hx1]; exact hmine
        simp [this]
      · intro r' c'
        rw [getCell_modifyCell]
        by_cases hrc : r' = r ∧ c' = c
        · obtain ⟨rfl, rfl⟩ := hrc
          simp [hx1, hx0, hmine]
        · rw [if_neg hrc, hpt]
          cases hg : getCell g r' c' with
          | none => rfl
          | some x =>
            have : ((r' < (r : Int) ∨ r' = r ∧ c' < ((c + 1 : Nat) : Int)) ↔
                (r' < (r : Int) ∨ r' = r ∧ c' < (c : Int))) := by
              push_cast; omega
            simp only [Option.map_some', this]
  · intro r g1 hr ⟨hrect1, hpt⟩
    refine ⟨hrect1, ?_⟩
    intro r' c'
    rw [hpt]
    cases hg : getCell g r' c' with
    | none => rfl
    | some x =>
      have hb := (getCell_isSome_iff hrect r' c').1 ⟨x, hg⟩
      have : ((r' < ((r + 1 : Nat) : Int) ∨ r' = ((r + 1 : Nat) : Int) ∧ c' < ((0 : Nat) : Int)) ↔
          (r' < (r : Int) ∨ r' = r ∧ c' < (cols : Int))) := by
        push_cast; omega
      simp only [Option.map_some', this]

/-! ## The flood fill of `revealCell` -/

theorem revealWrite_isRevealed (x : Cell) : (revealWrite x).isRevealed = true := by
  unfold revealWrite; split_ifs <;> rfl

theorem revealWrite_isFlagged (x : Cell) : (revealWrite x).isFlagged = x.isFlagged := by
  unfold revealWrite; split_ifs <;> rfl

theorem revealWrite_isMine (x : Cell) : (revealWrite x).isMine = x.isMine := by
  unfold revealWrite; split_ifs <;> rfl

theorem revealWrite_neighborMines (x : Cell) :
    (revealWrite x).neighborMines = x.neighborMines := by
  unfold revealWrite; split_ifs <;> rfl

theorem revealExt_refl (g : Grid) : RevealExt g g := fun _ _ => Or.inl rfl

theorem revealExt_trans {g1 g2 g3 : Grid} (h12 : RevealExt g1 g2) (h23 : RevealExt g2 g3) :
    RevealExt g1 g3 := by
  intro r c
  rcases h23 r c with h | ⟨x, hx, hr, hf, hx'⟩
  · rw [h]; exact h12 r c
  · rcases h12 r c with h | ⟨y, _, _, _, hy'⟩
    · exact Or.inr ⟨x, h ▸ hx, hr, hf, hx'⟩
    · rw [hy'] at hx
      cases hx
      rw [revealWrite_isRevealed] at hr
      cases hr

theorem revealExt_modifyCell {g : Grid} {r c : Int} {x : Cell} (hx : getCell g r c = some x)
    (hr : x.isRevealed = false) (hf : x.isFlagged = false) :
    RevealExt g (modifyCell g r c revealWrite) := by
  intro r' c'
  rw [getCell_modifyCell]
  by_cases h : r' = r ∧ c' = c
  · obtain ⟨rfl, rfl⟩ := h
    exact Or.inr ⟨x, hx, hr, hf, by simp [hx]⟩
  · exact Or.inl (by rw [if_neg h])

theorem revealedAt_mono {g g' : Grid} (h : RevealExt g g') {r c : Int}
    (hr : revealedAt g r c = true) : revealedAt g' r c = true := by
  unfold revealedAt at hr ⊢
  rcases h r c with h1 | ⟨x, _, _, _, hx'⟩
  · rw [h1]; exact hr
  · rw [hx']; exact revealWrite_isRevealed x

theorem blockedAt_mono {g g' : Grid} (h : RevealExt g g') {r c : Int}
    (hr : blockedAt g r c = true) : blockedAt g' r c = true := by
  unfold blockedAt at hr ⊢
  rcases h r c with h1 | ⟨x, _, _, _, hx'⟩
  · rw [h1]; exact hr
  · rw [hx']; simp [revealWrite_isRevealed]

theorem newlyRevealed_cell {g g' : Grid} (h : RevealExt g g') {r c : Int}
    (hn : NewlyRevealed g g' r c) :
    ∃ x, getCell g r c = some x ∧ x.isRevealed = false ∧ x.isFlagged = false ∧
      getCell g' r c = some (revealWrite x) := by
  rcases h r c with h1 | hx
  · unfold NewlyRevealed revealedAt at hn
    rw [h1] at hn
    rw [hn.2] at hn
    exact absurd hn.1 (by simp)
  · exact hx

theorem newlyRevealed_irrefl (g : Grid) (r c : Int) : ¬ NewlyRevealed g g r c := by
  rintro ⟨h1, h2⟩
  rw [h2] at h1
  cases h1

theorem newlyRevealed_split {g g' : Grid} (g1 : Grid) {r c : Int}
    (hn : NewlyRevealed g g' r c) :
    NewlyRevealed g g1 r c ∨ NewlyRevealed g1 g' r c := by
  cases h : revealedAt g1 r c with
  | true => exact Or.inl ⟨h, hn.2⟩
  | false => exact Or.inr ⟨hn.1, h⟩

theorem spread_anti {g g1 : Grid} (h : RevealExt g g1) {r c r' c' : Int}
    (hs : Spread g1 r c r' c') : Spread g r c r' c' := by
  have hopen : ∀ {r c : Int} {x : Cell}, getCell g1 r c = some x → x.isRevealed = false →
      getCell g r c = some x := by
    intro r c x hx hr
    rcases h r c with h1 | ⟨y, _, _, _, hy'⟩
    · rw [← h1]; exact hx
    · rw [hy'] at hx
      cases hx
      rw [revealWrite_isRevealed] at hr
      cases hr
  induction hs with
  | here r c x hx hr hf => exact Spread.here r c x (hopen hx hr) hr hf
  | step r c x ij r' c' hx hr hf hz hij _ ih =>
    exact Spread.step r c x ij r' c' (hopen hx hr) hr hf hz hij ih

theorem revealLoop_post (rows cols fuel : Nat)
    (ih : ∀ g r c g', Rect rows cols g → revealCell rows cols fuel g r c = .ok g' →
      RevealPost rows cols g r c g') (r c : Int) :
    ∀ (l : List (Int × Int)) (g g' : Grid), Rect rows cols g →
      l.foldlM (fun g ij => revealCell rows cols fuel g (r + ij.1) (c + ij.2)) g = .ok g' →
      RevealLoopPost rows cols g r c l g'
  | [], g, g', hrect, h => by
    cases h
    exact ⟨hrect, revealExt_refl g, le_refl _, by simp,
      fun r' c' hn => absurd hn (newlyRevealed_irrefl g r' c'),
      fun r' c' _ hn => absurd hn (newlyRevealed_irrefl g r' c')⟩
  | ij :: l, g, g', hrect, h => by
    rw [List.foldlM_cons] at h
    cases h1 : revealCell rows cols fuel g (r + ij.1) (c + ij.2) with
    | error e => rw [h1] at h; cases h
    | ok g1 =>
      rw [h1] at h
      obtain ⟨a1, a2, a3, a4, a5, a6⟩ := ih g _ _ g1 hrect h1
      obtain ⟨b1, b2, b3, b4, b5, b6⟩ := revealLoop_post rows cols fuel ih r c l g1 g' a1 h
      refine ⟨b1, revealExt_trans a2 b2, le_trans b3 a3, ?_, ?_, ?_⟩
      · intro ij' hij'
        rcases List.mem_cons.1 hij' with rfl | hmem
        · exact blockedAt_mono b2 a4
        · exact b4 ij' hmem
      · intro r' c' hn
        rcases newlyRevealed_split g1 hn with hn1 | hn2
        · exact ⟨ij, List.mem_cons_self _ _, a5 r' c' hn1⟩
        · obtain ⟨ij', hmem, hs⟩ := b5 r' c' hn2
          exact ⟨ij', List.mem_cons_of_mem _ hmem, spread_anti a2 hs⟩
      · intro r' c' x hn hx hz
        rcases newlyRevealed_split g1 hn with hn1 | hn2
        · intro ij' hij'
          exact blockedAt_mono b2 (a6 r' c' x hn1 hx hz ij' hij')
        · have hx1 : getCell g1 r' c' = some x := by
            rcases a2 r' c' with e | ⟨y, _, _, _, hy'⟩
            · rw [e]; exact hx
            · have : revealedAt g1 r' c' = true := by
                unfold revealedAt; rw [hy']; exact revealWrite_isRevealed y
              rw [hn2.2] at this
              cases this
          exact b6 r' c' x hn2 hx1 hz

theorem newlyRevealed_modifyCell {g : Grid} {r c r' c' : Int}
    (hn : NewlyRevealed g (modifyCell g r c revealWrite) r' c') : r' = r ∧ c' = c := by
  by_contra hne
  unfold NewlyRevealed revealedAt at hn
  rw [getCell_modifyCell, if_neg hne] at hn
  rw [hn.2] at hn
  exact absurd hn.1 (by simp)

theorem getCell_eq_of_unrevealed {g g1 : Grid} (h : RevealExt g g1) {r c : Int}
    (hr : revealedAt g1 r c = false) : getCell g1 r c = getCell g r c := by
  rcases h r c with e | ⟨y, _, _, _, hy'⟩
  · exact e
  · have : revealedAt g1 r c = true := by
      unfold revealedAt; rw [hy']; exact revealWrite_isRevealed y
    rw [hr] at this
    cases this

theorem revealCell_post (rows cols : Nat) :
    ∀ (fuel : Nat) (g : Grid) (r c : Int) (g' : Grid), Rect rows cols g →
      revealCell rows cols fuel g r c = .ok g' → RevealPost rows cols g r c g'
  | 0, g, r, c, g', _, h => by
    unfold revealCell at h
    cases h
  | fuel + 1, g, r, c, g', hrect, h => by
    unfold revealCell at h
    split_ifs at h with hout
    · cases h
      have hnone : getCell g r c = none := by
        cases hg : getCell g r c with
        | none => rfl
        | some cell =>
          have := (getCell_isSome_iff hrect r c).1 ⟨cell, hg⟩
          omega
      exact ⟨hrect, revealExt_refl g, le_refl _, by unfold blockedAt; rw [hnone],
        fun r' c' hn => absurd hn (newlyRevealed_irrefl g r' c'),
        fun r' c' _ hn => absurd hn (newlyRevealed_irrefl g r' c')⟩
    · cases hc : cellAt g r c with
      | error e => rw [hc] at h; cases h
      | ok cell =>
        simp only [hc] at h
        have hx := getCell_of_cellAt hc
        split_ifs at h with hb hnum
        · cases h
          exact ⟨hrect, revealExt_refl g, le_refl _, by unfold blockedAt; rw [hx]; exact hb,
            fun r' c' hn => absurd hn (newlyRevealed_irrefl g r' c'),
            fun r' c' _ hn => absurd hn (newlyRevealed_irrefl g r' c')⟩
        all_goals
          have hr : cell.isRevealed = false := by
            cases hh : cell.isRevealed with
            | false => rfl
            | true => simp [hh] at hb
          have hf : cell.isFlagged = false := by
            cases hh : cell.isFlagged with
            | false => rfl
            | true => simp [hh] at hb
          have hext := revealExt_modifyCell hx hr hf
          have hcnt := countCells_modifyCell (fun x => !x.isRevealed) revealWrite hx
          simp only [revealWrite_isRevealed, hr] at hcnt
          have hb1 : blockedAt (modifyCell g r c revealWrite) r c = true := by
            unfold blockedAt
            rw [getCell_modifyCell]
            simp [hx, revealWrite_isRevealed]
        · cases h
          refine ⟨rect_modifyCell hrect _ _ _, hext, by simp at hcnt; omega, hb1, ?_, ?_⟩
          · intro r' c' hn
            obtain ⟨rfl, rfl⟩ := newlyRevealed_modifyCell hn
            exact Spread.here _ _ cell hx hr hf
          · intro r' c' x hn hx' hz
            obtain ⟨rfl, rfl⟩ := newlyRevealed_modifyCell hn
            rw [hx] at hx'
            cases hx'
            omega
        · obtain ⟨b1, b2, b3, b4, b5, b6⟩ := revealLoop_post rows cols fuel
            (revealCell_post rows cols fuel) r c offsets _ g' (rect_modifyCell hrect _ _ _) h
          refine ⟨b1, revealExt_trans hext b2, by simp at hcnt; omega, blockedAt_mono b2 hb1,
            ?_, ?_⟩
          · intro r' c' hn
            rcases newlyRevealed_split (modifyCell g r c revealWrite) hn with hn1 | hn2
            · obtain ⟨rfl, rfl⟩ := newlyRevealed_modifyCell hn1
              exact Spread.here _ _ cell hx hr hf
            · obtain ⟨ij, hmem, hs⟩ := b5 r' c' hn2
              exact Spread.step r c cell ij r' c' hx hr hf (by omega) hmem (spread_anti hext hs)
          · intro r' c' x hn hx' hz
            rcases newlyRevealed_split (modifyCell g r c revealWrite) hn with hn1 | hn2
            · obtain ⟨rfl, rfl⟩ := newlyRevealed_modifyCell hn1
              exact b4
            · exact b6 r' c' x hn2 ((getCell_eq_of_unrevealed hext hn2.2).trans hx') hz

theorem revealLoop_terminates (rows cols fuel : Nat)
    (ih : ∀ g r c, Rect rows cols g → countCells (fun x => !x.isRevealed) g < fuel →
      ∃ g', revealCell rows cols fuel g r c = .ok g') (r c : Int) :
    ∀ (l : List (Int × Int)) (g : Grid), Rect rows cols g →
      countCells (fun x => !x.isRevealed) g < fuel →
      ∃ g', l.foldlM (fun g ij => revealCell rows cols fuel g (r + ij.1) (c + ij.2)) g = .ok g'
  | [], g, _, _ => ⟨g, rfl⟩
  | ij :: l, g, hrect, hlt => by
    obtain ⟨g1, h1⟩ := ih g (r + ij.1) (c + ij.2) hrect hlt
    obtain ⟨a1, _, a3, _⟩ := revealCell_post rows cols fuel g _ _ g1 hrect h1
    obtain ⟨g', h'⟩ := revealLoop_terminates rows cols fuel ih r c l g1 a1 (by omega)
    refine ⟨g', ?_⟩
    rw [List.foldlM_cons, h1]
    exact h'

theorem revealCell_terminates (rows cols : Nat) :
    ∀ (fuel : Nat) (g : Grid) (r c : Int), Rect rows cols g →
      countCells (fun x => !x.isRevealed) g < fuel →
      ∃ g', revealCell rows cols fuel g r c = .ok g'
  | 0, _, _, _, _, hlt => absurd hlt (Nat.not_lt_zero _)
  | fuel + 1, g, r, c, hrect, hlt => by
    unfold revealCell
    split_ifs with hout
    · exact ⟨g, rfl⟩
    · obtain ⟨cell, hx⟩ := (getCell_isSome_iff hrect r c).2 (by omega)
      simp only [cellAt_of_getCell hx]
      split_ifs with hb hnum
      · exact ⟨g, rfl⟩
      · exact ⟨_, rfl⟩
      · have hr : cell.isRevealed = false := by
          cases hh : cell.isRevealed with
          | false => rfl
          | true => simp [hh] at hb
        have hcnt := countCells_modifyCell (fun x => !x.isRevealed) revealWrite hx
        simp only [revealWrite_isRevealed, hr] at hcnt
        exact revealLoop_terminates rows cols fuel (revealCell_terminates rows cols fuel) r c
          offsets _ (rect_modifyCell hrect _ _ _) (by simp at hcnt; omega)

theorem countCells_le (p : Cell → Bool) (cols : Nat) :
    ∀ (g : Grid) (rows : Nat), Rect rows cols g → countCells p g ≤ rows * cols
  | [], rows, h => by simp [countCells]
  | row :: g, rows, h => by
    have h1 : row.length = cols := h.2 row (List.mem_cons_self _ _)
    have h2 : Rect g.length cols (g) := ⟨rfl, fun x hx => h.2 x (List.mem_cons_of_mem _ hx)⟩
    have h3 := countCells_le p cols g g.length h2
    have h4 : List.countP p row ≤ cols := h1 ▸ List.countP_le_length p
    have h5 : rows = g.length + 1 := by rw [← h.1]; rfl
    have h6 : countCells p (row :: g) = List.countP p row + countCells p g := by
      simp [countCells]
    rw [h6, h5, Nat.add_mul]
    omega

/-- With the depth `rows * cols + 1` that `handleLeftClick` gives it, `revealCell` returns. -/
theorem revealCell_returns {rows cols : Nat} {g : Grid} (hrect : Rect rows cols g) (r c : Int) :
    ∃ g', revealCell rows cols (rows * cols + 1) g r c = .ok g' :=
  revealCell_terminates rows cols _ g r c hrect
    (Nat.lt_succ_of_le (countCells_le _ cols g rows hrect))

theorem getCell_natCast (g : Grid) (r c : Nat) :
    getCell g (r : Int) (c : Int) = (g[r]?).bind (fun row => row[c]?) := by
  unfold getCell
  simp

theorem revealedCount_eq {rows cols : Nat} {g : Grid} (hrect : Rect rows cols g) :
    revealedCount rows cols g = .ok (countCells (fun x => x.isRevealed) g) := by
  have key := forCells_inv rows cols (fun count r c =>
      match cellAt g r c with
      | .error e => .error e
      | .ok cell => .ok (if cell.isRevealed then count + 1 else count))
    (fun r c n => n = countCells (fun x => x.isRevealed) (g.take r)
      + List.countP (fun x => x.isRevealed) ((g[r]?.getD []).take c)) 0
    (by simp [countCells]) ?_ ?_
  · obtain ⟨n, hn, hQ⟩ := key
    unfold revealedCount
    rw [hn, hQ]
    simp [← hrect.1]
  · intro r c n hr hc hn
    have hr' : r < g.length := by rw [hrect.1]; exact hr
    have hrow : (g[r]).length = cols := hrect.2 _ (List.getElem_mem _)
    have hc' : c < (g[r]).length := by rw [hrow]; exact hc
    have hx : getCell g (r : Int) (c : Int) = some ((g[r])[c]) := by
      rw [getCell_natCast]
      simp [List.getElem?_eq_getElem hr', List.getElem?_eq_getElem hc']
    refine ⟨if ((g[r])[c]).isRevealed then n + 1 else n,
      by simp only [cellAt_of_getCell hx], ?_⟩
    rw [hn]
    simp only [List.getElem?_eq_getElem hr', Option.getD_some, List.take_succ,
      List.getElem?_eq_getElem hc', Option.toList_some, List.countP_append, List.countP_cons,
      List.countP_nil]
    split_ifs <;> omega
  · intro r n hr hn
    have hr' : r < g.length := by rw [hrect.1]; exact hr
    have hrow : (g[r]).length = cols := hrect.2 _ (List.getElem_mem _)
    rw [hn]
    simp only [List.getElem?_eq_getElem hr', Option.getD_some, List.take_succ,
      Option.toList_some, List.take_zero, List.countP_nil, add_zero, countCells,
      List.map_append, List.sum_append, List.map_cons, List.map_nil, List.sum_cons,
      List.sum_nil, ← hrow, List.take_length]

/-! ## `revealAllMines`, `renderBoard` and counting -/

theorem revealAllMines_ok {rows cols : Nat} {g : Grid} (hrect : Rect rows cols g)
    (hitR hitC : Int) :
    ∃ g', revealAllMines rows cols g hitR hitC = .ok g' ∧ Rect rows cols g' ∧
      ∀ r c, getCell g' r c = (getCell g r c).map (fun x =>
        if x.isMine then mineWrite hitR hitC r c x else x) := by
  have key := forCells_inv rows cols (fun grid r c =>
      match cellAt grid r c with
      | .error e => .error e
      | .ok cell =>
        if cell.isMine then .ok (modifyCell grid r c (mineWrite hitR hitC r c))
        else .ok grid)
    (fun r c g1 => Rect rows cols g1 ∧ ∀ r' c' : Int, getCell g1 r' c' =
      (getCell g r' c').map (fun x =>
        if (r' < r ∨ (r' = r ∧ c' < c)) ∧ x.isMine = true
        then mineWrite hitR hitC r' c' x else x))
    g ?_ ?_ ?_
  · obtain ⟨g', h1, h2, h3⟩ := key
    refine ⟨g', h1, h2, ?_⟩
    intro r c
    rw [h3]
    cases hg : getCell g r c with
    | none => rfl
    | some x =>
      have hb := (getCell_isSome_iff hrect r c).1 ⟨x, hg⟩
      have : (r < (rows : Int) ∨ (r = rows ∧ c < 0)) := Or.inl hb.2.1
      cases hx : x.isMine <;> simp [this, hx]
  · refine ⟨hrect, ?_⟩
    intro r' c'
    cases hg : getCell g r' c' with
    | none => rfl
    | some x =>
      have hb := (getCell_isSome_iff hrect r' c').1 ⟨x, hg⟩
      have : ¬ (r' < 0 ∨ (r' = 0 ∧ c' < 0)) := by omega
      simp [this]
  · intro r c g1 hr hc ⟨hrect1, hpt⟩
    obtain ⟨x0, hx0⟩ := (getCell_isSome_iff hrect (r : Int) (c : Int)).2 (by omega)
    have hx1 : getCell g1 r c = some x0 := by
      rw [hpt, hx0]; simp
    simp only [cellAt_of_getCell hx1]
    have hiff : ∀ r' c' : Int, ¬ (r' = r ∧ c' = c) →
        ((r' < (r : Int) ∨ r' = r ∧ c' < ((c + 1 : Nat) : Int)) ↔
          (r' < (r : Int) ∨ r' = r ∧ c' < (c : Int))) := by
      intro r' c' hne
      push_cast; omega
    cases hmine : x0.isMine with
    | false =>
      refine ⟨g1, by simp, hrect1, ?_⟩
      intro r' c'
      rw [hpt]
      cases hg : getCell g r' c' with
      | none => rfl
      | some x =>
        simp only [Option.map_some', Option.some.injEq]
        by_cases hrc : r' = r ∧ c' = c
        · obtain ⟨rfl, rfl⟩ := hrc
          rw [hx0] at hg
          cases hg
          simp [hmine]
        · simp only [hiff r' c' hrc]
    | true =>
      refine ⟨modifyCell g1 r c (mineWrite hitR hitC r c), by simp,
        rect_modifyCell hrect1 _ _ _, ?_⟩
      intro r' c'
      rw [getCell_modifyCell]
      by_cases hrc : r' = r ∧ c' = c
      · obtain ⟨rfl, rfl⟩ := hrc
        simp [hx1, hx0, hmine]
      · rw [if_neg hrc, hpt]
        cases hg : getCell g r' c' with
        | none => rfl
        | some x => simp only [Option.map_some', hiff r' c' hrc]
  · intro r g1 hr ⟨hrect1, hpt⟩
    refine ⟨hrect1, ?_⟩
    intro r' c'
    rw [hpt]
    cases hg : getCell g r' c' with
    | none => rfl
    | some x =>
      have hb := (getCell_isSome_iff hrect r' c').1 ⟨x, hg⟩
      have : ((r' < ((r + 1 : Nat) : Int) ∨ r' = ((r + 1 : Nat) : Int) ∧ c' < ((0 : Nat) : Int)) ↔
          (r' < (r : Int) ∨ r' = r ∧ c' < (cols : Int))) := by
        push_cast; omega
      simp only [Option.map_some', this]

theorem countCells_congr (p : Cell → Bool) {rows cols : Nat} {g g' : Grid}
    (hrect : Rect rows cols g) (hrect' : Rect rows cols g')
    (h : ∀ r c x x', getCell g r c = some x → getCell g' r c = some x' → p x' = p x) :
    countCells p g' = countCells p g := by
  have hcount : ∀ row : List Cell, List.countP p row = List.countP id (row.map p) := by
    intro row
    rw [List.countP_map]
    rfl
  have hsum : ∀ gg : Grid, countCells p gg
      = ((gg.map (List.map p)).map (List.countP id)).sum := by
    intro gg
    unfold countCells
    rw [List.map_map]
    congr 1
    apply List.map_congr_left
    intro row _
    exact hcount row
  rw [hsum, hsum]
  congr 2
  apply List.ext_getElem?
  intro i
  rw [List.getElem?_map, List.getElem?_map]
  by_cases hi : i < rows
  · have hi1 : i < g.length := by rw [hrect.1]; exact hi
    have hi2 : i < g'.length := by rw [hrect'.1]; exact hi
    rw [List.getElem?_eq_getElem hi1, List.getElem?_eq_getElem hi2]
    simp only [Option.map_some', Option.some.injEq]
    have hl1 : (g[i]).length = cols := hrect.2 _ (List.getElem_mem _)
    have hl2 : (g'[i]).length = cols := hrect'.2 _ (List.getElem_mem _)
    apply List.ext_getElem?
    intro j
    rw [List.getElem?_map, List.getElem?_map]
    by_cases hj : j < cols
    · have hj1 : j < (g[i]).length := by rw [hl1]; exact hj
      have hj2 : j < (g'[i]).length := by rw [hl2]; exact hj
      rw [List.getElem?_eq_getElem hj1, List.getElem?_eq_getElem hj2]
      simp only [Option.map_some', Option.some.injEq]
      apply h (i : Int) (j : Int)
      · rw [getCell_natCast]
        simp [List.getElem?_eq_getElem hi1, List.getElem?_eq_getElem hj1]
      · rw [getCell_natCast]
        simp [List.getElem?_eq_getElem hi2, List.getElem?_eq_getElem hj2]
    · have e1 : (g[i])[j]? = none := List.getElem?_eq_none (by omega)
      have e2 : (g'[i])[j]? = none := List.getElem?_eq_none (by omega)
      rw [e1, e2]
  · have e1 : g[i]? = none := List.getElem?_eq_none (by have := hrect.1; omega)
    have e2 : g'[i]? = none := List.getElem?_eq_none (by have := hrect'.1; omega)
    rw [e1, e2]

theorem foldl_push {α : Type} (a : α) :
    ∀ (n : Nat) (init : List α),
      (List.range n).foldl (fun row _ => row ++ [a]) init = init ++ List.replicate n a
  | 0, init => by simp
  | n + 1, init => by
    rw [List.range_succ, List.foldl_append, foldl_push a n init]
    simp [List.replicate_succ', List.append_assoc]

theorem renderBoard_grid (s : Minesweeper) :
    (renderBoard s).grid
      = s.grid ++ List.replicate s.rows (List.replicate s.cols freshCell) := by
  unfold renderBoard
  simp only [foldl_push, List.nil_append]

theorem rect_replicate (rows cols : Nat) (x : Cell) :
    Rect rows cols (List.replicate rows (List.replicate cols x)) := by
  refine ⟨by simp, ?_⟩
  intro row hrow
  rw [List.eq_of_mem_replicate hrow]
  simp

theorem getCell_replicate {rows cols : Nat} {x cell : Cell} {r c : Int}
    (h : getCell (List.replicate rows (List.replicate cols x)) r c = some cell) : cell = x := by
  unfold getCell at h
  split_ifs at h
  simp only [List.getElem?_replicate] at h
  split_ifs at h
  · simp only [Option.some_bind, List.getElem?_replicate] at h
    split_ifs at h
    cases h
    rfl
  · cases h

theorem countCells_replicate (p : Cell → Bool) (rows cols : Nat) (x : Cell) (hx : p x = false) :
    countCells p (List.replicate rows (List.replicate cols x)) = 0 := by
  rw [countCells_eq_zero_iff]
  intro r c cell h
  rw [getCell_replicate h]
  exact hx

/-! ## Fields that an operation leaves alone -/

theorem fieldsEq_refl {β : Type} (proj : Cell → β) (g : Grid) : FieldsEq proj g g :=
  fun _ _ => rfl

theorem fieldsEq_trans {β : Type} {proj : Cell → β} {g1 g2 g3 : Grid}
    (h12 : FieldsEq proj g1 g2) (h23 : FieldsEq proj g2 g3) : FieldsEq proj g1 g3 :=
  fun r c => (h23 r c).trans (h12 r c)

theorem fieldsEq_cell {β : Type} {proj : Cell → β} {g g' : Grid} (h : FieldsEq proj g g')
    {r c : Int} {x' : Cell} (hx' : getCell g' r c = some x') :
    ∃ x, getCell g r c = some x ∧ proj x' = proj x := by
  have := h r c
  rw [hx'] at this
  cases hg : getCell g r c with
  | none => rw [hg] at this; cases this
  | some x =>
    rw [hg] at this
    exact ⟨x, rfl, by simpa using this⟩

theorem fieldsEq_cell' {β : Type} {proj : Cell → β} {g g' : Grid} (h : FieldsEq proj g g')
    {r c : Int} {x : Cell} (hx : getCell g r c = some x) :
    ∃ x', getCell g' r c = some x' ∧ proj x' = proj x := by
  have := h r c
  rw [hx] at this
  cases hg : getCell g' r c with
  | none => rw [hg] at this; cases this
  | some x' =>
    rw [hg] at this
    exact ⟨x', rfl, by simpa using this⟩

theorem fieldsEq_of_map {β : Type} {proj : Cell → β} {g g' : Grid} (f : Int → Int → Cell → Cell)
    (hproj : ∀ r c x, proj (f r c x) = proj x)
    (h : ∀ r c, getCell g' r c = (getCell g r c).map (f r c)) : FieldsEq proj g g' := by
  intro r c
  rw [h]
  cases getCell g r c with
  | none => rfl
  | some x => simp [hproj]

theorem fieldsEq_modifyCell {β : Type} {proj : Cell → β} (g : Grid) (r c : Int)
    {f : Cell → Cell} (hproj : ∀ x, proj (f x) = proj x) :
    FieldsEq proj g (modifyCell g r c f) := by
  intro r' c'
  rw [getCell_modifyCell]
  split_ifs with h
  · obtain ⟨rfl, rfl⟩ := h
    cases getCell g r' c' with
    | none => rfl
    | some x => simp [hproj]
  · rfl

theorem fieldsEq_of_revealExt {β : Type} {proj : Cell → β} {g g' : Grid}
    (hproj : ∀ x, proj (revealWrite x) = proj x) (h : RevealExt g g') :
    FieldsEq proj g g' := by
  intro r c
  rcases h r c with e | ⟨x, hx, _, _, hx'⟩
  · rw [e]
  · rw [hx, hx']
    simp [hproj]

theorem countCells_fieldsEq (p : Cell → Bool) {rows cols : Nat} {g g' : Grid}
    (hrect : Rect rows cols g) (hrect' : Rect rows cols g') (h : FieldsEq p g g') :
    countCells p g' = countCells p g := by
  apply countCells_congr p hrect hrect'
  intro r c x x' hx hx'
  obtain ⟨y, hy, hp⟩ := fieldsEq_cell h hx'
  rw [hx] at hy
  cases hy
  exact hp

theorem minedAt_fieldsEq {g g' : Grid} (h : FieldsEq (fun x => x.isMine) g g') (r c : Int) :
    minedAt g' r c = minedAt g r c := by
  unfold minedAt
  have := h r c
  cases hg : getCell g r c <;> cases hg' : getCell g' r c <;> simp [hg, hg'] at this ⊢
  exact this

theorem numbersOk_fieldsEq {g g' : Grid} (h1 : FieldsEq (fun x => x.isMine) g g')
    (h2 : FieldsEq (fun x => x.neighborMines) g g') (hok : NumbersOk g) : NumbersOk g' := by
  intro r c x' hx' hmine
  obtain ⟨x, hx, e1⟩ := fieldsEq_cell h1 hx'
  obtain ⟨y, hy, e2⟩ := fieldsEq_cell h2 hx'
  rw [hx] at hy
  cases hy
  have e1' : x'.isMine = x.isMine := e1
  have e2' : x'.neighborMines = x.neighborMines := e2
  rw [e2', mooreCount_congr (minedAt_fieldsEq h1)]
  exact hok r c x hx (e1' ▸ hmine)

/-! ## The methods on game states -/

theorem checkWin_eq (s : Minesweeper) (hrect : Rect s.rows s.cols s.grid) :
    checkWin s = .ok
      (if ((countCells (fun x => x.isRevealed) s.grid : Nat) : Int)
          = (s.rows : Int) * s.cols - s.mines
       then { stopTimer { s with gameOver := true } with emoji := .party } else s) := by
  unfold checkWin
  rw [revealedCount_eq hrect]
  simp only
  split_ifs <;> simp [triggerGameOver]

theorem triggerGameOver_lose {s : Minesweeper} (hrect : Rect s.rows s.cols s.grid)
    (r c : Int) :
    ∃ g', revealAllMines s.rows s.cols s.grid r c = .ok g' ∧ Rect s.rows s.cols g' ∧
      (∀ r' c', getCell g' r' c' = (getCell s.grid r' c').map (fun x =>
        if x.isMine then mineWrite r c r' c' x else x)) ∧
      triggerGameOver s false r c = .ok
        { stopTimer { s with gameOver := true } with
          emoji := .dizzy, grid := g', gameOverTimeout := true } := by
  obtain ⟨g', h1, h2, h3⟩ := revealAllMines_ok hrect r c
  refine ⟨g', h1, h2, h3, ?_⟩
  unfold triggerGameOver
  simp [stopTimer, h1]

theorem firstClickBlock_cases {s s1 : Minesweeper} {r c : Int} {picks : List (Nat × Nat)}
    (h : firstClickBlock s r c picks = .ok s1) :
    (s.firstClick = false ∧ s1 = s) ∨
    (s.firstClick = true ∧ ∃ g1 g2, placeMines s.mines s.grid r c picks = .ok g1 ∧
      calculateNumbers s.rows s.cols g1 = .ok g2 ∧
      s1 = { startTimer { s with grid := g2 } with firstClick := false }) := by
  unfold firstClickBlock at h
  split_ifs at h with hfc
  · right
    refine ⟨hfc, ?_⟩
    cases h1 : placeMines s.mines s.grid r c picks with
    | error e => rw [h1] at h; cases h
    | ok g1 =>
      simp only [h1] at h
      cases h2 : calculateNumbers s.rows s.cols g1 with
      | error e => rw [h2] at h; cases h
      | ok g2 =>
        simp only [h2] at h
        cases h
        exact ⟨g1, g2, rfl, h2, rfl⟩
  · left
    cases h
    exact ⟨by simpa using hfc, rfl⟩

theorem revealOrLose_cases {s s' : Minesweeper} {r c : Int}
    (h : revealOrLose s r c = .ok s') :
    ∃ cell, getCell s.grid r c = some cell ∧
      ((cell.isMine = true ∧ triggerGameOver s false r c = .ok s') ∨
       (cell.isMine = false ∧ ∃ g', revealCell s.rows s.cols (s.rows * s.cols + 1) s.grid r c
          = .ok g' ∧ checkWin { s with grid := g' } = .ok s')) := by
  unfold revealOrLose at h
  cases hc : cellAt s.grid r c with
  | error e => rw [hc] at h; cases h
  | ok cell =>
    simp only [hc] at h
    refine ⟨cell, getCell_of_cellAt hc, ?_⟩
    split_ifs at h with hm
    · exact Or.inl ⟨hm, h⟩
    · right
      refine ⟨by simpa using hm, ?_⟩
      cases hr : revealCell s.rows s.cols (s.rows * s.cols + 1) s.grid r c with
      | error e => rw [hr] at h; cases h
      | ok g' =>
        simp only [hr] at h
        exact ⟨g', rfl, h⟩

theorem handleLeftClick_cases {s s' : Minesweeper} {r c : Int} {picks : List (Nat × Nat)}
    (h : handleLeftClick s r c picks = .ok s') :
    s' = s ∨
    (s.gameOver = false ∧ ∃ cell0, getCell s.grid r c = some cell0 ∧ cell0.isFlagged = false ∧
      cell0.isRevealed = false ∧
      ∃ s1, firstClickBlock s r c picks = .ok s1 ∧ revealOrLose s1 r c = .ok s') := by
  unfold handleLeftClick at h
  split_ifs at h with hgo
  · cases h; exact Or.inl rfl
  · cases hc : cellAt s.grid r c with
    | error e => rw [hc] at h; cases h
    | ok cell0 =>
      simp only [hc] at h
      split_ifs at h with hb
      · cases h; exact Or.inl rfl
      · right
        refine ⟨by simpa using hgo, cell0, getCell_of_cellAt hc, ?_, ?_, ?_⟩
        · cases hh : cell0.isFlagged with
          | false => rfl
          | true => simp [hh] at hb
        · cases hh : cell0.isRevealed with
          | false => rfl
          | true => simp [hh] at hb
        · cases h1 : firstClickBlock s r c picks with
          | error e => rw [h1] at h; cases h
          | ok s1 =>
            simp only [h1] at h
            exact ⟨s1, rfl, h⟩

theorem handleLeftClick_effective {s : Minesweeper} {r c : Int} {picks : List (Nat × Nat)}
    {cell0 : Cell} (hgo : s.gameOver = false) (h0 : getCell s.grid r c = some cell0)
    (hf : cell0.isFlagged = false) (hr : cell0.isRevealed = false) :
    handleLeftClick s r c picks =
      match firstClickBlock s r c picks with
      | .error e => .error e
      | .ok s1 => revealOrLose s1 r c := by
  unfold handleLeftClick
  simp [hgo, cellAt_of_getCell h0, hf, hr]

theorem handleRightClick_cases {s s' : Minesweeper} {r c : Int}
    (h : handleRightClick s r c = .ok s') :
    s' = s ∨
    (s.gameOver = false ∧ ∃ cell, getCell s.grid r c = some cell ∧ cell.isRevealed = false ∧
      s' = { s with grid := modifyCell s.grid r c flagWrite
                    flags := if !cell.isFlagged then s.flags + 1 else s.flags - 1 }) := by
  unfold handleRightClick at h
  split_ifs at h with hgo
  · cases h; exact Or.inl rfl
  · cases hc : cellAt s.grid r c with
    | error e => rw [hc] at h; cases h
    | ok cell =>
      simp only [hc] at h
      by_cases hb : cell.isRevealed = true
      · rw [if_pos hb] at h
        cases h
        exact Or.inl rfl
      · rw [if_neg hb] at h
        cases h
        exact Or.inr ⟨by simpa using hgo, cell, getCell_of_cellAt hc, by simpa using hb, rfl⟩

theorem fieldsEq_placeMines {β : Type} {proj : Cell → β} {g g' : Grid} {safeR safeC : Int}
    (hproj : ∀ x : Cell, proj { x with isMine := true } = proj x)
    (h : ∀ r c, ∃ b : Bool, (b = true → ¬ (|r - safeR| ≤ 1 ∧ |c - safeC| ≤ 1)) ∧
      getCell g' r c = (getCell g r c).map (fun x => if b then { x with isMine := true } else x)) :
    FieldsEq proj g g' := by
  intro r c
  obtain ⟨b, _, hb⟩ := h r c
  rw [hb]
  cases getCell g r c with
  | none => rfl
  | some x => cases b <;> simp [hproj]

theorem numbersOk_calculateNumbers {g g' : Grid}
    (h : ∀ r c, getCell g' r c = (getCell g r c).map (fun x =>
        if x.isMine then x else { x with neighborMines := mooreCount g r c })) :
    NumbersOk g' := by
  have h1 : FieldsEq (fun x => x.isMine) g g' :=
    fieldsEq_of_map (fun r c x => if x.isMine then x else { x with neighborMines := mooreCount g r c })
      (by intro r c x; simp only; split_ifs <;> rfl) h
  intro r c cell hcell hmine
  rw [h] at hcell
  cases hg : getCell g r c with
  | none => simp [hg] at hcell
  | some x =>
    simp only [hg, Option.map_some', Option.some.injEq] at hcell
    rw [mooreCount_congr (minedAt_fieldsEq h1)]
    by_cases hx : x.isMine = true
    · rw [if_pos hx] at hcell
      rw [← hcell, hx] at hmine
      cases hmine
    · rw [if_neg hx] at hcell
      rw [← hcell]

/-! ## The invariant of the reachable states -/

theorem resetGame_fields (s0 : Minesweeper) (rows cols mines : Nat) :
    (resetGame s0 rows cols mines).rows = rows ∧ (resetGame s0 rows cols mines).cols = cols ∧
      (resetGame s0 rows cols mines).mines = mines ∧
      (resetGame s0 rows cols mines).grid = List.replicate rows (List.replicate cols freshCell) ∧
      (resetGame s0 rows cols mines).gameOver = false ∧
      (resetGame s0 rows cols mines).firstClick = true ∧
      (resetGame s0 rows cols mines).flags = 0 ∧ (resetGame s0 rows cols mines).timer = 0 ∧
      (resetGame s0 rows cols mines).timerInterval = false ∧
      (resetGame s0 rows cols mines).emoji = .cool ∧
      (resetGame s0 rows cols mines).config = s0.config := by
  refine ⟨rfl, rfl, rfl, ?_, rfl, rfl, rfl, rfl, rfl, rfl, rfl⟩
  unfold resetGame
  rw [renderBoard_grid]
  simp [stopTimer]

/-- A difficulty that names an entry of the table starts the game of that entry. -/
theorem startNewGame_entry {s0 : Minesweeper} {difficulty : String} {settings : Settings}
    (h : s0.config.lookup difficulty = some settings) :
    startNewGame s0 difficulty
      = .ok (resetGame s0 settings.rows settings.cols settings.mines) := by
  unfold startNewGame readConfig
  rw [h]

/-- A difficulty that names no entry of the table but a property of `Object.prototype`
raises nothing: the game is reset with an empty grid, on which every click is a
`TypeError`. -/
theorem startNewGame_inherited {s0 : Minesweeper} {difficulty : String}
    (h : s0.config.lookup difficulty = none) (hmem : difficulty ∈ objectPrototypeNames) :
    ∃ s, startNewGame s0 difficulty = .ok s ∧ s.grid = [] ∧ s.gameOver = false ∧
      s.firstClick = true ∧ s.flags = 0 ∧
      ∀ r c, (∀ picks, handleLeftClick s r c picks = .error .typeError) ∧
        handleRightClick s r c = .error .typeError := by
  refine ⟨resetGame s0 0 0 0, ?_, rfl, rfl, rfl, rfl, ?_⟩
  · unfold startNewGame readConfig
    rw [h, if_pos hmem]
  · intro r c
    have hg : getCell (resetGame s0 0 0 0).grid r c = none := by
      show getCell [] r c = none
      unfold getCell
      split <;> simp
    refine ⟨fun picks => ?_, ?_⟩
    · unfold handleLeftClick cellAt
      rw [hg]
      rfl
    · unfold handleRightClick cellAt
      rw [hg]
      rfl

/-- A difficulty that names neither an entry of the table nor a property of
`Object.prototype` makes `settings` undefined: line 58 raises a `TypeError`. -/
theorem startNewGame_undefined {s0 : Minesweeper} {difficulty : String}
    (h : s0.config.lookup difficulty = none) (hmem : difficulty ∉ objectPrototypeNames) :
    startNewGame s0 difficulty = .error .typeError := by
  unfold startNewGame readConfig
  rw [h, if_neg hmem]

theorem startNewGame_eq {s0 s : Minesweeper} {difficulty : String}
    (h : startNewGame s0 difficulty = .ok s) :
    ∃ settings : Settings,
      (s0.config.lookup difficulty = some settings ∨
        (s0.config.lookup difficulty = none ∧ difficulty ∈ objectPrototypeNames ∧
          settings = ⟨0, 0, 0⟩)) ∧
      s.rows = settings.rows ∧ s.cols = settings.cols ∧ s.mines = settings.mines ∧
      s.grid = List.replicate settings.rows (List.replicate settings.cols freshCell) ∧
      s.gameOver = false ∧ s.firstClick = true ∧ s.flags = 0 ∧ s.timer = 0 ∧
      s.timerInterval = false ∧ s.emoji = .cool ∧ s.config = s0.config := by
  cases hl : s0.config.lookup difficulty with
  | some settings =>
    rw [startNewGame_entry hl] at h
    cases h
    exact ⟨settings, Or.inl rfl, resetGame_fields s0 _ _ _⟩
  | none =>
    by_cases hmem : difficulty ∈ objectPrototypeNames
    · have h2 : startNewGame s0 difficulty = .ok (resetGame s0 0 0 0) := by
        unfold startNewGame readConfig
        rw [hl, if_pos hmem]
      rw [h2] at h
      cases h
      exact ⟨⟨0, 0, 0⟩, Or.inr ⟨rfl, hmem, rfl⟩, resetGame_fields s0 0 0 0⟩
    · rw [startNewGame_undefined hl hmem] at h
      cases h

theorem inv_startNewGame {s0 s : Minesweeper} {difficulty : String}
    (h : startNewGame s0 difficulty = .ok s) : Inv s := by
  obtain ⟨st, _, hr, hc, _, hg, hgo, hfc', hfl, _⟩ := startNewGame_eq h
  constructor
  · rw [hr, hc, hg]; exact rect_replicate _ _ _
  · intro _
    refine ⟨hgo, ?_, ?_⟩ <;> rw [hg] <;> exact countCells_replicate _ _ _ _ rfl
  · intro hfc
    rw [hfc'] at hfc
    cases hfc
  · intro r c cell hcell
    rw [hg] at hcell
    rw [getCell_replicate hcell]
    simp [freshCell]
  · rw [hfl, hg, countCells_replicate _ _ _ _ rfl]
    rfl

/-- A change of the grid that keeps the mines, the numbers and the flags and reveals no
flagged cell keeps the invariant, once the mines are placed. -/
theorem inv_frame {s s' : Minesweeper} (hinv : Inv s) (hfc : s.firstClick = false)
    (hfc' : s'.firstClick = false) (hr : s'.rows = s.rows) (hc : s'.cols = s.cols)
    (hm : s'.mines = s.mines) (hf : s'.flags = s.flags)
    (hrect : Rect s.rows s.cols s'.grid)
    (h1 : FieldsEq (fun x => x.isMine) s.grid s'.grid)
    (h2 : FieldsEq (fun x => x.neighborMines) s.grid s'.grid)
    (h3 : FieldsEq (fun x => x.isFlagged) s.grid s'.grid)
    (hex : ∀ r c x x', getCell s.grid r c = some x → getCell s'.grid r c = some x' →
      x'.isRevealed = true → x'.isFlagged = true → x.isRevealed = true) : Inv s' := by
  constructor
  · rw [hr, hc]; exact hrect
  · intro h; rw [hfc'] at h; cases h
  · intro _
    obtain ⟨p1, p2⟩ := hinv.placed hfc
    exact ⟨by rw [countCells_fieldsEq _ hinv.rect hrect h1, p1, hm],
      numbersOk_fieldsEq h1 h2 p2⟩
  · intro r c x' hx' ⟨hrev, hflag⟩
    obtain ⟨x, hx, e⟩ := fieldsEq_cell h3 hx'
    have e' : x'.isFlagged = x.isFlagged := e
    exact hinv.exclusive r c x hx ⟨hex r c x x' hx hx' hrev hflag, e' ▸ hflag⟩
  · rw [hf, countCells_fieldsEq _ hinv.rect hrect h3]
    exact hinv.flagCount

theorem inv_checkWin {s s' : Minesweeper} (hinv : Inv s) (hfc : s.firstClick = false)
    (h : checkWin s = .ok s') : Inv s' ∧ s'.grid = s.grid ∧ s'.firstClick = false ∧
      s'.rows = s.rows ∧ s'.cols = s.cols ∧ s'.mines = s.mines ∧ s'.flags = s.flags := by
  rw [checkWin_eq s hinv.rect] at h
  split_ifs at h <;> cases h
  · refine ⟨?_, rfl, hfc, rfl, rfl, rfl, rfl⟩
    exact inv_frame hinv hfc hfc rfl rfl rfl rfl hinv.rect (fieldsEq_refl _ _)
      (fieldsEq_refl _ _) (fieldsEq_refl _ _)
      (fun r c x x' hx hx' hrev _ => by
        have : x' = x := by simpa [stopTimer, hx] using hx'.symm
        rw [← this]; exact hrev)
  · exact ⟨hinv, rfl, hfc, rfl, rfl, rfl, rfl⟩

theorem inv_reveal {s : Minesweeper} {r c : Int} {fuel : Nat} {g' : Grid} (hinv : Inv s)
    (hfc : s.firstClick = false) (h : revealCell s.rows s.cols fuel s.grid r c = .ok g') :
    Inv { s with grid := g' } := by
  obtain ⟨a1, a2, _⟩ := revealCell_post s.rows s.cols fuel s.grid r c g' hinv.rect h
  refine inv_frame hinv hfc hfc rfl rfl rfl rfl a1
    (fieldsEq_of_revealExt revealWrite_isMine a2)
    (fieldsEq_of_revealExt revealWrite_neighborMines a2)
    (fieldsEq_of_revealExt revealWrite_isFlagged a2) ?_
  intro r' c' x x' hx hx' hrev hflag
  rcases a2 r' c' with e | ⟨y, hy, _, hyf, hy'⟩
  · have : some x' = some x := by rw [← hx, ← hx']; exact e
    cases this
    exact hrev
  · have : x' = revealWrite y := by
      have e : some x' = some (revealWrite y) := by rw [← hx']; exact hy'
      cases e; rfl
    rw [this, revealWrite_isFlagged, hyf] at hflag
    cases hflag

theorem mineWrite_fields (hitR hitC r c : Int) (x : Cell) :
    (mineWrite hitR hitC r c x).isMine = x.isMine ∧
    (mineWrite hitR hitC r c x).isRevealed = x.isRevealed ∧
    (mineWrite hitR hitC r c x).isFlagged = x.isFlagged ∧
    (mineWrite hitR hitC r c x).neighborMines = x.neighborMines :=
  ⟨rfl, rfl, rfl, rfl⟩

theorem inv_lose {s s' : Minesweeper} {r c : Int} (hinv : Inv s) (hfc : s.firstClick = false)
    (h : triggerGameOver s false r c = .ok s') : Inv s' := by
  obtain ⟨g', _, h2, h3, h4⟩ := triggerGameOver_lose hinv.rect r c
  rw [h4] at h
  cases h
  have hfe : ∀ {β : Type} (proj : Cell → β),
      (∀ r' c' x, proj (if x.isMine then mineWrite r c r' c' x else x) = proj x) →
      FieldsEq proj s.grid g' := fun proj hp =>
    fieldsEq_of_map (fun r' c' x => if x.isMine then mineWrite r c r' c' x else x) hp h3
  refine inv_frame hinv hfc hfc rfl rfl rfl rfl h2
    (hfe _ (by intro r' c' x; split_ifs <;> rfl))
    (hfe _ (by intro r' c' x; split_ifs <;> rfl))
    (hfe _ (by intro r' c' x; split_ifs <;> rfl)) ?_
  intro r' c' x x' hx hx' hrev _
  have e := h3 r' c'
  rw [hx] at e
  have e' : some x' = some (if x.isMine then mineWrite r c r' c' x else x) := by
    rw [← hx']; exact e
  cases e'
  split_ifs at hrev <;> exact hrev

theorem inv_revealOrLose {s s' : Minesweeper} {r c : Int} (hinv : Inv s)
    (hfc : s.firstClick = false) (h : revealOrLose s r c = .ok s') :
    Inv s' ∧ s'.firstClick = false := by
  obtain ⟨cell, _, ⟨_, hl⟩ | ⟨_, g', hr, hw⟩⟩ := revealOrLose_cases h
  · refine ⟨inv_lose hinv hfc hl, ?_⟩
    obtain ⟨g', _, _, _, h4⟩ := triggerGameOver_lose hinv.rect r c
    rw [h4] at hl
    cases hl
    exact hfc
  · have := inv_checkWin (inv_reveal hinv hfc hr) hfc hw
    exact ⟨this.1, this.2.2.1⟩

theorem flagWrite_fields (x : Cell) :
    (flagWrite x).isMine = x.isMine ∧ (flagWrite x).isRevealed = x.isRevealed ∧
    (flagWrite x).neighborMines = x.neighborMines ∧ (flagWrite x).isFlagged = !x.isFlagged := by
  unfold flagWrite
  cases h : x.isFlagged <;> simp

theorem neighborOffsets_near {ij : Int × Int} (h : ij ∈ neighborOffsets) (r c : Int) :
    |r + ij.1 - r| ≤ 1 ∧ |c + ij.2 - c| ≤ 1 := by
  simp only [neighborOffsets, List.mem_cons, List.mem_singleton, List.mem_nil_iff,
    or_false] at h
  rcases h with rfl | rfl | rfl | rfl | rfl | rfl | rfl | rfl <;>
    simp [abs_le]

/-- The block of the first click keeps the invariant and leaves a clicked cell that is
no mine and has no mine around it. -/
theorem inv_firstClickBlock {s s1 : Minesweeper} {r c : Int} {picks : List (Nat × Nat)}
    (hinv : Inv s) (h : firstClickBlock s r c picks = .ok s1) :
    Inv s1 ∧ s1.firstClick = false ∧ s1.gameOver = s.gameOver ∧ s1.emoji = s.emoji ∧
      s1.rows = s.rows ∧ s1.cols = s.cols ∧ s1.mines = s.mines ∧ s1.flags = s.flags ∧
      FieldsEq (fun x => x.isRevealed) s.grid s1.grid ∧
      FieldsEq (fun x => x.isFlagged) s.grid s1.grid ∧
      (s.firstClick = true → ∀ cell, getCell s1.grid r c = some cell →
        cell.isMine = false ∧ cell.neighborMines = 0) := by
  rcases firstClickBlock_cases h with ⟨hfc, rfl⟩ | ⟨hfc, g1, g2, hp, hcalc, rfl⟩
  · exact ⟨hinv, hfc, rfl, rfl, rfl, rfl, rfl, rfl, fieldsEq_refl _ _, fieldsEq_refl _ _,
      fun h => by rw [hfc] at h; cases h⟩
  · obtain ⟨_, hnomine, _⟩ := hinv.fresh hfc
    obtain ⟨i1, i2, i3⟩ := placeMinesLoop_ok s.mines r c picks 0 s.grid g1 (Nat.zero_le _) hp
    have hr1 : Rect s.rows s.cols g1 := i2 _ _ hinv.rect
    obtain ⟨g2', hc1, hr2, hpt⟩ := calculateNumbers_ok hr1
    rw [hcalc] at hc1
    cases hc1
    have hmap : ∀ {β : Type} (proj : Cell → β),
        (∀ (n : Nat) (x : Cell), proj { x with neighborMines := n } = proj x) →
        FieldsEq proj g1 g2 := fun proj hproj =>
      fieldsEq_of_map
        (fun r c x => if x.isMine then x else { x with neighborMines := mooreCount g1 r c })
        (by intro r c x; simp only; split_ifs <;> simp [hproj]) hpt
    have hrev : FieldsEq (fun x => x.isRevealed) s.grid g2 :=
      fieldsEq_trans (fieldsEq_placeMines (fun _ => rfl) i3)
        (hmap (fun x => x.isRevealed) (fun _ _ => rfl))
    have hflag : FieldsEq (fun x => x.isFlagged) s.grid g2 :=
      fieldsEq_trans (fieldsEq_placeMines (fun _ => rfl) i3)
        (hmap (fun x => x.isFlagged) (fun _ _ => rfl))
    have hsafe : ∀ r' c', |r' - r| ≤ 1 → |c' - c| ≤ 1 → minedAt g1 r' c' = false := by
      intro r' c' h1 h2
      obtain ⟨b, hb1, hb2⟩ := i3 r' c'
      have hb : b = false := by
        cases b with
        | false => rfl
        | true => exact absurd ⟨h1, h2⟩ (hb1 rfl)
      subst hb
      unfold minedAt
      rw [hb2]
      cases hg : getCell s.grid r' c' with
      | none => rfl
      | some x => simpa using (countCells_eq_zero_iff _ _).1 hnomine r' c' x hg
    refine ⟨?_, rfl, rfl, rfl, rfl, rfl, rfl, rfl, hrev, hflag, ?_⟩
    · constructor
      · exact hr2
      · intro h; cases h
      · intro _
        refine ⟨?_, numbersOk_calculateNumbers hpt⟩
        show countCells (fun x => x.isMine) g2 = s.mines
        rw [countCells_fieldsEq _ hr1 hr2 (hmap (fun x => x.isMine) (fun _ _ => rfl))]
        omega
      · intro r' c' x' hx' ⟨h1, h2⟩
        obtain ⟨x, hx, e1⟩ := fieldsEq_cell hrev hx'
        obtain ⟨y, hy, e2⟩ := fieldsEq_cell hflag hx'
        rw [hx] at hy
        cases hy
        have e1' : x'.isRevealed = x.isRevealed := e1
        have e2' : x'.isFlagged = x.isFlagged := e2
        exact hinv.exclusive r' c' x hx ⟨e1' ▸ h1, e2' ▸ h2⟩
      · show s.flags = countCells (fun x => x.isFlagged) g2
        rw [countCells_fieldsEq _ hinv.rect hr2 hflag]
        exact hinv.flagCount
    · intro _ cell hcell
      have hcell' : getCell g2 r c = some cell := hcell
      rw [hpt] at hcell'
      have hm : minedAt g1 r c = false := hsafe r c (by simp) (by simp)
      cases hg : getCell g1 r c with
      | none => simp [hg] at hcell'
      | some x =>
        have hx : x.isMine = false := by
          unfold minedAt at hm
          rw [hg] at hm
          exact hm
        rw [hg] at hcell'
        simp [hx] at hcell'
        rw [← hcell']
        refine ⟨rfl, ?_⟩
        show mooreCount g1 r c = 0
        unfold mooreCount
        rw [List.countP_eq_zero]
        intro ij hij
        have := neighborOffsets_near hij r c
        simp [hsafe _ _ this.1 this.2]

theorem inv_handleLeftClick {s s' : Minesweeper} {r c : Int} {picks : List (Nat × Nat)}
    (hinv : Inv s) (h : handleLeftClick s r c picks = .ok s') : Inv s' := by
  rcases handleLeftClick_cases h with rfl | ⟨_, _, _, _, _, s1, h1, h2⟩
  · exact hinv
  · obtain ⟨i1, i2, _⟩ := inv_firstClickBlock hinv h1
    exact (inv_revealOrLose i1 i2 h2).1

theorem inv_handleRightClick {s s' : Minesweeper} {r c : Int} (hinv : Inv s)
    (h : handleRightClick s r c = .ok s') : Inv s' := by
  rcases handleRightClick_cases h with rfl | ⟨_, cell, hcell, hrev, rfl⟩
  · exact hinv
  · have hrect : Rect s.rows s.cols (modifyCell s.grid r c flagWrite) :=
      rect_modifyCell hinv.rect _ _ _
    have hmine : FieldsEq (fun x => x.isMine) s.grid (modifyCell s.grid r c flagWrite) :=
      fieldsEq_modifyCell _ _ _ (fun x => (flagWrite_fields x).1)
    have hrv : FieldsEq (fun x => x.isRevealed) s.grid (modifyCell s.grid r c flagWrite) :=
      fieldsEq_modifyCell _ _ _ (fun x => (flagWrite_fields x).2.1)
    have hnum : FieldsEq (fun x => x.neighborMines) s.grid (modifyCell s.grid r c flagWrite) :=
      fieldsEq_modifyCell _ _ _ (fun x => (flagWrite_fields x).2.2.1)
    constructor
    · exact hrect
    · intro hfc
      obtain ⟨f1, f2, f3⟩ := hinv.fresh hfc
      refine ⟨f1, ?_, ?_⟩
      · show countCells (fun x => x.isMine) (modifyCell s.grid r c flagWrite) = 0
        rw [countCells_fieldsEq _ hinv.rect hrect hmine]; exact f2
      · show countCells (fun x => x.isRevealed) (modifyCell s.grid r c flagWrite) = 0
        rw [countCells_fieldsEq _ hinv.rect hrect hrv]; exact f3
    · intro hfc
      obtain ⟨p1, p2⟩ := hinv.placed hfc
      refine ⟨?_, numbersOk_fieldsEq hmine hnum p2⟩
      show countCells (fun x => x.isMine) (modifyCell s.grid r c flagWrite) = s.mines
      rw [countCells_fieldsEq _ hinv.rect hrect hmine]; exact p1
    · intro r' c' x' hx' ⟨h1, h2⟩
      have hx'' : getCell (modifyCell s.grid r c flagWrite) r' c' = some x' := hx'
      rw [getCell_modifyCell] at hx''
      split_ifs at hx'' with hrc
      · rw [hcell] at hx''
        simp only [Option.map_some', Option.some.injEq] at hx''
        rw [← hx'', (flagWrite_fields cell).2.1, hrev] at h1
        cases h1
      · exact hinv.exclusive r' c' x' hx'' ⟨h1, h2⟩
    · show (if (!cell.isFlagged) = true then s.flags + 1 else s.flags - 1)
        = countCells (fun x => x.isFlagged) (modifyCell s.grid r c flagWrite)
      have hcnt := countCells_modifyCell (fun x => x.isFlagged) flagWrite hcell
      have hfl := hinv.flagCount
      simp only [(flagWrite_fields cell).2.2.2] at hcnt
      cases hcf : cell.isFlagged <;> simp [hcf] at hcnt ⊢ <;> omega

theorem inv_reachable {s : Minesweeper} (h : Reachable s) : Inv s := by
  induction h with
  | start s0 d s hs => exact inv_startNewGame hs
  | left s r c picks s' _ hs ih => exact inv_handleLeftClick ih hs
  | right s r c s' _ hs ih => exact inv_handleRightClick ih hs

/-! ## The effect of a left click -/

theorem firstClickBlock_rect {s s1 : Minesweeper} {r c : Int} {picks : List (Nat × Nat)}
    (hrect : Rect s.rows s.cols s.grid) (h : firstClickBlock s r c picks = .ok s1) :
    Rect s1.rows s1.cols s1.grid ∧ s1.rows = s.rows ∧ s1.cols = s.cols ∧ s1.mines = s.mines ∧
      s1.gameOver = s.gameOver ∧ s1.firstClick = false ∧ s1.emoji = s.emoji := by
  rcases firstClickBlock_cases h with ⟨hfc, rfl⟩ | ⟨_, g1, g2, hp, hcalc, rfl⟩
  · exact ⟨hrect, rfl, rfl, rfl, rfl, hfc, rfl⟩
  · obtain ⟨_, i2, _⟩ := placeMinesLoop_ok s.mines r c picks 0 s.grid g1 (Nat.zero_le _) hp
    obtain ⟨g2', hc1, hr2, _⟩ := calculateNumbers_ok (i2 _ _ hrect)
    rw [hcalc] at hc1
    cases hc1
    exact ⟨hr2, rfl, rfl, rfl, rfl, rfl, rfl⟩

/-- The reveal branch of a left click: the flood fill returns and `checkWin` decides. -/
theorem revealOrLose_safe {s : Minesweeper} {r c : Int} {cell : Cell}
    (hrect : Rect s.rows s.cols s.grid) (h0 : getCell s.grid r c = some cell)
    (hm : cell.isMine = false) :
    ∃ g', revealCell s.rows s.cols (s.rows * s.cols + 1) s.grid r c = .ok g' ∧
      RevealPost s.rows s.cols s.grid r c g' ∧
      revealOrLose s r c = .ok
        (if ((countCells (fun x => x.isRevealed) g' : Nat) : Int)
            = (s.rows : Int) * s.cols - s.mines
         then { stopTimer { s with grid := g', gameOver := true } with emoji := .party }
         else { s with grid := g' }) := by
  obtain ⟨g', hg'⟩ := revealCell_returns hrect r c
  have hpost := revealCell_post s.rows s.cols _ s.grid r c g' hrect hg'
  refine ⟨g', hg', hpost, ?_⟩
  unfold revealOrLose
  simp only [cellAt_of_getCell h0, hm, hg']
  have := checkWin_eq { s with grid := g' } hpost.1
  simp only [Bool.false_eq_true, if_false]
  rw [this]

/-- The losing branch of a left click. -/
theorem revealOrLose_mine {s : Minesweeper} {r c : Int} {cell : Cell}
    (hrect : Rect s.rows s.cols s.grid) (h0 : getCell s.grid r c = some cell)
    (hm : cell.isMine = true) :
    ∃ g', Rect s.rows s.cols g' ∧
      (∀ r' c', getCell g' r' c' = (getCell s.grid r' c').map (fun x =>
        if x.isMine then mineWrite r c r' c' x else x)) ∧
      revealOrLose s r c = .ok
        { stopTimer { s with gameOver := true } with
          emoji := .dizzy, grid := g', gameOverTimeout := true } := by
  obtain ⟨g', _, h2, h3, h4⟩ := triggerGameOver_lose hrect r c
  refine ⟨g', h2, h3, ?_⟩
  unfold revealOrLose
  simp only [cellAt_of_getCell h0, hm, if_true]
  exact h4

/-- Once the mines are placed, a left click leaves alone every field that neither
`revealCell` nor `revealAllMines` writes. -/
theorem handleLeftClick_frame {s s' : Minesweeper} {r c : Int} {picks : List (Nat × Nat)}
    (hrect : Rect s.rows s.cols s.grid) (hfc : s.firstClick = false)
    (h : handleLeftClick s r c picks = .ok s') {β : Type} (proj : Cell → β)
    (hpr : ∀ x, proj (revealWrite x) = proj x)
    (hpm : ∀ a b r' c' x, proj (mineWrite a b r' c' x) = proj x) :
    FieldsEq proj s.grid s'.grid ∧ s'.firstClick = false := by
  rcases handleLeftClick_cases h with rfl | ⟨_, _, _, _, _, s1, h1, h2⟩
  · exact ⟨fieldsEq_refl _ _, hfc⟩
  · rcases firstClickBlock_cases h1 with ⟨_, rfl⟩ | ⟨hfc', _⟩
    · obtain ⟨x1, hx1, _⟩ := revealOrLose_cases h2
      cases hm : x1.isMine with
      | true =>
        obtain ⟨g', _, hpt, hres⟩ := revealOrLose_mine hrect hx1 hm
        rw [hres] at h2
        cases h2
        refine ⟨?_, hfc⟩
        exact fieldsEq_of_map (fun r' c' x => if x.isMine then mineWrite r c r' c' x else x)
          (by intro r' c' x; simp only; split_ifs <;> simp [hpm]) hpt
      | false =>
        obtain ⟨g', _, hpost, hres⟩ := revealOrLose_safe hrect hx1 hm
        rw [hres] at h2
        have hs := Except.ok.inj h2
        have hgrid : s'.grid = g' := by rw [← hs]; split_ifs <;> rfl
        have hfc2 : s'.firstClick = false := by rw [← hs]; split_ifs <;> exact hfc
        rw [hgrid]
        exact ⟨fieldsEq_of_revealExt hpr hpost.2.1, hfc2⟩
    · rw [hfc] at hfc'
      cases hfc'

/-! ## The cascade and the closure of the clicked cell -/

theorem spread_open {g : Grid} {a b r' c' : Int} (h : Spread g a b r' c') :
    ∃ x, getCell g a b = some x ∧ x.isRevealed = false ∧ x.isFlagged = false := by
  induction h with
  | here r c x hx hr hf => exact ⟨x, hx, hr, hf⟩
  | step r c x ij r' c' hx hr hf _ _ _ _ => exact ⟨x, hx, hr, hf⟩

theorem spread_end_open {g : Grid} {a b r' c' : Int} (h : Spread g a b r' c') :
    ∃ x, getCell g r' c' = some x ∧ x.isRevealed = false ∧ x.isFlagged = false := by
  induction h with
  | here r c x hx hr hf => exact ⟨x, hx, hr, hf⟩
  | step r c x ij r' c' _ _ _ _ _ _ ih => exact ih

/-- Every cell that the cascade reaches is revealed at the end of the flood fill. -/
theorem spread_revealed {g g' : Grid} (hext : RevealExt g g')
    (hclosed : ∀ r' c' x, NewlyRevealed g g' r' c' → getCell g r' c' = some x →
      x.neighborMines = 0 → ClosedAt g' r' c')
    {a b r' c' : Int} (hs : Spread g a b r' c') (hn : NewlyRevealed g g' a b) :
    revealedAt g' r' c' = true := by
  induction hs with
  | here r c x hx hr hf => exact hn.1
  | step r c x ij r' c' hx hr hf hz hij hs ih =>
    apply ih
    have hb := hclosed r c x hn hx hz ij hij
    obtain ⟨y, hy, hyr, hyf⟩ := spread_open hs
    refine ⟨?_, by unfold revealedAt; rw [hy]; exact hyr⟩
    unfold blockedAt at hb
    unfold revealedAt
    rcases hext (r + ij.1) (c + ij.2) with e | ⟨z, _, _, _, hz''⟩
    · rw [e, hy] at hb
      simp [hyr, hyf] at hb
    · rw [hz'']
      exact revealWrite_isRevealed z

theorem spread_snoc {g : Grid} {r c a b : Int} (hs : Spread g r c a b)
    (hz : ∀ x, getCell g a b = some x → x.neighborMines = 0) {ij : Int × Int}
    (hij : ij ∈ offsets) {y : Cell} (hy : getCell g (a + ij.1) (b + ij.2) = some y)
    (hyr : y.isRevealed = false) (hyf : y.isFlagged = false) :
    Spread g r c (a + ij.1) (b + ij.2) := by
  induction hs with
  | here r c x hx hr hf =>
    exact Spread.step r c x ij _ _ hx hr hf (hz x hx) hij (Spread.here _ _ y hy hyr hyf)
  | step r c x ij' r' c' hx hr hf hz' hij' _ ih =>
    exact Spread.step r c x ij' _ _ hx hr hf hz' hij' (ih hz hy)

theorem offsets_cases {ij : Int × Int} (h : ij ∈ offsets) :
    ij = (0, 0) ∨ ij ∈ neighborOffsets := by
  simp only [offsets, neighborOffsets, List.mem_cons, List.mem_singleton, List.mem_nil_iff,
    or_false] at h ⊢
  tauto

theorem neighborOffsets_sub_offsets {ij : Int × Int} (h : ij ∈ neighborOffsets) :
    ij ∈ offsets := by
  simp only [offsets, neighborOffsets, List.mem_cons, List.mem_singleton, List.mem_nil_iff,
    or_false] at h ⊢
  tauto

theorem inComponent_zero {g : Grid} {r0 c0 r c : Int} (h : InComponent g r0 c0 r c) :
    zeroAt g r c = true := by
  cases h with
  | base hz => exact hz
  | step r c ij _ _ hz => exact hz

theorem zeroAt_cell {g : Grid} {r c : Int} (h : zeroAt g r c = true) :
    ∃ x, getCell g r c = some x ∧ x.isMine = false ∧ x.neighborMines = 0 := by
  unfold zeroAt at h
  cases hg : getCell g r c with
  | none => rw [hg] at h; cases h
  | some x =>
    rw [hg] at h
    simp at h
    exact ⟨x, rfl, h.1, h.2⟩

/-- Around a zero-count cell of a correctly numbered grid there is no mine. -/
theorem no_mine_around_zero {g : Grid} (hok : NumbersOk g) {r c : Int}
    (hz : zeroAt g r c = true) {ij : Int × Int} (hij : ij ∈ neighborOffsets) :
    minedAt g (r + ij.1) (c + ij.2) = false := by
  obtain ⟨x, hx, hm, hn⟩ := zeroAt_cell hz
  have h0 : mooreCount g r c = 0 := by rw [← hok r c x hx hm]; exact hn
  unfold mooreCount at h0
  rw [List.countP_eq_zero] at h0
  simpa using h0 ij hij

/-- The cascade stays inside the closure of the clicked cell. -/
theorem spread_in_closure {g : Grid} (hok : NumbersOk g) {r0 c0 a b r' c' : Int}
    (hs : Spread g a b r' c')
    (hnb : ∃ r1 c1 ij, InComponent g r0 c0 r1 c1 ∧ ij ∈ offsets ∧ a = r1 + ij.1 ∧
      b = c1 + ij.2) :
    InClosure g r0 c0 r' c' := by
  induction hs with
  | here r c x hx hr hf =>
    obtain ⟨r1, c1, ij, hcomp, hij, rfl, rfl⟩ := hnb
    rcases offsets_cases hij with rfl | hn
    · left
      simpa using hcomp
    · right
      exact ⟨r1, c1, ij, hcomp, hn, rfl, rfl, by rw [hx]; rfl⟩
  | step r c x ij' r' c' hx hr hf hz hij' _ ih =>
    obtain ⟨r1, c1, ij, hcomp, hij, rfl, rfl⟩ := hnb
    have hcomp' : InComponent g r0 c0 (r1 + ij.1) (c1 + ij.2) := by
      rcases offsets_cases hij with rfl | hn
      · simpa using hcomp
      · apply InComponent.step r1 c1 ij hcomp hn
        have hm := no_mine_around_zero hok (inComponent_zero hcomp) hn
        unfold minedAt at hm
        unfold zeroAt
        rw [hx] at hm ⊢
        have hm' : x.isMine = false := hm
        simp [hm', hz]
    exact ih ⟨_, _, ij', hcomp', hij', rfl, rfl⟩

/-- When no cell of the component is flagged or revealed, the cascade reaches all of it. -/
theorem component_spread {g : Grid} {r0 c0 : Int}
    (hflag : ∀ r c, InComponent g r0 c0 r c → flaggedAt g r c = false)
    (hrev : ∀ r c, InComponent g r0 c0 r c → revealedAt g r c = false) {r c : Int}
    (h : InComponent g r0 c0 r c) : Spread g r0 c0 r c := by
  have hopen : ∀ r c, InComponent g r0 c0 r c →
      ∃ x, getCell g r c = some x ∧ x.isRevealed = false ∧ x.isFlagged = false ∧
        x.neighborMines = 0 := by
    intro r c hc
    obtain ⟨x, hx, _, hn⟩ := zeroAt_cell (inComponent_zero hc)
    have h1 := hflag r c hc
    have h2 := hrev r c hc
    unfold flaggedAt at h1
    unfold revealedAt at h2
    rw [hx] at h1 h2
    exact ⟨x, hx, h2, h1, hn⟩
  induction h with
  | base hz =>
    obtain ⟨x, hx, hr, hf, _⟩ := hopen r0 c0 (InComponent.base hz)
    exact Spread.here _ _ x hx hr hf
  | step r c ij hc hij hz ih =>
    obtain ⟨x, hx, _, _, hn⟩ := hopen r c hc
    obtain ⟨y, hy, hyr, hyf, _⟩ := hopen _ _ (InComponent.step r c ij hc hij hz)
    exact spread_snoc ih (fun x' hx' => by rw [hx] at hx'; cases hx'; exact hn)
      (neighborOffsets_sub_offsets hij) hy hyr hyf

/-! ## A board without mines is revealed by its first click -/

theorem placeMines_zero (grid : Grid) (r c : Int) (picks : List (Nat × Nat)) :
    placeMines 0 grid r c picks = .ok grid := by
  unfold placeMines
  cases picks with
  | nil => simp [placeMinesLoop]
  | cons p picks =>
    obtain ⟨pr, pc⟩ := p
    simp [placeMinesLoop]

theorem countP_add_not (p : Cell → Bool) :
    ∀ row : List Cell, List.countP p row + List.countP (fun x => !p x) row = row.length
  | [] => rfl
  | x :: row => by
    have := countP_add_not p row
    simp only [List.countP_cons, List.length_cons]
    cases p x <;> simp <;> omega

theorem countCells_add_not (p : Cell → Bool) (cols : Nat) :
    ∀ (g : Grid) (rows : Nat), Rect rows cols g →
      countCells p g + countCells (fun x => !p x) g = rows * cols
  | [], rows, h => by
    have : rows = 0 := by rw [← h.1]; rfl
    simp [countCells, this]
  | row :: g, rows, h => by
    have h1 : row.length = cols := h.2 row (List.mem_cons_self _ _)
    have h2 : Rect g.length cols g := ⟨rfl, fun x hx => h.2 x (List.mem_cons_of_mem _ hx)⟩
    have h3 := countCells_add_not p cols g g.length h2
    have h4 : List.countP p row + List.countP (fun x => !p x) row = cols := by
      rw [← h1]
      exact countP_add_not p row
    have h5 : rows = g.length + 1 := by rw [← h.1]; rfl
    simp only [countCells, List.map_cons, List.sum_cons] at h3 ⊢
    rw [h5, Nat.add_mul]
    omega

theorem countCells_all (p : Cell → Bool) {rows cols : Nat} {g : Grid} (hrect : Rect rows cols g)
    (h : ∀ r c x, getCell g r c = some x → p x = true) : countCells p g = rows * cols := by
  have h0 : countCells (fun x => !p x) g = 0 := by
    rw [countCells_eq_zero_iff]
    intro r c x hx
    simp [h r c x hx]
  have := countCells_add_not p cols g rows hrect
  omega

theorem step_toward (r r' : Int) (n rows : Nat) (h1 : r - (n + 1 : Nat) ≤ r')
    (h2 : r' ≤ r + (n + 1 : Nat)) (hr : 0 ≤ r ∧ r < rows) (hr' : 0 ≤ r' ∧ r' < rows) :
    ∃ i : Int, (i = -1 ∨ i = 0 ∨ i = 1) ∧ r - n ≤ r' - i ∧ r' - i ≤ r + n ∧
      0 ≤ r' - i ∧ r' - i < rows := by
  push_cast at h1 h2
  rcases lt_trichotomy r' r with h | h | h
  · exact ⟨-1, Or.inl rfl, by omega, by omega, by omega, by omega⟩
  · exact ⟨0, Or.inr (Or.inl rfl), by omega, by omega, by omega, by omega⟩
  · exact ⟨1, Or.inr (Or.inr rfl), by omega, by omega, by omega, by omega⟩

theorem mem_offsets_of_small {i j : Int} (hi : i = -1 ∨ i = 0 ∨ i = 1)
    (hj : j = -1 ∨ j = 0 ∨ j = 1) : (i, j) ∈ offsets := by
  rcases hi with rfl | rfl | rfl <;> rcases hj with rfl | rfl | rfl <;> simp [offsets]

/-- On a grid where every cell is unrevealed, unflagged and has `neighborMines = 0`, a
call of `revealCell` on a cell of the grid that returns has revealed the whole grid. -/
theorem flood_everything {rows cols : Nat} {g g' : Grid} {r c : Int}
    (hrect : Rect rows cols g) (hpost : RevealPost rows cols g r c g')
    (hall : ∀ r' c' x, getCell g r' c' = some x →
      x.isRevealed = false ∧ x.isFlagged = false ∧ x.neighborMines = 0)
    (hin : 0 ≤ r ∧ r < rows ∧ 0 ≤ c ∧ c < cols) :
    ∀ r' c' : Int, 0 ≤ r' ∧ r' < rows ∧ 0 ≤ c' ∧ c' < cols →
      revealedAt g' r' c' = true := by
  obtain ⟨hrect', hext, _, hblk, _, hclosed⟩ := hpost
  have hrev_of_blocked : ∀ a b : Int, 0 ≤ a ∧ a < rows ∧ 0 ≤ b ∧ b < cols →
      blockedAt g' a b = true → revealedAt g' a b = true := by
    intro a b hab hb
    obtain ⟨x, hx⟩ := (getCell_isSome_iff hrect a b).2 hab
    obtain ⟨hxr, hxf, _⟩ := hall a b x hx
    unfold blockedAt at hb
    unfold revealedAt
    rcases hext a b with e | ⟨y, _, _, _, hy'⟩
    · rw [e, hx] at hb
      simp [hxr, hxf] at hb
    · rw [hy']
      exact revealWrite_isRevealed y
  have hstep : ∀ (a b : Int) (ij : Int × Int), revealedAt g' a b = true → ij ∈ offsets →
      0 ≤ a + ij.1 ∧ a + ij.1 < rows ∧ 0 ≤ b + ij.2 ∧ b + ij.2 < cols →
      revealedAt g' (a + ij.1) (b + ij.2) = true := by
    intro a b ij hab hij hin'
    have hgrid : ∃ x, getCell g a b = some x := by
      cases hg : getCell g a b with
      | some x => exact ⟨x, rfl⟩
      | none =>
        exfalso
        unfold revealedAt at hab
        rcases hext a b with e | ⟨y, hy, _⟩
        · rw [e, hg] at hab
          cases hab
        · rw [hg] at hy
          cases hy
    obtain ⟨x, hx⟩ := hgrid
    obtain ⟨hxr, _, hxz⟩ := hall a b x hx
    have hnew : NewlyRevealed g g' a b := ⟨hab, by unfold revealedAt; rw [hx]; exact hxr⟩
    exact hrev_of_blocked _ _ hin' (hclosed a b x hnew hx hxz ij hij)
  have key : ∀ (n : Nat) (r' c' : Int), 0 ≤ r' ∧ r' < rows ∧ 0 ≤ c' ∧ c' < cols →
      r - n ≤ r' → r' ≤ r + n → c - n ≤ c' → c' ≤ c + n → revealedAt g' r' c' = true := by
    intro n
    induction n with
    | zero =>
      intro r' c' _ h1 h2 h3 h4
      have e1 : r' = r := by push_cast at h1 h2; omega
      have e2 : c' = c := by push_cast at h3 h4; omega
      rw [e1, e2]
      exact hrev_of_blocked r c hin hblk
    | succ n ih =>
      intro r' c' hin' h1 h2 h3 h4
      obtain ⟨i, hi, i1, i2, i3, i4⟩ := step_toward r r' n rows h1 h2 ⟨hin.1, hin.2.1⟩
        ⟨hin'.1, hin'.2.1⟩
      obtain ⟨j, hj, j1, j2, j3, j4⟩ := step_toward c c' n cols h3 h4 ⟨hin.2.2.1, hin.2.2.2⟩
        ⟨hin'.2.2.1, hin'.2.2.2⟩
      have hprev := ih (r' - i) (c' - j) ⟨i3, i4, j3, j4⟩ i1 i2 j1 j2
      have := hstep (r' - i) (c' - j) (i, j) hprev (mem_offsets_of_small hi hj)
        (by simp only [sub_add_cancel]; exact hin')
      simpa using this
  intro r' c' hin'
  exact key (rows + cols) r' c' hin' (by push_cast; omega) (by push_cast; omega)
    (by push_cast; omega) (by push_cast; omega)

/-! ## The example games are reachable -/

theorem easyGame_reachable : Reachable easyGame :=
  Reachable.start constructed "easy" easyGame (by decide)

set_option maxRecDepth 100000 in
theorem cornerOpened_reachable : Reachable cornerOpened :=
  Reachable.left easyGame 0 0 cornerPicks cornerOpened easyGame_reachable (by decide)

set_option maxRecDepth 100000 in
theorem cornerFlagged_reachable : Reachable cornerFlagged :=
  Reachable.right cornerOpened 4 4 cornerFlagged cornerOpened_reachable (by decide)

set_option maxRecDepth 100000 in
theorem cornerOpened_revealReachable : RevealReachable cornerOpened :=
  RevealReachable.left easyGame 0 0 cornerPicks cornerOpened
    (RevealReachable.start constructed "easy" easyGame (by decide)) (by decide)

/-! ## Counting by position, and the stall of `placeMines` -/

theorem countP_range_take (p : Cell → Bool) (row : List Cell) :
    ∀ m, m ≤ row.length →
      (List.range m).countP (fun c => match row[c]? with
        | some x => p x
        | none => false) = List.countP p (row.take m)
  | 0, _ => by simp
  | m + 1, hm => by
    have hlt : m < row.length := hm
    rw [List.range_succ, List.countP_append, countP_range_take p row m (Nat.le_of_lt hlt),
      List.take_succ, List.countP_append]
    simp [List.countP_cons, List.getElem?_eq_getElem hlt]

theorem countCells_append_singleton (p : Cell → Bool) (g : Grid) (row : List Cell) :
    countCells p (g ++ [row]) = countCells p g + List.countP p row := by
  simp [countCells]

theorem countCells_eq_posCount (p : Cell → Bool) {rows cols : Nat} {g : Grid}
    (hrect : Rect rows cols g) :
    countCells p g = posCount rows cols (fun r c => match getCell g r c with
      | some x => p x
      | none => false) := by
  have key : ∀ n, n ≤ g.length →
      ((List.range n).map (fun r : Nat => (List.range cols).countP (fun c : Nat =>
        match getCell g r c with
        | some x => p x
        | none => false))).sum = countCells p (g.take n) := by
    intro n
    induction n with
    | zero => intro _; simp [countCells]
    | succ n ih =>
      intro hn
      have hlt : n < g.length := hn
      have hrow : (g[n]).length = cols := hrect.2 _ (List.getElem_mem _)
      have hinner : (List.range cols).countP (fun c : Nat =>
          match getCell g n c with
          | some x => p x
          | none => false) = List.countP p (g[n]) := by
        have h1 := countP_range_take p (g[n]) cols (le_of_eq hrow.symm)
        rw [← hrow, List.take_length] at h1
        rw [← h1, ← hrow]
        congr 1
        funext c
        rw [getCell_natCast, List.getElem?_eq_getElem hlt]
        rfl
      rw [List.range_succ, List.map_append, List.sum_append, ih (Nat.le_of_lt hlt),
        List.take_succ, List.getElem?_eq_getElem hlt]
      simp only [List.map_cons, List.map_nil, List.sum_cons, List.sum_nil, add_zero, hinner,
        Option.toList_some, countCells_append_singleton]
  have := key g.length (le_refl _)
  rw [List.take_length, hrect.1] at this
  unfold posCount
  beta_reduce
  exact this.symm

theorem countP_le_add {α : Type} (f g h : α → Bool) :
    ∀ l : List α, (∀ x ∈ l, f x = true → g x = true ∨ h x = true) →
      l.countP f ≤ l.countP g + l.countP h
  | [], _ => by simp
  | x :: l, hl => by
    have ih := countP_le_add f g h l (fun y hy => hl y (List.mem_cons_of_mem _ hy))
    have hx := hl x (List.mem_cons_self _ _)
    simp only [List.countP_cons]
    cases hf : f x with
    | false => simp; omega
    | true =>
      rcases hx hf with hg | hh
      · simp [hg]; omega
      · simp [hh]; omega

theorem sum_map_le_add {α : Type} (a b d : α → Nat) :
    ∀ l : List α, (∀ x ∈ l, a x ≤ b x + d x) →
      (l.map a).sum ≤ (l.map b).sum + (l.map d).sum
  | [], _ => by simp
  | x :: l, hl => by
    have ih := sum_map_le_add a b d l (fun y hy => hl y (List.mem_cons_of_mem _ hy))
    have hx := hl x (List.mem_cons_self _ _)
    simp only [List.map_cons, List.sum_cons]
    omega

theorem posCount_le_add (rows cols : Nat) (f g h : Int → Int → Bool)
    (hfgh : ∀ r c, f r c = true → g r c = true ∨ h r c = true) :
    posCount rows cols f ≤ posCount rows cols g + posCount rows cols h := by
  unfold posCount
  apply sum_map_le_add
  intro r _
  apply countP_le_add
  intro c _ hf
  exact hfgh r c hf

/-- A run of `placeMines` that finishes has found `mines` cells outside the safe zone. -/
theorem placeMines_needs_room {rows cols mines : Nat} {grid grid' : Grid}
    (hrect : Rect rows cols grid) {r c : Int} {picks : List (Nat × Nat)}
    (h : placeMines mines grid r c picks = .ok grid') :
    mines ≤ outsideSafeZone rows cols r c := by
  obtain ⟨i1, i2, i3⟩ := placeMinesLoop_ok mines r c picks 0 grid grid' (Nat.zero_le _) h
  have hrect' := i2 rows cols hrect
  rw [countCells_eq_posCount _ hrect, countCells_eq_posCount _ hrect'] at i1
  have hle := posCount_le_add rows cols
    (fun r' c' => match getCell grid' r' c' with
      | some x => x.isMine
      | none => false)
    (fun r' c' => match getCell grid r' c' with
      | some x => x.isMine
      | none => false)
    (fun r' c' => !decide (|r' - r| ≤ 1 ∧ |c' - c| ≤ 1))
    (by
      intro r' c' hf
      obtain ⟨b, hb1, hb2⟩ := i3 r' c'
      simp only at hf
      rw [hb2] at hf
      cases b with
      | true =>
        right
        have := hb1 rfl
        simp [this]
      | false =>
        left
        cases hg : getCell grid r' c' with
        | none => rw [hg] at hf; simp at hf
        | some x =>
          rw [hg] at hf
          simp only [hg]
          simpa using hf)
  unfold outsideSafeZone
  omega

/-- With picks inside the board, the loop of `placeMines` raises no `TypeError`: it
finishes or it is still running when the picks are used up. -/
theorem placeMinesLoop_error {rows cols : Nat} (mines : Nat) (safeR safeC : Int) :
    ∀ (picks : List (Nat × Nat)) (k : Nat) (g : Grid) (e : Err), Rect rows cols g →
      (∀ p ∈ picks, p.1 < rows ∧ p.2 < cols) →
      placeMinesLoop mines safeR safeC picks k g = .error e → e = .outOfPicks
  | [], k, g, e, _, _, h => by
    unfold placeMinesLoop at h
    split_ifs at h
    cases h
    rfl
  | (pr, pc) :: picks, k, g, e, hrect, hp, h => by
    have hp' : ∀ p ∈ picks, p.1 < rows ∧ p.2 < cols :=
      fun p hmem => hp p (List.mem_cons_of_mem _ hmem)
    have hin := hp (pr, pc) (List.mem_cons_self _ _)
    unfold placeMinesLoop at h
    split_ifs at h with h1 h2
    · exact placeMinesLoop_error mines safeR safeC picks k g e hrect hp' h
    · obtain ⟨cell, hcell⟩ := (getCell_isSome_iff hrect (pr : Int) (pc : Int)).2
        (by have := hin.1; have := hin.2; omega)
      simp only [cellAt_of_getCell hcell] at h
      split_ifs at h
      · exact placeMinesLoop_error mines safeR safeC picks (k + 1) _ e
          (rect_modifyCell hrect _ _ _) hp' h
      · exact placeMinesLoop_error mines safeR safeC picks k g e hrect hp' h

/-! ## No mine is ever revealed, and what a win means -/

theorem mem_getCell {g : Grid} {row : List Cell} {x : Cell} (hrow : row ∈ g) (hx : x ∈ row) :
    ∃ r c, getCell g r c = some x := by
  obtain ⟨i, hi⟩ := List.mem_iff_getElem?.1 hrow
  obtain ⟨j, hj⟩ := List.mem_iff_getElem?.1 hx
  exact ⟨(i : Int), (j : Int), by rw [getCell_natCast]; simp [hi, hj]⟩

theorem countP_add_diff (p q : Cell → Bool) :
    ∀ row : List Cell, (∀ x ∈ row, p x = true → q x = true) →
      List.countP p row + List.countP (fun x => q x && !p x) row = List.countP q row
  | [], _ => rfl
  | x :: row, h => by
    have ih := countP_add_diff p q row (fun y hy => h y (List.mem_cons_of_mem _ hy))
    have hx := h x (List.mem_cons_self _ _)
    simp only [List.countP_cons]
    cases hp : p x with
    | false => cases hq : q x <;> simp <;> omega
    | true => simp [hx hp]; omega

theorem countCells_add_diff (p q : Cell → Bool) :
    ∀ g : Grid, (∀ row ∈ g, ∀ x ∈ row, p x = true → q x = true) →
      countCells p g + countCells (fun x => q x && !p x) g = countCells q g
  | [], _ => rfl
  | row :: g, h => by
    have ih := countCells_add_diff p q g (fun y hy => h y (List.mem_cons_of_mem _ hy))
    have hrow := countP_add_diff p q row (h row (List.mem_cons_self _ _))
    simp only [countCells, List.map_cons, List.sum_cons] at ih ⊢
    omega

/-- Two sets of cells of a grid, one inside the other and of the same size, are equal. -/
theorem countCells_subset_eq (p q : Cell → Bool) {g : Grid}
    (hsub : ∀ r c x, getCell g r c = some x → p x = true → q x = true)
    (hcount : countCells p g = countCells q g) :
    ∀ r c x, getCell g r c = some x → q x = true → p x = true := by
  have hadd := countCells_add_diff p q g (by
    intro row hrow x hx hp
    obtain ⟨r, c, hrc⟩ := mem_getCell hrow hx
    exact hsub r c x hrc hp)
  have hzero : countCells (fun x => q x && !p x) g = 0 := by omega
  rw [countCells_eq_zero_iff] at hzero
  intro r c x hx hq
  have := hzero r c x hx
  simp [hq] at this
  exact this

/-- In a correctly numbered grid, a cascade started on a cell without a mine reaches no
mine. -/
theorem spread_no_mine {g : Grid} (hok : NumbersOk g) {a b r' c' : Int}
    (hs : Spread g a b r' c') (hm : minedAt g a b = false) : minedAt g r' c' = false := by
  induction hs with
  | here r c x hx hr hf => exact hm
  | step r c x ij r' c' hx hr hf hz hij _ ih =>
    apply ih
    rcases offsets_cases hij with rfl | hn
    · simpa using hm
    · apply no_mine_around_zero hok _ hn
      unfold minedAt at hm
      unfold zeroAt
      rw [hx] at hm ⊢
      have hm' : x.isMine = false := hm
      simp [hm', hz]

/-- In every reachable state no mined cell is revealed, and a won game has its mines
placed and `rows * cols - mines` revealed cells. -/
theorem win_reachable {s : Minesweeper} (h : Reachable s) :
    (∀ r c x, getCell s.grid r c = some x → x.isRevealed = true → x.isMine = false) ∧
    (Won s → s.firstClick = false ∧
      ((countCells (fun x => x.isRevealed) s.grid : Nat) : Int)
        = (s.rows : Int) * s.cols - s.mines) := by
  induction h with
  | start s0 d s hs =>
    obtain ⟨_, _, _, _, _, hg, hgo, _⟩ := startNewGame_eq hs
    constructor
    · intro r c x hx hrev
      rw [hg] at hx
      rw [getCell_replicate hx] at hrev
      cases hrev
    · intro hw
      rw [hw.1] at hgo
      cases hgo
  | right s r c s' hreach hs ih =>
    rcases handleRightClick_cases hs with rfl | ⟨hgo, cell, _, _, rfl⟩
    · exact ih
    · constructor
      · intro r' c' x' hx' hrev
        have h1 : FieldsEq (fun x => x.isMine) s.grid (modifyCell s.grid r c flagWrite) :=
          fieldsEq_modifyCell _ _ _ (fun x => (flagWrite_fields x).1)
        have h2 : FieldsEq (fun x => x.isRevealed) s.grid (modifyCell s.grid r c flagWrite) :=
          fieldsEq_modifyCell _ _ _ (fun x => (flagWrite_fields x).2.1)
        obtain ⟨x, hx, e1⟩ := fieldsEq_cell h1 hx'
        obtain ⟨y, hy, e2⟩ := fieldsEq_cell h2 hx'
        rw [hx] at hy
        cases hy
        have e1' : x'.isMine = x.isMine := e1
        have e2' : x'.isRevealed = x.isRevealed := e2
        rw [e1']
        exact ih.1 r' c' x hx (e2' ▸ hrev)
      · intro hw
        have : s.gameOver = true := hw.1
        rw [hgo] at this
        cases this
  | left s r c picks s' hreach hs ih =>
    have hinv := inv_reachable hreach
    rcases handleLeftClick_cases hs with rfl | ⟨hgo, _, _, _, _, s1, h1, h2⟩
    · exact ih
    · obtain ⟨i1, i2, i3, _, _, _, _, _, i5, _, _⟩ := inv_firstClickBlock hinv h1
      have hs1 : ∀ r' c' x, getCell s1.grid r' c' = some x → x.isRevealed = true →
          x.isMine = false := by
        rcases firstClickBlock_cases h1 with ⟨_, rfl⟩ | ⟨hfc, _⟩
        · exact ih.1
        · intro r' c' x' hx' hrev
          obtain ⟨x, hx, e⟩ := fieldsEq_cell i5 hx'
          have e' : x'.isRevealed = x.isRevealed := e
          have := (countCells_eq_zero_iff _ _).1 (hinv.fresh hfc).2.2 r' c' x hx
          rw [e', this] at hrev
          cases hrev
      obtain ⟨x1, hx1, _⟩ := revealOrLose_cases h2
      cases hm : x1.isMine with
      | true =>
        obtain ⟨g', _, hpt, hres⟩ := revealOrLose_mine i1.rect hx1 hm
        rw [hres] at h2
        cases h2
        constructor
        · intro r' c' x' hx' hrev
          have hx'' : getCell g' r' c' = some x' := hx'
          rw [hpt] at hx''
          cases hg : getCell s1.grid r' c' with
          | none => rw [hg] at hx''; cases hx''
          | some x =>
            rw [hg] at hx''
            simp only [Option.map_some', Option.some.injEq] at hx''
            rw [← hx''] at hrev ⊢
            split_ifs at hrev ⊢ <;> exact hs1 r' c' x hg hrev
        · intro hw
          cases hw.2
      | false =>
        obtain ⟨g', _, hpost, hres⟩ := revealOrLose_safe i1.rect hx1 hm
        rw [hres] at h2
        have hs' := Except.ok.inj h2
        have hgrid : s'.grid = g' := by rw [← hs']; split_ifs <;> rfl
        obtain ⟨_, hext, _, _, hup, _⟩ := hpost
        constructor
        · intro r' c' x' hx' hrev
          rw [hgrid] at hx'
          obtain ⟨x, hx, e⟩ := fieldsEq_cell (fieldsEq_of_revealExt revealWrite_isMine hext) hx'
          have e' : x'.isMine = x.isMine := e
          rw [e']
          cases hxr : x.isRevealed with
          | true => exact hs1 r' c' x hx hxr
          | false =>
            have hnew : NewlyRevealed s1.grid g' r' c' :=
              ⟨by unfold revealedAt; rw [hx']; exact hrev,
               by unfold revealedAt; rw [hx]; exact hxr⟩
            have hsp := hup r' c' hnew
            have hnm := spread_no_mine (i1.placed i2).2 hsp
              (by unfold minedAt; rw [hx1]; exact hm)
            unfold minedAt at hnm
            rw [hx] at hnm
            exact hnm
        · intro hw
          by_cases hcount : ((countCells (fun x => x.isRevealed) g' : Nat) : Int)
              = (s1.rows : Int) * s1.cols - s1.mines
          · rw [if_pos hcount] at hs'
            rw [hgrid, ← hs']
            exact ⟨i2, hcount⟩
          · rw [if_neg hcount] at hs'
            have : s'.gameOver = true := hw.1
            rw [← hs'] at this
            have : s1.gameOver = true := this
            rw [i3, hgo] at this
            cases this

/-! ## The log of `revealCell`: every cell is written at most once -/

theorem logPost_refl (g : Grid) : LogPost g g [] :=
  ⟨List.nodup_nil,
    fun _ => ⟨fun h => absurd h (List.not_mem_nil _),
      fun h => absurd h (newlyRevealed_irrefl g _ _)⟩,
    by simp⟩

theorem logPost_trans {g g1 g' : Grid} {w1 w2 : List (Int × Int)} (h1 : RevealExt g g1)
    (h2 : RevealExt g1 g') (p1 : LogPost g g1 w1) (p2 : LogPost g1 g' w2) :
    LogPost g g' (w1 ++ w2) := by
  obtain ⟨n1, m1, c1⟩ := p1
  obtain ⟨n2, m2, c2⟩ := p2
  refine ⟨?_, ?_, ?_⟩
  · rw [List.nodup_append]
    refine ⟨n1, n2, ?_⟩
    intro p hp1 hp2
    have a := ((m1 p).1 hp1).1
    have b := ((m2 p).1 hp2).2
    rw [a] at b
    cases b
  · intro p
    rw [List.mem_append, m1, m2]
    constructor
    · rintro (h | h)
      · exact ⟨revealedAt_mono h2 h.1, h.2⟩
      · refine ⟨h.1, ?_⟩
        cases hg : revealedAt g p.1 p.2 with
        | false => rfl
        | true =>
          have := revealedAt_mono h1 hg
          rw [h.2] at this
          cases this
    · intro h
      exact newlyRevealed_split g1 h
  · rw [List.length_append]
    omega

theorem logPost_modifyCell {g : Grid} {r c : Int} {x : Cell} (hx : getCell g r c = some x)
    (hr : x.isRevealed = false) : LogPost g (modifyCell g r c revealWrite) [(r, c)] := by
  refine ⟨by simp, ?_, ?_⟩
  · intro p
    constructor
    · intro hp
      have : p = (r, c) := by simpa using hp
      subst this
      constructor
      · unfold revealedAt
        rw [getCell_modifyCell]
        simp [hx, revealWrite_isRevealed]
      · unfold revealedAt
        rw [hx]
        exact hr
    · intro hn
      obtain ⟨e1, e2⟩ := newlyRevealed_modifyCell hn
      have : p = (r, c) := Prod.ext e1 e2
      simp [this]
  · have hcnt := countCells_modifyCell (fun x => !x.isRevealed) revealWrite hx
    simp only [revealWrite_isRevealed, hr] at hcnt
    simp at hcnt ⊢
    omega

theorem revealLoopLog_spec (rows cols fuel : Nat)
    (ih : ∀ g log r c g', Rect rows cols g → revealCell rows cols fuel g r c = .ok g' →
      ∃ w, revealCellLog rows cols fuel (g, log) r c = .ok (g', log ++ w) ∧ LogPost g g' w)
    (r c : Int) :
    ∀ (l : List (Int × Int)) (g : Grid) (log : List (Int × Int)) (g' : Grid),
      Rect rows cols g →
      l.foldlM (fun g ij => revealCell rows cols fuel g (r + ij.1) (c + ij.2)) g = .ok g' →
      ∃ w, l.foldlM (fun st ij => revealCellLog rows cols fuel st (r + ij.1) (c + ij.2))
          (g, log) = .ok (g', log ++ w) ∧ LogPost g g' w ∧ RevealExt g g'
  | [], g, log, g', _, h => by
    cases h
    exact ⟨[], by rw [List.append_nil]; rfl, logPost_refl g, revealExt_refl g⟩
  | ij :: l, g, log, g', hrect, h => by
    rw [List.foldlM_cons] at h
    cases h1 : revealCell rows cols fuel g (r + ij.1) (c + ij.2) with
    | error e => rw [h1] at h; cases h
    | ok g1 =>
      rw [h1] at h
      obtain ⟨a1, a2, _⟩ := revealCell_post rows cols fuel g _ _ g1 hrect h1
      obtain ⟨w1, hw1, p1⟩ := ih g log _ _ g1 hrect h1
      obtain ⟨w2, hw2, p2, e2⟩ := revealLoopLog_spec rows cols fuel ih r c l g1 (log ++ w1) g'
        a1 h
      refine ⟨w1 ++ w2, ?_, logPost_trans a2 e2 p1 p2, revealExt_trans a2 e2⟩
      rw [List.foldlM_cons, hw1]
      rw [← List.append_assoc]
      exact hw2

/-- The run with a log returns the grid of the run without, and a log that names each
newly revealed cell once. -/
theorem revealCellLog_spec (rows cols : Nat) :
    ∀ (fuel : Nat) (g : Grid) (log : List (Int × Int)) (r c : Int) (g' : Grid),
      Rect rows cols g → revealCell rows cols fuel g r c = .ok g' →
      ∃ w, revealCellLog rows cols fuel (g, log) r c = .ok (g', log ++ w) ∧ LogPost g g' w
  | 0, g, log, r, c, g', _, h => by
    unfold revealCell at h
    cases h
  | fuel + 1, g, log, r, c, g', hrect, h => by
    unfold revealCell at h
    unfold revealCellLog
    split_ifs at h ⊢ with hout
    · cases h
      exact ⟨[], by simp, logPost_refl g⟩
    · cases hc : cellAt g r c with
      | error e => rw [hc] at h; cases h
      | ok cell =>
        simp only [hc] at h ⊢
        have hx := getCell_of_cellAt hc
        split_ifs at h ⊢ with hb hnum
        · cases h
          exact ⟨[], by simp, logPost_refl g⟩
        all_goals
          have hr : cell.isRevealed = false := by
            cases hh : cell.isRevealed with
            | false => rfl
            | true => simp [hh] at hb
          have hf : cell.isFlagged = false := by
            cases hh : cell.isFlagged with
            | false => rfl
            | true => simp [hh] at hb
        · cases h
          exact ⟨[(r, c)], rfl, logPost_modifyCell hx hr⟩
        · obtain ⟨w, hw, p, e⟩ := revealLoopLog_spec rows cols fuel
            (revealCellLog_spec rows cols fuel) r c offsets _ (log ++ [(r, c)]) g'
            (rect_modifyCell hrect _ _ _) h
          refine ⟨(r, c) :: w, ?_, ?_⟩
          · rw [hw]
            simp
          · exact logPost_trans (revealExt_modifyCell hx hr hf) e (logPost_modifyCell hx hr) p

theorem revealLoop_fuel_succ (rows cols fuel : Nat)
    (ih : ∀ g r c g', revealCell rows cols fuel g r c = .ok g' →
      revealCell rows cols (fuel + 1) g r c = .ok g') (r c : Int) :
    ∀ (l : List (Int × Int)) (g g' : Grid),
      l.foldlM (fun g ij => revealCell rows cols fuel g (r + ij.1) (c + ij.2)) g = .ok g' →
      l.foldlM (fun g ij => revealCell rows cols (fuel + 1) g (r + ij.1) (c + ij.2)) g
        = .ok g'
  | [], g, g', h => h
  | ij :: l, g, g', h => by
    rw [List.foldlM_cons] at h ⊢
    cases h1 : revealCell rows cols fuel g (r + ij.1) (c + ij.2) with
    | error e => rw [h1] at h; cases h
    | ok g1 =>
      rw [h1] at h
      rw [ih g _ _ g1 h1]
      exact revealLoop_fuel_succ rows cols fuel ih r c l g1 g' h

/-- A run of `revealCell` that returns within some depth returns the same grid within
any greater depth. -/
theorem revealCell_fuel_succ (rows cols : Nat) :
    ∀ (fuel : Nat) (g : Grid) (r c : Int) (g' : Grid),
      revealCell rows cols fuel g r c = .ok g' → revealCell rows cols (fuel + 1) g r c = .ok g'
  | 0, g, r, c, g', h => by
    unfold revealCell at h
    cases h
  | fuel + 1, g, r, c, g', h => by
    unfold revealCell at h ⊢
    split_ifs at h ⊢ with hout
    · exact h
    · cases hc : cellAt g r c with
      | error e => rw [hc] at h; cases h
      | ok cell =>
        simp only [hc] at h ⊢
        split_ifs at h ⊢ with hb hnum
        · exact h
        · exact h
        · exact revealLoop_fuel_succ rows cols fuel (revealCell_fuel_succ rows cols fuel) r c
            offsets _ g' h

theorem revealCell_fuel_mono (rows cols : Nat) {fuel : Nat} {g : Grid} {r c : Int} {g' : Grid}
    (h : revealCell rows cols fuel g r c = .ok g') :
    ∀ fuel', fuel ≤ fuel' → revealCell rows cols fuel' g r c = .ok g' := by
  intro fuel' hle
  induction fuel', hle using Nat.le_induction with
  | base => exact h
  | succ n _ ih => exact revealCell_fuel_succ rows cols n g r c g' ih

/-! ## Games without flags -/

theorem blockedAt_fieldsEq {g g' : Grid} (h1 : FieldsEq (fun x => x.isRevealed) g g')
    (h2 : FieldsEq (fun x => x.isFlagged) g g') (r c : Int) :
    blockedAt g' r c = blockedAt g r c := by
  unfold blockedAt
  cases hg' : getCell g' r c with
  | none =>
    have := h1 r c
    rw [hg'] at this
    cases hg : getCell g r c with
    | none => rfl
    | some x => rw [hg] at this; cases this
  | some x' =>
    obtain ⟨x, hx, e1⟩ := fieldsEq_cell h1 hg'
    obtain ⟨y, hy, e2⟩ := fieldsEq_cell h2 hg'
    rw [hx] at hy
    cases hy
    have e1' : x'.isRevealed = x.isRevealed := e1
    have e2' : x'.isFlagged = x.isFlagged := e2
    rw [hx]
    simp only [e1', e2']

theorem flaggedAt_fieldsEq {g g' : Grid} (h : FieldsEq (fun x => x.isFlagged) g g') (r c : Int) :
    flaggedAt g' r c = flaggedAt g r c := by
  unfold flaggedAt
  have := h r c
  cases hg : getCell g r c <;> cases hg' : getCell g' r c <;> simp [hg, hg'] at this ⊢
  exact this

theorem zeroCellsClosed_fieldsEq {g g' : Grid} (h1 : FieldsEq (fun x => x.isRevealed) g g')
    (h2 : FieldsEq (fun x => x.isFlagged) g g') (h3 : FieldsEq (fun x => x.neighborMines) g g')
    (hz : ZeroCellsClosed g) : ZeroCellsClosed g' := by
  intro r c x' hx' hrev hnum ij hij
  obtain ⟨x, hx, e1⟩ := fieldsEq_cell h1 hx'
  obtain ⟨y, hy, e3⟩ := fieldsEq_cell h3 hx'
  rw [hx] at hy
  cases hy
  have e1' : x'.isRevealed = x.isRevealed := e1
  have e3' : x'.neighborMines = x.neighborMines := e3
  rw [blockedAt_fieldsEq h1 h2]
  exact hz r c x hx (e1' ▸ hrev) (e3' ▸ hnum) ij hij

/-- In a game played with left clicks only no cell is flagged, and every revealed cell
with `neighborMines = 0` has all its neighbours revealed. -/
theorem revealReachable_inv {s : Minesweeper} (h : RevealReachable s) :
    Reachable s ∧ (∀ r c, flaggedAt s.grid r c = false) ∧ ZeroCellsClosed s.grid := by
  induction h with
  | start s0 d s hs =>
    obtain ⟨_, _, _, _, _, hg, _⟩ := startNewGame_eq hs
    refine ⟨Reachable.start s0 d s hs, ?_, ?_⟩
    · intro r c
      unfold flaggedAt
      cases hx : getCell s.grid r c with
      | none => rfl
      | some x =>
        rw [hg] at hx
        rw [getCell_replicate hx]
        rfl
    · intro r c x hx hrev
      rw [hg] at hx
      rw [getCell_replicate hx] at hrev
      cases hrev
  | left s r c picks s' _ hs ih =>
    obtain ⟨hreach, hnf, hzc⟩ := ih
    refine ⟨Reachable.left s r c picks s' hreach hs, ?_⟩
    have hinv := inv_reachable hreach
    rcases handleLeftClick_cases hs with rfl | ⟨_, _, _, _, _, s1, h1, h2⟩
    · exact ⟨hnf, hzc⟩
    · obtain ⟨i1, i2, _, _, _, _, _, _, i5, i6, _⟩ := inv_firstClickBlock hinv h1
      have hnf1 : ∀ r c, flaggedAt s1.grid r c = false := by
        intro r' c'
        rw [flaggedAt_fieldsEq i6]
        exact hnf r' c'
      have hzc1 : ZeroCellsClosed s1.grid := by
        rcases firstClickBlock_cases h1 with ⟨_, rfl⟩ | ⟨hfc, _⟩
        · exact hzc
        · intro r' c' x' hx' hrev
          obtain ⟨x, hx, e⟩ := fieldsEq_cell i5 hx'
          have e' : x'.isRevealed = x.isRevealed := e
          have := (countCells_eq_zero_iff _ _).1 (hinv.fresh hfc).2.2 r' c' x hx
          rw [e', this] at hrev
          cases hrev
      obtain ⟨x1, hx1, _⟩ := revealOrLose_cases h2
      cases hm : x1.isMine with
      | true =>
        obtain ⟨g', _, hpt, hres⟩ := revealOrLose_mine i1.rect hx1 hm
        rw [hres] at h2
        cases h2
        have hfe : ∀ {β : Type} (proj : Cell → β),
            (∀ r' c' x, proj (if x.isMine then mineWrite r c r' c' x else x) = proj x) →
            FieldsEq proj s1.grid g' := fun proj hp =>
          fieldsEq_of_map (fun r' c' x => if x.isMine then mineWrite r c r' c' x else x) hp hpt
        have f1 := hfe (fun x => x.isRevealed) (by intro r' c' x; split_ifs <;> rfl)
        have f2 := hfe (fun x => x.isFlagged) (by intro r' c' x; split_ifs <;> rfl)
        have f3 := hfe (fun x => x.neighborMines) (by intro r' c' x; split_ifs <;> rfl)
        refine ⟨?_, zeroCellsClosed_fieldsEq f1 f2 f3 hzc1⟩
        intro r' c'
        show flaggedAt g' r' c' = false
        rw [flaggedAt_fieldsEq f2]
        exact hnf1 r' c'
      | false =>
        obtain ⟨g', _, hpost, hres⟩ := revealOrLose_safe i1.rect hx1 hm
        rw [hres] at h2
        have hs' := Except.ok.inj h2
        have hgrid : s'.grid = g' := by rw [← hs']; split_ifs <;> rfl
        obtain ⟨_, hext, _, _, _, hclosed⟩ := hpost
        rw [hgrid]
        refine ⟨?_, ?_⟩
        · intro r' c'
          rw [flaggedAt_fieldsEq (fieldsEq_of_revealExt revealWrite_isFlagged hext)]
          exact hnf1 r' c'
        · intro r' c' x' hx' hrev hnum
          obtain ⟨x, hx, e⟩ :=
            fieldsEq_cell (fieldsEq_of_revealExt revealWrite_neighborMines hext) hx'
          have e' : x'.neighborMines = x.neighborMines := e
          cases hxr : x.isRevealed with
          | true =>
            intro ij hij
            exact blockedAt_mono hext (hzc1 r' c' x hx hxr (e' ▸ hnum) ij hij)
          | false =>
            have hnew : NewlyRevealed s1.grid g' r' c' :=
              ⟨by unfold revealedAt; rw [hx']; exact hrev,
               by unfold revealedAt; rw [hx]; exact hxr⟩
            exact hclosed r' c' x hnew hx (e' ▸ hnum)

theorem neg_mem_offsets {ij : Int × Int} (h : ij ∈ neighborOffsets) :
    (-ij.1, -ij.2) ∈ offsets := by
  simp only [neighborOffsets, List.mem_cons, List.mem_singleton, List.mem_nil_iff,
    or_false] at h
  rcases h with rfl | rfl | rfl | rfl | rfl | rfl | rfl | rfl <;> simp [offsets]

/-- Without flags, the component of zero-count cells of an unrevealed cell holds no
revealed cell. -/
theorem component_unrevealed {g : Grid} (hnf : ∀ r c, flaggedAt g r c = false)
    (hzc : ZeroCellsClosed g) {r0 c0 : Int} (h0 : revealedAt g r0 c0 = false) {r c : Int}
    (h : InComponent g r0 c0 r c) : revealedAt g r c = false := by
  induction h with
  | base _ => exact h0
  | step r c ij hc hij hz ih =>
    cases hrev : revealedAt g (r + ij.1) (c + ij.2) with
    | false => rfl
    | true =>
      exfalso
      obtain ⟨y, hy, _, hyn⟩ := zeroAt_cell hz
      have hyr : y.isRevealed = true := by
        unfold revealedAt at hrev
        rw [hy] at hrev
        exact hrev
      have hb := hzc _ _ y hy hyr hyn (-ij.1, -ij.2) (neg_mem_offsets hij)
      simp only [add_neg_cancel_right] at hb
      obtain ⟨x, hx, _, _⟩ := zeroAt_cell (inComponent_zero hc)
      have hfl := hnf r c
      unfold blockedAt at hb
      unfold flaggedAt at hfl
      unfold revealedAt at ih
      rw [hx] at hb hfl ih
      have hfl' : x.isFlagged = false := hfl
      have ih' : x.isRevealed = false := ih
      simp [hfl', ih'] at hb

/-- The cells that a flood fill newly reveals from a zero-count cell lie in its closure,
and when no cell is flagged and no cell of the component is revealed, the whole closure
is revealed afterwards. -/
theorem cascade_closure {rows cols : Nat} {g g' : Grid} {r c : Int}
    (hpost : RevealPost rows cols g r c g') (hok : NumbersOk g) {x : Cell}
    (hx : getCell g r c = some x) (hr : x.isRevealed = false) (hf : x.isFlagged = false)
    (hm : x.isMine = false) (hz : x.neighborMines = 0)
    (hnf : ∀ r' c', flaggedAt g r' c' = false)
    (hrev : ∀ r' c', InComponent g r c r' c' → revealedAt g r' c' = false) :
    (∀ r' c', NewlyRevealed g g' r' c' → InClosure g r c r' c') ∧
    (∀ r' c', InClosure g r c r' c' → revealedAt g' r' c' = true) := by
  obtain ⟨_, hext, _, hblk, hup, hclosed⟩ := hpost
  have hzero : zeroAt g r c = true := by
    unfold zeroAt
    rw [hx]
    simp [hm, hz]
  have hnew : NewlyRevealed g g' r c := by
    refine ⟨?_, by unfold revealedAt; rw [hx]; exact hr⟩
    unfold revealedAt
    rcases hext r c with e | ⟨y, _, _, _, hy'⟩
    · unfold blockedAt at hblk
      rw [e, hx] at hblk
      simp [hr, hf] at hblk
    · rw [hy']
      exact revealWrite_isRevealed y
  have hsr : ∀ r' c', Spread g r c r' c' → revealedAt g' r' c' = true :=
    fun r' c' hs => spread_revealed hext hclosed hs hnew
  have hcs : ∀ r1 c1, InComponent g r c r1 c1 → Spread g r c r1 c1 :=
    fun r1 c1 hc => component_spread (fun a b _ => hnf a b) hrev hc
  constructor
  · intro r' c' hn
    exact spread_in_closure hok (hup r' c' hn)
      ⟨r, c, (0, 0), InComponent.base hzero, by simp [offsets], by simp, by simp⟩
  · intro r' c' hcl
    rcases hcl with hc | ⟨r1, c1, ij, hc1, hij, rfl, rfl, hsome⟩
    · exact hsr r' c' (hcs r' c' hc)
    · have hfl := hnf (r1 + ij.1) (c1 + ij.2)
      cases hy : getCell g (r1 + ij.1) (c1 + ij.2) with
      | none => rw [hy] at hsome; cases hsome
      | some y =>
        cases hyr : y.isRevealed with
        | true =>
          exact revealedAt_mono hext (by unfold revealedAt; rw [hy]; exact hyr)
        | false =>
          obtain ⟨x1, hx1, _, hn1⟩ := zeroAt_cell (inComponent_zero hc1)
          apply hsr
          refine spread_snoc (hcs r1 c1 hc1)
            (fun x' hx' => by rw [hx1] at hx'; cases hx'; exact hn1)
            (neighborOffsets_sub_offsets hij) hy hyr ?_
          unfold flaggedAt at hfl
          rw [hy] at hfl
          exact hfl

/-! ## The claims -/

/-- C1: on a board that holds no mines, a run of `placeMines(r, c)` that finishes leaves
exactly `mines` mined cells, and no cell within one row and one column of the clicked
cell is a mine. -/
theorem placeMines_exact_count_and_safe_zone (mines : Nat) (grid : Grid) (r c : Int)
    (picks : List (Nat × Nat)) (grid' : Grid)
    (hno : countCells (fun x => x.isMine) grid = 0)
    (h : placeMines mines grid r c picks = .ok grid') :
    countCells (fun x => x.isMine) grid' = mines ∧
      ∀ r' c' cell, |r' - r| ≤ 1 → |c' - c| ≤ 1 → getCell grid' r' c' = some cell →
        cell.isMine = false := by
  obtain ⟨h1, _, h3⟩ := placeMinesLoop_ok mines r c picks 0 grid grid' (Nat.zero_le _) h
  refine ⟨by omega, ?_⟩
  intro r' c' cell hr hc hcell
  obtain ⟨b, hb1, hb2⟩ := h3 r' c'
  have hb : b = false := by
    cases b with
    | false => rfl
    | true => exact absurd ⟨hr, hc⟩ (hb1 rfl)
  subst hb
  rw [hcell] at hb2
  cases hg : getCell grid r' c' with
  | none => simp [hg] at hb2
  | some x =>
    simp [hg] at hb2
    rw [hb2]
    exact (countCells_eq_zero_iff _ _).1 hno r' c' x hg

/-- C1, on the 9x9 board with 10 mines and a first click on `(4, 4)`: 10 mines, none in
rows 3-5 and columns 3-5. -/
theorem placeMines_exact_count_and_safe_zone_witness :
    countCells (fun x => x.isMine) easyMined = 10 ∧
      ∀ r' c' cell, |r' - 4| ≤ 1 → |c' - 4| ≤ 1 → getCell easyMined r' c' = some cell →
        cell.isMine = false :=
  placeMines_exact_count_and_safe_zone 10 easyGame.grid 4 4 easyPicks easyMined
    (by decide) (by decide)

/-- C2: the first reveal of a game is safe. In a reachable state in which no reveal has
happened yet, a left click on an unflagged cell of the grid that returns leaves the
clicked cell without a mine, with `neighborMines = 0` and revealed, and the game is not
lost. -/
theorem first_reveal_is_safe (s : Minesweeper) (hreach : Reachable s) (hns : NotStarted s)
    (r c : Int) (cell0 : Cell) (h0 : getCell s.grid r c = some cell0)
    (hf : cell0.isFlagged = false) (picks : List (Nat × Nat)) (s' : Minesweeper)
    (h : handleLeftClick s r c picks = .ok s') :
    ∃ cell, getCell s'.grid r c = some cell ∧ cell.isMine = false ∧
      cell.neighborMines = 0 ∧ cell.isRevealed = true ∧ ¬ Lost s' := by
  have hinv := inv_reachable hreach
  obtain ⟨hgo, hfc⟩ := hns
  obtain ⟨_, _, hnorev⟩ := hinv.fresh hfc
  have hr0 : cell0.isRevealed = false := (countCells_eq_zero_iff _ _).1 hnorev r c cell0 h0
  rw [handleLeftClick_effective hgo h0 hf hr0] at h
  cases h1 : firstClickBlock s r c picks with
  | error e => rw [h1] at h; cases h
  | ok s1 =>
    simp only [h1] at h
    obtain ⟨i1, _, i3, i4, _, _, _, _, i5, i6, i7⟩ := inv_firstClickBlock hinv h1
    obtain ⟨x1, hx1, e1⟩ := fieldsEq_cell' i5 h0
    obtain ⟨y1, hy1, e2⟩ := fieldsEq_cell' i6 h0
    rw [hx1] at hy1
    cases hy1
    have e1' : x1.isRevealed = false := by rw [← hr0]; exact e1
    have e2' : x1.isFlagged = false := by rw [← hf]; exact e2
    obtain ⟨hm1, hz1⟩ := i7 hfc x1 hx1
    obtain ⟨g', _, hpost, hres⟩ := revealOrLose_safe i1.rect hx1 hm1
    rw [hres] at h
    have hgrid : s'.grid = g' := by split_ifs at h <;> cases h <;> rfl
    have hnl : ¬ Lost s' := by
      unfold Lost
      split_ifs at h <;> cases h <;> simp [stopTimer, i3, hgo]
    obtain ⟨_, hext, _, hblk, _, _⟩ := hpost
    rw [hgrid]
    rcases hext r c with e | ⟨x, hx, _, _, hx'⟩
    · unfold blockedAt at hblk
      rw [e, hx1] at hblk
      simp [e1', e2'] at hblk
    · rw [hx1] at hx
      cases hx
      exact ⟨revealWrite x1, hx', by rw [revealWrite_isMine]; exact hm1,
        by rw [revealWrite_neighborMines]; exact hz1, revealWrite_isRevealed x1, hnl⟩

set_option maxRecDepth 100000 in
/-- C2 on the easy game: first click on `(0, 0)` with `cornerPicks`. -/
theorem first_reveal_is_safe_witness :
    ∃ cell, getCell cornerOpened.grid 0 0 = some cell ∧ cell.isMine = false ∧
      cell.neighborMines = 0 ∧ cell.isRevealed = true ∧ ¬ Lost cornerOpened :=
  first_reveal_is_safe easyGame easyGame_reachable ⟨by decide, by decide⟩ 0 0 freshCell
    (by decide) (by decide) cornerPicks cornerOpened (by decide)

/-- C3: on a grid of `rows` rows of `cols` cells, `calculateNumbers` returns, and then the
`neighborMines` of every cell that is not a mine is the number of mined cells among its
in-bounds Moore neighbours, a number between 0 and 8. -/
theorem calculateNumbers_counts_moore_neighbours (rows cols : Nat) (grid : Grid)
    (hrect : Rect rows cols grid) :
    ∃ grid', calculateNumbers rows cols grid = .ok grid' ∧
      ∀ r c cell, getCell grid' r c = some cell → cell.isMine = false →
        cell.neighborMines = mooreCount grid' r c ∧
          0 ≤ cell.neighborMines ∧ cell.neighborMines ≤ 8 := by
  obtain ⟨g', h1, _, h3⟩ := calculateNumbers_ok hrect
  refine ⟨g', h1, ?_⟩
  intro r c cell hcell hmine
  have hmined : ∀ r' c', minedAt g' r' c' = minedAt grid r' c' := by
    intro r' c'
    unfold minedAt
    rw [h3]
    cases getCell grid r' c' with
    | none => rfl
    | some x => simp only [Option.map_some']; split_ifs <;> rfl
  have hval : cell.neighborMines = mooreCount g' r c := by
    rw [h3] at hcell
    cases hg : getCell grid r c with
    | none => simp [hg] at hcell
    | some x =>
      simp only [hg, Option.map_some', Option.some.injEq] at hcell
      rw [mooreCount_congr hmined]
      by_cases hx : x.isMine = true
      · rw [if_pos hx] at hcell
        rw [← hcell, hx] at hmine
        cases hmine
      · rw [if_neg hx] at hcell
        rw [← hcell]
  exact ⟨hval, Nat.zero_le _, hval ▸ mooreCount_le g' r c⟩

/-- C3 on a 3x3 grid with two mined corners. -/
theorem calculateNumbers_counts_moore_neighbours_witness :
    Rect 3 3 cornerMines ∧
      ∃ grid', calculateNumbers 3 3 cornerMines = .ok grid' ∧
        ∀ r c cell, getCell grid' r c = some cell → cell.isMine = false →
          cell.neighborMines = mooreCount grid' r c ∧
            0 ≤ cell.neighborMines ∧ cell.neighborMines ≤ 8 :=
  ⟨by decide, calculateNumbers_counts_moore_neighbours 3 3 cornerMines (by decide)⟩

set_option maxRecDepth 100000 in
/-- C4 fails as stated: in the easy game in progress with a flag on the zero-count cell
`(4, 4)`, the left click on the zero-count cell `(4, 5)` next to it leaves `(4, 4)`, a
cell of the component of `(4, 5)`, unrevealed. -/
theorem flagged_cell_of_component_stays_hidden :
    Reachable cornerFlagged ∧ InProgress cornerFlagged ∧
      zeroAt cornerFlagged.grid 4 5 = true ∧ revealedAt cornerFlagged.grid 4 5 = false ∧
      flaggedAt cornerFlagged.grid 4 5 = false ∧
      handleLeftClick cornerFlagged 4 5 [] = .ok cornerFlooded ∧
      InClosure cornerFlagged.grid 4 5 4 4 ∧ revealedAt cornerFlooded.grid 4 4 = false := by
  refine ⟨cornerFlagged_reachable, ⟨by decide, by decide⟩, by decide, by decide, by decide,
    by decide, ?_, by decide⟩
  have h : InComponent cornerFlagged.grid 4 5 (4 + ((0 : Int), (-1 : Int)).1)
      (5 + ((0 : Int), (-1 : Int)).2) :=
    InComponent.step 4 5 (0, -1) (InComponent.base (by decide)) (by decide) (by decide)
  have e1 : (4 : Int) + ((0 : Int), (-1 : Int)).1 = 4 := by decide
  have e2 : (5 : Int) + ((0 : Int), (-1 : Int)).2 = 4 := by decide
  rw [e1, e2] at h
  exact Or.inl h

/-- C4, amended: in a reachable state in progress, a left click on an unrevealed,
unflagged cell without a mine and with `neighborMines = 0` returns, and afterwards the
revealed cells are the cells revealed before together with the cells that the cascade
reaches from the target along adjacent unrevealed, unflagged cells of which all but the
last have `neighborMines = 0`. All of these lie in the closure of the target (its
component of zero-count cells and the in-bounds neighbours of that component), so no
cell outside the closure is revealed; a flagged cell is never revealed and stops the
cascade. When no cell of the closure is flagged and no cell of the component is already
revealed, every cell of the closure is revealed afterwards. -/
theorem reveal_zero_cell_cascade (s : Minesweeper) (hreach : Reachable s)
    (hprog : InProgress s) (r c : Int) (cell : Cell) (h0 : getCell s.grid r c = some cell)
    (hr : cell.isRevealed = false) (hf : cell.isFlagged = false) (hm : cell.isMine = false)
    (hz : cell.neighborMines = 0) (picks : List (Nat × Nat)) :
    ∃ s', handleLeftClick s r c picks = .ok s' ∧
      (∀ r' c', revealedAt s'.grid r' c' = true ↔
        (revealedAt s.grid r' c' = true ∨ Spread s.grid r c r' c')) ∧
      (∀ r' c', Spread s.grid r c r' c' → InClosure s.grid r c r' c') ∧
      ((∀ r' c', InClosure s.grid r c r' c' → flaggedAt s.grid r' c' = false) →
        (∀ r' c', InComponent s.grid r c r' c' → revealedAt s.grid r' c' = false) →
        ∀ r' c', InClosure s.grid r c r' c' → revealedAt s'.grid r' c' = true) := by
  have hinv := inv_reachable hreach
  obtain ⟨hgo, hfc⟩ := hprog
  obtain ⟨g', _, hpost, hres⟩ := revealOrLose_safe hinv.rect h0 hm
  obtain ⟨s', hs', hgrid⟩ : ∃ s', revealOrLose s r c = .ok s' ∧ s'.grid = g' :=
    ⟨_, hres, by split_ifs <;> rfl⟩
  obtain ⟨_, hext, _, hblk, hup, hclosed⟩ := hpost
  have hzero : zeroAt s.grid r c = true := by
    unfold zeroAt
    rw [h0]
    simp [hm, hz]
  have hnew : NewlyRevealed s.grid g' r c := by
    refine ⟨?_, by unfold revealedAt; rw [h0]; exact hr⟩
    unfold revealedAt
    rcases hext r c with e | ⟨x, _, _, _, hx'⟩
    · unfold blockedAt at hblk
      rw [e, h0] at hblk
      simp [hr, hf] at hblk
    · rw [hx']
      exact revealWrite_isRevealed x
  have hsr : ∀ r' c', Spread s.grid r c r' c' → revealedAt g' r' c' = true :=
    fun r' c' hs => spread_revealed hext hclosed hs hnew
  refine ⟨s', ?_, ?_, ?_, ?_⟩
  · rw [handleLeftClick_effective hgo h0 hf hr]
    have : firstClickBlock s r c picks = .ok s := by
      unfold firstClickBlock
      simp [hfc]
    rw [this]
    exact hs'
  · intro r' c'
    rw [hgrid]
    constructor
    · intro h
      cases hb : revealedAt s.grid r' c' with
      | true => exact Or.inl rfl
      | false => exact Or.inr (hup r' c' ⟨h, hb⟩)
    · rintro (h | h)
      · exact revealedAt_mono hext h
      · exact hsr r' c' h
  · intro r' c' hs
    exact spread_in_closure (hinv.placed hfc).2 hs
      ⟨r, c, (0, 0), InComponent.base hzero, by simp [offsets], by simp, by simp⟩
  · intro hflag hrev r' c' hcl
    rw [hgrid]
    have hcs : ∀ r1 c1, InComponent s.grid r c r1 c1 → Spread s.grid r c r1 c1 :=
      fun r1 c1 hc => component_spread (fun a b hab => hflag a b (Or.inl hab)) hrev hc
    rcases hcl with hc | ⟨r1, c1, ij, hc1, hij, rfl, rfl, hsome⟩
    · exact hsr r' c' (hcs r' c' hc)
    · have hfl := hflag _ _ (Or.inr ⟨r1, c1, ij, hc1, hij, rfl, rfl, hsome⟩)
      cases hy : getCell s.grid (r1 + ij.1) (c1 + ij.2) with
      | none => rw [hy] at hsome; cases hsome
      | some y =>
        cases hyr : y.isRevealed with
        | true =>
          exact revealedAt_mono hext (by unfold revealedAt; rw [hy]; exact hyr)
        | false =>
          obtain ⟨x1, hx1, _, hn1⟩ := zeroAt_cell (inComponent_zero hc1)
          apply hsr
          refine spread_snoc (hcs r1 c1 hc1)
            (fun x' hx' => by rw [hx1] at hx'; cases hx'; exact hn1)
            (neighborOffsets_sub_offsets hij) hy hyr ?_
          unfold flaggedAt at hfl
          rw [hy] at hfl
          exact hfl

set_option maxRecDepth 100000 in
/-- C4, amended, on the easy game in progress with a flag on `(4, 4)`: the left click on
`(4, 5)`. -/
theorem reveal_zero_cell_cascade_witness :
    ∃ s', handleLeftClick cornerFlagged 4 5 [] = .ok s' ∧
      (∀ r' c', revealedAt s'.grid r' c' = true ↔
        (revealedAt cornerFlagged.grid r' c' = true ∨ Spread cornerFlagged.grid 4 5 r' c')) ∧
      (∀ r' c', Spread cornerFlagged.grid 4 5 r' c' → InClosure cornerFlagged.grid 4 5 r' c') ∧
      ((∀ r' c', InClosure cornerFlagged.grid 4 5 r' c' →
          flaggedAt cornerFlagged.grid r' c' = false) →
        (∀ r' c', InComponent cornerFlagged.grid 4 5 r' c' →
          revealedAt cornerFlagged.grid r' c' = false) →
        ∀ r' c', InClosure cornerFlagged.grid 4 5 r' c' → revealedAt s'.grid r' c' = true) :=
  reveal_zero_cell_cascade cornerFlagged cornerFlagged_reachable ⟨by decide, by decide⟩ 4 5
    freshCell (by decide) (by decide) (by decide) (by decide) (by decide) []

/-- C5: the outcome of an effective reveal. On a grid of `rows` rows of `cols` cells, a
left click on an unflagged, unrevealed cell while the game is not over that returns
ends in a lost game if the target holds a mine (and then never in a won game); if it
holds none, the game is won exactly when, after the flood fill, the number of revealed
cells is `rows * cols - mines`, and is in progress otherwise. -/
theorem reveal_outcome (s : Minesweeper) (hrect : Rect s.rows s.cols s.grid)
    (hgo : s.gameOver = false) (r c : Int) (cell0 : Cell)
    (h0 : getCell s.grid r c = some cell0) (hf : cell0.isFlagged = false)
    (hr : cell0.isRevealed = false) (picks : List (Nat × Nat)) (s' : Minesweeper)
    (h : handleLeftClick s r c picks = .ok s') :
    ∃ cell, getCell s'.grid r c = some cell ∧
      (cell.isMine = true → Lost s' ∧ ¬ Won s') ∧
      (cell.isMine = false →
        (Won s' ↔ ((countCells (fun x => x.isRevealed) s'.grid : Nat) : Int)
          = (s.rows : Int) * s.cols - s.mines) ∧
        (¬ Won s' → InProgress s')) := by
  rw [handleLeftClick_effective hgo h0 hf hr] at h
  cases h1 : firstClickBlock s r c picks with
  | error e => rw [h1] at h; cases h
  | ok s1 =>
    simp only [h1] at h
    obtain ⟨j1, j2, j3, j4, j5, j6, _⟩ := firstClickBlock_rect hrect h1
    obtain ⟨x1, hx1, _⟩ := revealOrLose_cases h
    cases hm : x1.isMine with
    | true =>
      obtain ⟨g', _, hpt, hres⟩ := revealOrLose_mine j1 hx1 hm
      rw [hres] at h
      cases h
      refine ⟨mineWrite r c r c x1, ?_, ?_, ?_⟩
      · show getCell g' r c = _
        rw [hpt, hx1]
        simp [hm]
      · intro _
        exact ⟨⟨rfl, rfl⟩, fun hw => by cases hw.2⟩
      · intro hc
        rw [(mineWrite_fields r c r c x1).1, hm] at hc
        cases hc
    | false =>
      obtain ⟨g', _, hpost, hres⟩ := revealOrLose_safe j1 hx1 hm
      rw [hres] at h
      obtain ⟨_, hext, _⟩ := hpost
      have hcell : ∃ cell, getCell g' r c = some cell ∧ cell.isMine = false := by
        obtain ⟨x', hx', e⟩ := fieldsEq_cell' (fieldsEq_of_revealExt revealWrite_isMine hext) hx1
        exact ⟨x', hx', by rw [← hm]; exact e⟩
      obtain ⟨cell, hcell, hcm⟩ := hcell
      rw [j2, j3, j4] at h
      have hs := Except.ok.inj h
      have hgrid : s'.grid = g' := by rw [← hs]; split_ifs <;> rfl
      have hfc' : s'.firstClick = false := by rw [← hs]; split_ifs <;> exact j6
      rw [hgrid]
      have hnm : cell.isMine = true → Lost s' ∧ ¬ Won s' := by
        intro hc
        rw [hcm] at hc
        cases hc
      refine ⟨cell, hcell, hnm, fun _ => ?_⟩
      by_cases hcount : ((countCells (fun x => x.isRevealed) g' : Nat) : Int)
          = (s.rows : Int) * s.cols - s.mines
      · have hgo' : s'.gameOver = true := by rw [← hs, if_pos hcount]; rfl
        have hem : s'.emoji = .party := by rw [← hs, if_pos hcount]
        exact ⟨⟨fun _ => hcount, fun _ => ⟨hgo', hem⟩⟩, fun hnw => absurd ⟨hgo', hem⟩ hnw⟩
      · have hgo' : s'.gameOver = false := by rw [← hs, if_neg hcount]; exact j5.trans hgo
        refine ⟨⟨fun hw => ?_, fun hc => absurd hc hcount⟩, fun _ => ⟨hgo', hfc'⟩⟩
        have : s'.gameOver = true := hw.1
        rw [hgo'] at this
        cases this

set_option maxRecDepth 100000 in
/-- C5 on the easy game in progress: the left click on `(4, 5)`. -/
theorem reveal_outcome_witness :
    ∃ cell, getCell cornerFlooded.grid 4 5 = some cell ∧
      (cell.isMine = true → Lost cornerFlooded ∧ ¬ Won cornerFlooded) ∧
      (cell.isMine = false →
        (Won cornerFlooded ↔
          ((countCells (fun x => x.isRevealed) cornerFlooded.grid : Nat) : Int)
            = (cornerFlagged.rows : Int) * cornerFlagged.cols - cornerFlagged.mines) ∧
        (¬ Won cornerFlooded → InProgress cornerFlooded)) :=
  reveal_outcome cornerFlagged (by decide) (by decide) 4 5
    { freshCell with neighborMines := 0 } (by decide) (by decide) (by decide) []
    cornerFlooded (by decide)

/-- C6: outside its preconditions a left click changes nothing. When the game is over,
or the target cell is flagged, or it is already revealed, `handleLeftClick` returns the
state it was given: no mines are placed and the game is not started. -/
theorem handleLeftClick_noop (s : Minesweeper) (r c : Int) (picks : List (Nat × Nat))
    (h : s.gameOver = true ∨
      ∃ cell, getCell s.grid r c = some cell ∧
        (cell.isFlagged = true ∨ cell.isRevealed = true)) :
    handleLeftClick s r c picks = .ok s := by
  unfold handleLeftClick
  rcases h with hgo | ⟨cell, hcell, hfr⟩
  · rw [if_pos hgo]
  · by_cases hgo : s.gameOver = true
    · rw [if_pos hgo]
    · rw [if_neg hgo]
      simp only [cellAt_of_getCell hcell]
      rcases hfr with hf | hr
      · simp [hf]
      · simp [hr]

/-- C6 on the easy game: a first click on the flagged cell `(4, 4)`. -/
theorem handleLeftClick_noop_witness :
    handleLeftClick easyFlagged 4 4 easyPicks = .ok easyFlagged :=
  handleLeftClick_noop easyFlagged 4 4 easyPicks
    (Or.inr ⟨flagWrite freshCell, by decide, Or.inl (by decide)⟩)

set_option maxRecDepth 100000 in
/-- C7 fails as stated: in the easy game opened by a first click on `(0, 0)`, the left
click on the mine `(0, 2)` loses the game and leaves that mined cell with
`isRevealed = false`. -/
theorem reveal_mine_keeps_isRevealed_false :
    InProgress cornerOpened ∧ minedAt cornerOpened.grid 0 2 = true ∧
      handleLeftClick cornerOpened 0 2 [] = .ok cornerLost ∧ Lost cornerLost ∧
      minedAt cornerLost.grid 0 2 = true ∧ revealedAt cornerLost.grid 0 2 = false := by
  refine ⟨⟨by decide, by decide⟩, by decide, by decide, ⟨by decide, by decide⟩, by decide,
    by decide⟩

/-- C7, amended: after a reveal whose target is a mine (on a grid of `rows` rows of
`cols` cells, mines placed, game not over) the game is lost and the element of every mined
cell is marked as a mine for display (class `mine`, bomb text); `isRevealed` is changed
for no cell and the cells without a mine are not changed at all. -/
theorem reveal_mine_marks_mine_elements (s : Minesweeper) (hrect : Rect s.rows s.cols s.grid)
    (hgo : s.gameOver = false) (hfc : s.firstClick = false) (r c : Int) (cell : Cell)
    (h0 : getCell s.grid r c = some cell) (hm : cell.isMine = true)
    (hf : cell.isFlagged = false) (hr : cell.isRevealed = false) (picks : List (Nat × Nat)) :
    ∃ s', handleLeftClick s r c picks = .ok s' ∧ Lost s' ∧
      ∀ r' c' x, getCell s.grid r' c' = some x →
        ∃ x', getCell s'.grid r' c' = some x' ∧ x'.isRevealed = x.isRevealed ∧
          (x.isMine = true →
            x'.isMine = true ∧ x'.element.mine = true ∧ x'.element.textContent = .bomb) ∧
          (x.isMine = false → x' = x) := by
  obtain ⟨g', _, hpt, hres⟩ := revealOrLose_mine hrect h0 hm
  refine ⟨{ stopTimer { s with gameOver := true } with
      emoji := .dizzy, grid := g', gameOverTimeout := true }, ?_, ⟨rfl, rfl⟩, ?_⟩
  · rw [handleLeftClick_effective hgo h0 hf hr]
    have : firstClickBlock s r c picks = .ok s := by
      unfold firstClickBlock
      simp [hfc]
    rw [this]
    exact hres
  · intro r' c' x hx
    refine ⟨if x.isMine then mineWrite r c r' c' x else x, ?_, ?_, ?_, ?_⟩
    · show getCell g' r' c' = _
      rw [hpt, hx]
      rfl
    · split_ifs <;> rfl
    · intro hxm
      rw [if_pos hxm]
      exact ⟨hxm, rfl, rfl⟩
    · intro hxm
      rw [hxm]
      rfl

set_option maxRecDepth 100000 in
/-- C7, amended, on the easy game: the left click on the mine `(0, 2)`. -/
theorem reveal_mine_marks_mine_elements_witness :
    ∃ s', handleLeftClick cornerOpened 0 2 [] = .ok s' ∧ Lost s' ∧
      ∀ r' c' x, getCell cornerOpened.grid r' c' = some x →
        ∃ x', getCell s'.grid r' c' = some x' ∧ x'.isRevealed = x.isRevealed ∧
          (x.isMine = true →
            x'.isMine = true ∧ x'.element.mine = true ∧ x'.element.textContent = .bomb) ∧
          (x.isMine = false → x' = x) :=
  reveal_mine_marks_mine_elements cornerOpened (by decide) (by decide) (by decide) 0 2
    { freshCell with isMine := true } (by decide) (by decide) (by decide) (by decide) []

/-- C8: in every state reached from `startNewGame` by left and right clicks, no cell is
a mine before the first reveal and exactly `mines` cells are mines after it; a right
click never changes `isMine` or `neighborMines` of a cell, and neither does a left
click once the first reveal has happened (the mines are placed once). -/
theorem mines_placed_once (s : Minesweeper) (hreach : Reachable s) :
    (s.firstClick = true → countCells (fun x => x.isMine) s.grid = 0) ∧
    (s.firstClick = false → countCells (fun x => x.isMine) s.grid = s.mines) ∧
    (∀ r c s', handleRightClick s r c = .ok s' →
      FieldsEq (fun x => (x.isMine, x.neighborMines)) s.grid s'.grid ∧
        s'.firstClick = s.firstClick) ∧
    (s.firstClick = false → ∀ r c picks s', handleLeftClick s r c picks = .ok s' →
      FieldsEq (fun x => (x.isMine, x.neighborMines)) s.grid s'.grid ∧
        s'.firstClick = false) := by
  have hinv := inv_reachable hreach
  refine ⟨fun h => (hinv.fresh h).2.1, fun h => (hinv.placed h).1, ?_, ?_⟩
  · intro r c s' h
    rcases handleRightClick_cases h with rfl | ⟨_, cell, _, _, rfl⟩
    · exact ⟨fieldsEq_refl _ _, rfl⟩
    · refine ⟨fieldsEq_modifyCell _ _ _ (fun x => ?_), rfl⟩
      rw [(flagWrite_fields x).1, (flagWrite_fields x).2.2.1]
  · intro hfc r c picks s' h
    exact handleLeftClick_frame hinv.rect hfc h _
      (fun x => by rw [revealWrite_isMine, revealWrite_neighborMines])
      (fun _ _ _ _ _ => rfl)

/-- C8 on the easy game after its first click. -/
theorem mines_placed_once_witness :
    (cornerOpened.firstClick = true → countCells (fun x => x.isMine) cornerOpened.grid = 0) ∧
    (cornerOpened.firstClick = false →
      countCells (fun x => x.isMine) cornerOpened.grid = cornerOpened.mines) ∧
    (∀ r c s', handleRightClick cornerOpened r c = .ok s' →
      FieldsEq (fun x => (x.isMine, x.neighborMines)) cornerOpened.grid s'.grid ∧
        s'.firstClick = cornerOpened.firstClick) ∧
    (cornerOpened.firstClick = false → ∀ r c picks s',
      handleLeftClick cornerOpened r c picks = .ok s' →
      FieldsEq (fun x => (x.isMine, x.neighborMines)) cornerOpened.grid s'.grid ∧
        s'.firstClick = false) :=
  mines_placed_once cornerOpened cornerOpened_reachable

/-- C9: in every state reached from `startNewGame` by left and right clicks, no cell is
both revealed and flagged. -/
theorem never_revealed_and_flagged (s : Minesweeper) (hreach : Reachable s) :
    ∀ r c cell, getCell s.grid r c = some cell →
      ¬ (cell.isRevealed = true ∧ cell.isFlagged = true) :=
  (inv_reachable hreach).exclusive

/-- C9 on the easy game with a flag set after its first click. -/
theorem never_revealed_and_flagged_witness :
    Reachable cornerFlagged ∧
      ∀ r c cell, getCell cornerFlagged.grid r c = some cell →
        ¬ (cell.isRevealed = true ∧ cell.isFlagged = true) :=
  ⟨cornerFlagged_reachable, never_revealed_and_flagged cornerFlagged cornerFlagged_reachable⟩

/-- C10: in every state reached from `startNewGame` by left and right clicks, the flag
counter `flags` is the number of cells whose `isFlagged` is true. -/
theorem flags_counts_flagged_cells (s : Minesweeper) (hreach : Reachable s) :
    s.flags = countCells (fun x => x.isFlagged) s.grid :=
  (inv_reachable hreach).flagCount

set_option maxRecDepth 100000 in
/-- C10 on the easy game after a flag has been set and cleared again. -/
theorem flags_counts_flagged_cells_witness :
    cornerUnflagged.flags = countCells (fun x => x.isFlagged) cornerUnflagged.grid :=
  flags_counts_flagged_cells cornerUnflagged
    (Reachable.right cornerFlagged 4 4 cornerUnflagged cornerFlagged_reachable (by decide))

/-- C11: the effect of `handleRightClick` on a cell of the grid. When the game is over or
the cell is revealed the state is returned unchanged. Otherwise the call returns a state
in which `isFlagged` of the cell is flipped, `flags` is one more when the flag was set
and one less when it was cleared, `isMine`, `isRevealed` and `neighborMines` of the cell
are as before, every other cell is as before, and every field of the game other than
`grid` and `flags` (among them `firstClick` and `gameOver`) is as before. -/
theorem handleRightClick_effect (s : Minesweeper) (r c : Int) (cell : Cell)
    (h0 : getCell s.grid r c = some cell) :
    ((s.gameOver = true ∨ cell.isRevealed = true) → handleRightClick s r c = .ok s) ∧
    (s.gameOver = false → cell.isRevealed = false →
      ∃ s' cell', handleRightClick s r c = .ok s' ∧ getCell s'.grid r c = some cell' ∧
        cell'.isFlagged = (!cell.isFlagged) ∧
        s'.flags = (if cell'.isFlagged then s.flags + 1 else s.flags - 1) ∧
        cell'.isMine = cell.isMine ∧ cell'.isRevealed = cell.isRevealed ∧
        cell'.neighborMines = cell.neighborMines ∧
        (∀ r' c', ¬ (r' = r ∧ c' = c) → getCell s'.grid r' c' = getCell s.grid r' c') ∧
        s'.firstClick = s.firstClick ∧ s'.gameOver = s.gameOver ∧
        { s' with grid := s.grid, flags := s.flags } = s) := by
  constructor
  · intro h
    unfold handleRightClick
    by_cases hgo : s.gameOver = true
    · rw [if_pos hgo]
    · rw [if_neg hgo]
      simp only [cellAt_of_getCell h0]
      rcases h with h | h
      · exact absurd h hgo
      · rw [if_pos h]
  · intro hgo hr
    refine ⟨{ s with grid := modifyCell s.grid r c flagWrite
                     flags := if !cell.isFlagged then s.flags + 1 else s.flags - 1 },
      flagWrite cell, ?_, ?_, (flagWrite_fields cell).2.2.2, ?_, (flagWrite_fields cell).1,
      (flagWrite_fields cell).2.1, (flagWrite_fields cell).2.2.1, ?_, rfl, rfl, rfl⟩
    · unfold handleRightClick
      simp [hgo, cellAt_of_getCell h0, hr]
    · show getCell (modifyCell s.grid r c flagWrite) r c = _
      rw [getCell_modifyCell]
      simp [h0]
    · show (if (!cell.isFlagged) = true then s.flags + 1 else s.flags - 1) = _
      rw [(flagWrite_fields cell).2.2.2]
    · intro r' c' hne
      show getCell (modifyCell s.grid r c flagWrite) r' c' = _
      rw [getCell_modifyCell, if_neg hne]

/-- C11 on the easy game: a right click on the fresh cell `(4, 4)`. -/
theorem handleRightClick_effect_witness :
    getCell easyGame.grid 4 4 = some freshCell ∧
    ((easyGame.gameOver = true ∨ freshCell.isRevealed = true) →
      handleRightClick easyGame 4 4 = .ok easyGame) ∧
    (easyGame.gameOver = false → freshCell.isRevealed = false →
      ∃ s' cell', handleRightClick easyGame 4 4 = .ok s' ∧ getCell s'.grid 4 4 = some cell' ∧
        cell'.isFlagged = (!freshCell.isFlagged) ∧
        s'.flags = (if cell'.isFlagged then easyGame.flags + 1 else easyGame.flags - 1) ∧
        cell'.isMine = freshCell.isMine ∧ cell'.isRevealed = freshCell.isRevealed ∧
        cell'.neighborMines = freshCell.neighborMines ∧
        (∀ r' c', ¬ (r' = 4 ∧ c' = 4) →
          getCell s'.grid r' c' = getCell easyGame.grid r' c') ∧
        s'.firstClick = easyGame.firstClick ∧ s'.gameOver = easyGame.gameOver ∧
        { s' with grid := easyGame.grid, flags := easyGame.flags } = easyGame) :=
  ⟨by decide, handleRightClick_effect easyGame 4 4 freshCell (by decide)⟩

/-- C12: for every difficulty found in `this.config`, whatever the state before,
`startNewGame` returns a state with the rows, columns and mines of that entry, whose
grid has `rows` rows of `cols` cells (`rows * cols` cells), each of them the fresh cell
(no mine, not revealed, not flagged, `neighborMines = 0`), with `flags = 0`, `timer = 0`,
the timer stopped and no reveal made yet (`firstClick` true, `gameOver` false). -/
theorem startNewGame_fresh (s0 : Minesweeper) (difficulty : String) (settings : Settings)
    (h : s0.config.lookup difficulty = some settings) :
    ∃ s, startNewGame s0 difficulty = .ok s ∧
      s.rows = settings.rows ∧ s.cols = settings.cols ∧ s.mines = settings.mines ∧
      Rect settings.rows settings.cols s.grid ∧
      (s.grid.map List.length).sum = settings.rows * settings.cols ∧
      (∀ row ∈ s.grid, ∀ cell ∈ row, cell = freshCell) ∧
      s.flags = 0 ∧ s.timer = 0 ∧ s.timerInterval = false ∧ NotStarted s := by
  have hs := startNewGame_entry h
  obtain ⟨hr, hc, hm, hg, hgo, hfc, hfl, ht, hti, _⟩ :=
    resetGame_fields s0 settings.rows settings.cols settings.mines
  refine ⟨_, hs, hr, hc, hm, ?_, ?_, ?_, hfl, ht, hti, ⟨hgo, hfc⟩⟩
  · rw [hg]; exact rect_replicate _ _ _
  · rw [hg]; simp
  · intro row hrow cell hcell
    rw [hg] at hrow
    rw [List.eq_of_mem_replicate hrow] at hcell
    exact List.eq_of_mem_replicate hcell

/-- C12 on the preset `hard`, 16 rows of 30 cells with 99 mines. -/
theorem startNewGame_fresh_witness :
    constructed.config.lookup "hard" = some ⟨16, 30, 99⟩ ∧
    ∃ s, startNewGame constructed "hard" = .ok s ∧
      s.rows = 16 ∧ s.cols = 30 ∧ s.mines = 99 ∧
      Rect 16 30 s.grid ∧
      (s.grid.map List.length).sum = 16 * 30 ∧
      (∀ row ∈ s.grid, ∀ cell ∈ row, cell = freshCell) ∧
      s.flags = 0 ∧ s.timer = 0 ∧ s.timerInterval = false ∧ NotStarted s :=
  ⟨by decide, startNewGame_fresh constructed "hard" ⟨16, 30, 99⟩ (by decide)⟩

/-- C13: in a reachable state before the first reveal, with `mines = 0` and no cell
flagged, a left click on any cell of the grid returns (whatever the random picks), every
cell of the grid is revealed afterwards, `rows * cols` cells in all, and the game is
won. -/
theorem first_reveal_without_mines_wins (s : Minesweeper) (hreach : Reachable s)
    (hns : NotStarted s) (hmines : s.mines = 0)
    (hnoflag : countCells (fun x => x.isFlagged) s.grid = 0) (r c : Int) (cell0 : Cell)
    (h0 : getCell s.grid r c = some cell0) (picks : List (Nat × Nat)) :
    ∃ s', handleLeftClick s r c picks = .ok s' ∧ Won s' ∧
      countCells (fun x => x.isRevealed) s'.grid = s.rows * s.cols ∧
      ∀ r' c' x, getCell s'.grid r' c' = some x → x.isRevealed = true := by
  have hinv := inv_reachable hreach
  obtain ⟨hgo, hfc⟩ := hns
  obtain ⟨_, hnomine, hnorev⟩ := hinv.fresh hfc
  have hr0 : cell0.isRevealed = false := (countCells_eq_zero_iff _ _).1 hnorev r c cell0 h0
  have hf0 : cell0.isFlagged = false := (countCells_eq_zero_iff _ _).1 hnoflag r c cell0 h0
  obtain ⟨g2, hcalc, hr2, hpt⟩ := calculateNumbers_ok hinv.rect
  have hfb : firstClickBlock s r c picks
      = .ok { startTimer { s with grid := g2 } with firstClick := false } := by
    unfold firstClickBlock
    simp [hfc, hmines, placeMines_zero, hcalc]
  have hall : ∀ r' c' x, getCell g2 r' c' = some x →
      x.isMine = false ∧ x.isRevealed = false ∧ x.isFlagged = false ∧ x.neighborMines = 0 := by
    intro r' c' x hx
    rw [hpt] at hx
    cases hg : getCell s.grid r' c' with
    | none => rw [hg] at hx; cases hx
    | some x0 =>
      have hm0 : x0.isMine = false := (countCells_eq_zero_iff _ _).1 hnomine r' c' x0 hg
      have hrv0 : x0.isRevealed = false := (countCells_eq_zero_iff _ _).1 hnorev r' c' x0 hg
      have hfl0 : x0.isFlagged = false := (countCells_eq_zero_iff _ _).1 hnoflag r' c' x0 hg
      rw [hg] at hx
      simp [hm0] at hx
      rw [← hx]
      refine ⟨rfl, hrv0, hfl0, ?_⟩
      show mooreCount s.grid r' c' = 0
      unfold mooreCount
      rw [List.countP_eq_zero]
      intro ij _
      unfold minedAt
      cases hn : getCell s.grid (r' + ij.1) (c' + ij.2) with
      | none => simp
      | some y => simpa using (countCells_eq_zero_iff _ _).1 hnomine _ _ y hn
  have hb := (getCell_isSome_iff hinv.rect r c).1 ⟨cell0, h0⟩
  obtain ⟨x1, hx1⟩ := (getCell_isSome_iff hr2 r c).2 hb
  obtain ⟨hm1, _, _, _⟩ := hall r c x1 hx1
  obtain ⟨g', _, hpost, hres⟩ := @revealOrLose_safe
    { startTimer { s with grid := g2 } with firstClick := false } r c x1 hr2 hx1 hm1
  have hflood := flood_everything hr2 hpost
    (fun r' c' x hx => (hall r' c' x hx).2) hb
  have hrev : ∀ r' c' x, getCell g' r' c' = some x → x.isRevealed = true := by
    intro r' c' x hx
    have hin' := (getCell_isSome_iff hpost.1 r' c').1 ⟨x, hx⟩
    have := hflood r' c' hin'
    unfold revealedAt at this
    rw [hx] at this
    exact this
  have hcount : countCells (fun x => x.isRevealed) g' = s.rows * s.cols :=
    countCells_all _ hpost.1 hrev
  have hcond : ((countCells (fun x => x.isRevealed) g' : Nat) : Int)
      = (s.rows : Int) * s.cols - s.mines := by
    rw [hcount, hmines]
    push_cast
    ring
  refine ⟨{ stopTimer { startTimer { s with grid := g2 } with
      firstClick := false, grid := g', gameOver := true } with emoji := .party },
    ?_, ?_, hcount, hrev⟩
  · rw [handleLeftClick_effective hgo h0 hf0 hr0, hfb]
    simp only
    rw [hres]
    exact congrArg Except.ok (if_pos hcond)
  · exact ⟨rfl, rfl⟩

/-- C13 on the 2x2 board without mines: the first click on `(0, 0)`. -/
theorem first_reveal_without_mines_wins_witness :
    ∃ s', handleLeftClick tinyGame 0 0 [] = .ok s' ∧ Won s' ∧
      countCells (fun x => x.isRevealed) s'.grid = tinyGame.rows * tinyGame.cols ∧
      ∀ r' c' x, getCell s'.grid r' c' = some x → x.isRevealed = true :=
  first_reveal_without_mines_wins tinyGame
    (Reachable.start customBoards "tiny" tinyGame (by decide)) ⟨by decide, by decide⟩
    (by decide) (by decide) 0 0 freshCell (by decide) []

/-- C14 fails as stated: in the easy game, not over, a left click and a right click on
positions outside the 9x9 grid raise a `TypeError`. -/
theorem out_of_bounds_click_raises :
    easyGame.gameOver = false ∧ getCell easyGame.grid 9 0 = none ∧
      getCell easyGame.grid (-1) 3 = none ∧
      handleLeftClick easyGame 9 0 easyPicks = .error .typeError ∧
      handleLeftClick easyGame (-1) 3 easyPicks = .error .typeError ∧
      handleRightClick easyGame 9 0 = .error .typeError ∧
      handleRightClick easyGame (-1) 3 = .error .typeError := by
  refine ⟨by decide, by decide, by decide, by decide, by decide, by decide, by decide⟩

/-- C14, amended: for a position outside the grid, `handleLeftClick` and
`handleRightClick` return the state unchanged when the game is over; when it is not
over, both raise a `TypeError` in their guard (lines 109 and 129), before any write. -/
theorem out_of_bounds_click (s : Minesweeper) (r c : Int) (picks : List (Nat × Nat))
    (hout : getCell s.grid r c = none) :
    (s.gameOver = true →
      handleLeftClick s r c picks = .ok s ∧ handleRightClick s r c = .ok s) ∧
    (s.gameOver = false →
      handleLeftClick s r c picks = .error .typeError ∧
        handleRightClick s r c = .error .typeError) := by
  have hc : cellAt s.grid r c = .error .typeError := by
    unfold cellAt
    rw [hout]
  constructor
  · intro hgo
    unfold handleLeftClick handleRightClick
    simp [hgo]
  · intro hgo
    unfold handleLeftClick handleRightClick
    simp [hgo, hc]

/-- C14, amended, on the easy game, not over, and the position `(0, 9)` right of the grid. -/
theorem out_of_bounds_click_witness :
    getCell easyGame.grid 0 9 = none ∧
    (easyGame.gameOver = true →
      handleLeftClick easyGame 0 9 [] = .ok easyGame ∧
        handleRightClick easyGame 0 9 = .ok easyGame) ∧
    (easyGame.gameOver = false →
      handleLeftClick easyGame 0 9 [] = .error .typeError ∧
        handleRightClick easyGame 0 9 = .error .typeError) :=
  ⟨by decide, out_of_bounds_click easyGame 0 9 [] (by decide)⟩

/-- C15 fails as stated: with a table that holds a 3x3 board with one mine (as many
mines as `rows * cols - 9` or more) and a board without rows, `startNewGame` returns a
new game with these very values. -/
theorem startNewGame_installs_invalid_configuration :
    (∃ s, startNewGame customBoards "stall" = .ok s ∧ s.rows = 3 ∧ s.cols = 3 ∧
      s.mines = 1 ∧ (s.mines : Int) ≥ (s.rows : Int) * s.cols - 9) ∧
    (∃ s, startNewGame customBoards "flat" = .ok s ∧ s.rows = 0 ∧ s.cols = 5 ∧
      s.mines = 0 ∧ s.grid = []) := by
  refine ⟨⟨stallGame, by decide, by decide, by decide, by decide, by decide⟩, ?_⟩
  refine ⟨_, rfl, by decide, by decide, by decide, by decide⟩

/-- C15, amended: `startNewGame` validates nothing. For a difficulty found in
`this.config` it returns a state with the rows, columns and mines of that entry,
whatever their values. The three entries that the constructor installs have at least
one row and one column and fewer than `rows * cols - 9` mines. -/
theorem startNewGame_validates_nothing (s0 : Minesweeper) (difficulty : String)
    (settings : Settings) (h : s0.config.lookup difficulty = some settings) :
    (∃ s, startNewGame s0 difficulty = .ok s ∧ s.rows = settings.rows ∧
      s.cols = settings.cols ∧ s.mines = settings.mines) ∧
    (∀ entry ∈ defaultConfig, 1 ≤ entry.2.rows ∧ 1 ≤ entry.2.cols ∧
      entry.2.mines + 9 < entry.2.rows * entry.2.cols) :=
  ⟨⟨_, startNewGame_entry h, rfl, rfl, rfl⟩, by decide⟩

/-- C15, amended, on the constructed game and the difficulty `medium`. -/
theorem startNewGame_validates_nothing_witness :
    constructed.config.lookup "medium" = some ⟨16, 16, 40⟩ ∧
    (∃ s, startNewGame constructed "medium" = .ok s ∧ s.rows = 16 ∧
      s.cols = 16 ∧ s.mines = 40) ∧
    (∀ entry ∈ defaultConfig, 1 ≤ entry.2.rows ∧ 1 ≤ entry.2.cols ∧
      entry.2.mines + 9 < entry.2.rows * entry.2.cols) :=
  ⟨by decide, startNewGame_validates_nothing constructed "medium" ⟨16, 16, 40⟩ (by decide)⟩

set_option maxRecDepth 100000 in
/-- C16 fails as stated, in two ways. In the easy game lost by a click on the mine
`(0, 2)`, a state reached by left clicks only, the left click on the unrevealed
zero-count cell `(4, 5)` reveals nothing. In the new easy game, where every cell still
has no mine and `neighborMines = 0`, the first click on `(0, 0)` places the mines first
and then leaves `(0, 2)`, a cell of the component of `(0, 0)` in the grid before the
click, unrevealed. -/
theorem reveal_after_loss_or_before_mines_misses_closure :
    (RevealReachable cornerLost ∧ zeroAt cornerLost.grid 4 5 = true ∧
      revealedAt cornerLost.grid 4 5 = false ∧
      handleLeftClick cornerLost 4 5 [] = .ok cornerLost ∧
      InClosure cornerLost.grid 4 5 4 5) ∧
    (RevealReachable easyGame ∧ zeroAt easyGame.grid 0 0 = true ∧
      revealedAt easyGame.grid 0 0 = false ∧
      handleLeftClick easyGame 0 0 cornerPicks = .ok cornerOpened ∧
      InClosure easyGame.grid 0 0 0 2 ∧ revealedAt cornerOpened.grid 0 2 = false) := by
  have hstart : RevealReachable easyGame :=
    RevealReachable.start constructed "easy" easyGame (by decide)
  refine ⟨⟨?_, by decide, by decide, by decide, Or.inl (InComponent.base (by decide))⟩,
    ⟨hstart, by decide, by decide, by decide, ?_, by decide⟩⟩
  · exact RevealReachable.left cornerOpened 0 2 [] cornerLost cornerOpened_revealReachable
      (by decide)
  · have h1 : InComponent easyGame.grid 0 0 (0 + ((0 : Int), (1 : Int)).1)
        (0 + ((0 : Int), (1 : Int)).2) :=
      InComponent.step 0 0 (0, 1) (InComponent.base (by decide)) (by decide) (by decide)
    have e1 : (0 : Int) + ((0 : Int), (1 : Int)).1 = 0 := by decide
    have e2 : (0 : Int) + ((0 : Int), (1 : Int)).2 = 1 := by decide
    rw [e1, e2] at h1
    have h2 : InComponent easyGame.grid 0 0 (0 + ((0 : Int), (1 : Int)).1)
        (1 + ((0 : Int), (1 : Int)).2) :=
      InComponent.step 0 1 (0, 1) h1 (by decide) (by decide)
    have e3 : (1 : Int) + ((0 : Int), (1 : Int)).2 = 2 := by decide
    rw [e1, e3] at h2
    exact Or.inl h2

/-- C16, amended: in a state in progress (mines placed, game not over) reached from
`startNewGame` by left clicks only, a left click on an unrevealed cell without a mine
and with `neighborMines = 0` returns; the cells it newly reveals are exactly the
unrevealed cells of the closure of the target (its component of zero-count cells and the
in-bounds neighbours of that component), and afterwards the whole closure is revealed. -/
theorem flagless_reveal_reveals_closure (s : Minesweeper) (hreach : RevealReachable s)
    (hprog : InProgress s) (r c : Int) (cell : Cell) (h0 : getCell s.grid r c = some cell)
    (hr : cell.isRevealed = false) (hm : cell.isMine = false) (hz : cell.neighborMines = 0)
    (picks : List (Nat × Nat)) :
    ∃ s', handleLeftClick s r c picks = .ok s' ∧
      (∀ r' c', NewlyRevealed s.grid s'.grid r' c' ↔
        (InClosure s.grid r c r' c' ∧ revealedAt s.grid r' c' = false)) ∧
      (∀ r' c', InClosure s.grid r c r' c' → revealedAt s'.grid r' c' = true) := by
  obtain ⟨hreach', hnf, hzc⟩ := revealReachable_inv hreach
  have hinv := inv_reachable hreach'
  obtain ⟨hgo, hfc⟩ := hprog
  have hf : cell.isFlagged = false := by
    have := hnf r c
    unfold flaggedAt at this
    rw [h0] at this
    exact this
  have hr0 : revealedAt s.grid r c = false := by
    unfold revealedAt
    rw [h0]
    exact hr
  obtain ⟨g', _, hpost, hres⟩ := revealOrLose_safe hinv.rect h0 hm
  obtain ⟨s', hs', hgrid⟩ : ∃ s', revealOrLose s r c = .ok s' ∧ s'.grid = g' :=
    ⟨_, hres, by split_ifs <;> rfl⟩
  obtain ⟨hin, hall⟩ := cascade_closure hpost (hinv.placed hfc).2 h0 hr hf hm hz hnf
    (fun r' c' hc => component_unrevealed hnf hzc hr0 hc)
  refine ⟨s', ?_, ?_, ?_⟩
  · rw [handleLeftClick_effective hgo h0 hf hr]
    have : firstClickBlock s r c picks = .ok s := by
      unfold firstClickBlock
      simp [hfc]
    rw [this]
    exact hs'
  · intro r' c'
    rw [hgrid]
    exact ⟨fun hn => ⟨hin r' c' hn, hn.2⟩, fun h => ⟨hall r' c' h.1, h.2⟩⟩
  · intro r' c' hcl
    rw [hgrid]
    exact hall r' c' hcl

set_option maxRecDepth 100000 in
/-- C16, amended, on the easy game in progress: the left click on `(4, 5)`. -/
theorem flagless_reveal_reveals_closure_witness :
    ∃ s', handleLeftClick cornerOpened 4 5 [] = .ok s' ∧
      (∀ r' c', NewlyRevealed cornerOpened.grid s'.grid r' c' ↔
        (InClosure cornerOpened.grid 4 5 r' c' ∧ revealedAt cornerOpened.grid r' c' = false)) ∧
      (∀ r' c', InClosure cornerOpened.grid 4 5 r' c' → revealedAt s'.grid r' c' = true) :=
  flagless_reveal_reveals_closure cornerOpened cornerOpened_revealReachable
    ⟨by decide, by decide⟩ 4 5 freshCell (by decide) (by decide) (by decide) (by decide) []

/-- C17: in every state reached from `startNewGame` by left and right clicks in which
the game is won, a cell is revealed exactly when it holds no mine. -/
theorem won_reveals_exactly_the_safe_cells (s : Minesweeper) (hreach : Reachable s)
    (hw : Won s) :
    ∀ r c x, getCell s.grid r c = some x → (x.isRevealed = true ↔ x.isMine = false) := by
  obtain ⟨hsub, hwon⟩ := win_reachable hreach
  obtain ⟨hfc, hcount⟩ := hwon hw
  have hinv := inv_reachable hreach
  have hmines := (hinv.placed hfc).1
  have hadd := countCells_add_not (fun x => x.isMine) s.cols s.grid s.rows hinv.rect
  have heq : countCells (fun x => x.isRevealed) s.grid
      = countCells (fun x => !x.isMine) s.grid := by
    have h1 : ((countCells (fun x => x.isMine) s.grid
        + countCells (fun x => !x.isMine) s.grid : Nat) : Int) = ((s.rows * s.cols : Nat) : Int) :=
      congrArg Nat.cast hadd
    push_cast at h1
    rw [hmines] at h1
    omega
  have hsup := countCells_subset_eq (fun x => x.isRevealed) (fun x => !x.isMine)
    (fun r c x hx hrev => by simp [hsub r c x hx hrev]) heq
  intro r c x hx
  exact ⟨hsub r c x hx, fun hm => hsup r c x hx (by simp [hm])⟩

set_option maxRecDepth 100000 in
/-- C17 on the easy game won by its first click. -/
theorem won_reveals_exactly_the_safe_cells_witness :
    Won easyWon ∧
      ∀ r c x, getCell easyWon.grid r c = some x →
        (x.isRevealed = true ↔ x.isMine = false) :=
  ⟨⟨by decide, by decide⟩,
    won_reveals_exactly_the_safe_cells easyWon
      (Reachable.left easyGame 4 4 easyPicks easyWon easyGame_reachable (by decide))
      ⟨by decide, by decide⟩⟩

/-- C18: on every grid of `rows` rows of `cols` cells, whatever its neighbour counts,
flags and revealed bits, and for every start position, `revealCell` returns within the
recursion depth `rows * cols + 1`, and returns the same grid within every greater depth.
The run that logs every assignment of `isRevealed` returns the same grid, and its log
names no cell twice, has at most `rows * cols` entries and names exactly the cells that
the run has newly revealed. -/
theorem revealCell_terminates_and_writes_once (rows cols : Nat) (grid : Grid)
    (hrect : Rect rows cols grid) (r c : Int) :
    ∃ grid' log, revealCell rows cols (rows * cols + 1) grid r c = .ok grid' ∧
      (∀ fuel, rows * cols + 1 ≤ fuel → revealCell rows cols fuel grid r c = .ok grid') ∧
      revealCellLog rows cols (rows * cols + 1) (grid, []) r c = .ok (grid', log) ∧
      log.Nodup ∧ log.length ≤ rows * cols ∧
      ∀ p, p ∈ log ↔ NewlyRevealed grid grid' p.1 p.2 := by
  obtain ⟨g', hg'⟩ := revealCell_returns hrect r c
  obtain ⟨w, hw, hnodup, hmem, hlen⟩ := revealCellLog_spec rows cols _ grid [] r c g' hrect hg'
  have hle := countCells_le (fun x => !x.isRevealed) cols grid rows hrect
  refine ⟨g', w, hg', revealCell_fuel_mono rows cols hg', ?_, hnodup, by omega, hmem⟩
  rw [hw]
  rfl

/-- C18 on the 3x3 grid with two mined corners, started on `(0, 1)`. -/
theorem revealCell_terminates_and_writes_once_witness :
    Rect 3 3 cornerMines ∧
    ∃ grid' log, revealCell 3 3 (3 * 3 + 1) cornerMines 0 1 = .ok grid' ∧
      (∀ fuel, 3 * 3 + 1 ≤ fuel → revealCell 3 3 fuel cornerMines 0 1 = .ok grid') ∧
      revealCellLog 3 3 (3 * 3 + 1) (cornerMines, []) 0 1 = .ok (grid', log) ∧
      log.Nodup ∧ log.length ≤ 3 * 3 ∧
      ∀ p, p ∈ log ↔ NewlyRevealed cornerMines grid' p.1 p.2 :=
  ⟨by decide, revealCell_terminates_and_writes_once 3 3 cornerMines (by decide) 0 1⟩

/-- C19: on a board of `rows` rows of `cols` cells, when fewer than `mines` cells lie
outside the 3x3 safe zone of the clicked cell, no sequence of random picks makes the
loop of `placeMines` finish; with picks inside the board the loop is still running when
the picks are used up, however many there are. -/
theorem placeMines_stalls (rows cols mines : Nat) (grid : Grid) (hrect : Rect rows cols grid)
    (r c : Int) (hfew : outsideSafeZone rows cols r c < mines) (picks : List (Nat × Nat)) :
    (∀ grid', placeMines mines grid r c picks ≠ .ok grid') ∧
    ((∀ p ∈ picks, p.1 < rows ∧ p.2 < cols) →
      placeMines mines grid r c picks = .error .outOfPicks) := by
  have hne : ∀ grid', placeMines mines grid r c picks ≠ .ok grid' := by
    intro grid' h
    have := placeMines_needs_room hrect h
    omega
  refine ⟨hne, ?_⟩
  intro hp
  cases h : placeMines mines grid r c picks with
  | ok g' => exact absurd h (hne g')
  | error e =>
    unfold placeMines at h
    rw [placeMinesLoop_error mines r c picks 0 grid e hrect hp h]

/-- C19 on the 3x3 board with one mine and a click on `(1, 1)`: no cell lies outside
the safe zone. -/
theorem placeMines_stalls_witness :
    Rect 3 3 stallGame.grid ∧ outsideSafeZone 3 3 1 1 < 1 ∧
    (∀ grid', placeMines 1 stallGame.grid 1 1 [(0, 0), (2, 2), (1, 1), (0, 1)] ≠ .ok grid') ∧
    ((∀ p ∈ [((0 : Nat), (0 : Nat)), (2, 2), (1, 1), (0, 1)], p.1 < 3 ∧ p.2 < 3) →
      placeMines 1 stallGame.grid 1 1 [(0, 0), (2, 2), (1, 1), (0, 1)] = .error .outOfPicks) :=
  ⟨by decide, by decide,
    placeMines_stalls 3 3 1 stallGame.grid (by decide) 1 1 (by decide)
      [(0, 0), (2, 2), (1, 1), (0, 1)]⟩

/-- C20: on a grid of `rows` rows of `cols` cells, in a game in progress, a left click on
an unrevealed, unflagged cell without a mine and with `neighborMines > 0` returns a state
whose grid is the old grid with `revealCell`'s write to that one cell: the cell is
revealed and every other cell is unchanged. -/
theorem reveal_numbered_cell_no_cascade (s : Minesweeper) (hrect : Rect s.rows s.cols s.grid)
    (hprog : InProgress s) (r c : Int) (cell : Cell) (h0 : getCell s.grid r c = some cell)
    (hr : cell.isRevealed = false) (hf : cell.isFlagged = false) (hm : cell.isMine = false)
    (hn : cell.neighborMines > 0) (picks : List (Nat × Nat)) :
    ∃ s', handleLeftClick s r c picks = .ok s' ∧
      s'.grid = modifyCell s.grid r c revealWrite ∧
      getCell s'.grid r c = some (revealWrite cell) ∧ (revealWrite cell).isRevealed = true ∧
      ∀ r' c', ¬ (r' = r ∧ c' = c) → getCell s'.grid r' c' = getCell s.grid r' c' := by
  obtain ⟨hgo, hfc⟩ := hprog
  have hb := (getCell_isSome_iff hrect r c).1 ⟨cell, h0⟩
  have hrev : revealCell s.rows s.cols (s.rows * s.cols + 1) s.grid r c
      = .ok (modifyCell s.grid r c revealWrite) := by
    unfold revealCell
    have hin : ¬ (r < 0 ∨ r ≥ (s.rows : Int) ∨ c < 0 ∨ c ≥ (s.cols : Int)) := by omega
    rw [if_neg hin]
    simp [cellAt_of_getCell h0, hr, hf, hn]
  obtain ⟨g', hg', _, hres⟩ := revealOrLose_safe hrect h0 hm
  rw [hrev] at hg'
  cases hg'
  obtain ⟨s', hs', hgrid⟩ : ∃ s', revealOrLose s r c = .ok s' ∧
      s'.grid = modifyCell s.grid r c revealWrite := ⟨_, hres, by split_ifs <;> rfl⟩
  refine ⟨s', ?_, hgrid, ?_, revealWrite_isRevealed cell, ?_⟩
  · rw [handleLeftClick_effective hgo h0 hf hr]
    have : firstClickBlock s r c picks = .ok s := by
      unfold firstClickBlock
      simp [hfc]
    rw [this]
    exact hs'
  · rw [hgrid, getCell_modifyCell]
    simp [h0]
  · intro r' c' hne
    rw [hgrid, getCell_modifyCell, if_neg hne]

set_option maxRecDepth 100000 in
/-- C20 on the easy game in progress: the left click on `(3, 3)`, a cell with one mine
around it. -/
theorem reveal_numbered_cell_no_cascade_witness :
    ∃ s', handleLeftClick cornerOpened 3 3 [] = .ok s' ∧
      s'.grid = modifyCell cornerOpened.grid 3 3 revealWrite ∧
      getCell s'.grid 3 3 = some (revealWrite { freshCell with neighborMines := 1 }) ∧
      (revealWrite { freshCell with neighborMines := 1 }).isRevealed = true ∧
      ∀ r' c', ¬ (r' = 3 ∧ c' = 3) →
        getCell s'.grid r' c' = getCell cornerOpened.grid r' c' :=
  reveal_numbered_cell_no_cascade cornerOpened (by decide) ⟨by decide, by decide⟩ 3 3
    { freshCell with neighborMines := 1 } (by decide) (by decide) (by decide) (by decide)
    (by decide) []

end Bomb
